import Mathlib

/-!
# TruthForge core validator

A shallow embedding of `core/validator.js` (class `TruthForgeValidator`): the claim ledger,
the reality recorder, divergence detection, severity scoring, evidence aggregation and the
validation gate, followed by the properties proved about them.

Conventions of the embedding.

* JavaScript values that the validator only inspects (the `expected` part of a claim, the four
  slices of a reality snapshot) are trees of type `JSVal`. Numbers in these trees are integers
  (status codes, millisecond durations, percentages, scores).
* Code that may throw returns `Except String _`; the string is the error message.
* Instants (`new Date()`) are integers, the milliseconds since the epoch. The validator only
  ever stores `toISOString()` of an instant and reads it back with `new Date(_)`, which is the
  identity on instants.
* What the outside world supplies to a run (probe outcomes, clock readings, whether a file
  write succeeds) is an explicit argument.
-/

namespace TruthForge

/-! ## JavaScript values -/

/-- A JavaScript value: `undefined`, `null`, a boolean, an (integer) number, a string, an array
or a plain object. The fields of an object are listed in property enumeration order. Two
distinct occurrences of an array or object are distinct references. -/
inductive JSVal where
  | undefined
  | null
  | bool (b : Bool)
  | num (n : Int)
  | str (s : String)
  | arr (items : List JSVal)
  | obj (fields : List (String × JSVal))
  deriving Inhabited, Repr

namespace JSVal

/-- JavaScript truthiness (`ToBoolean`). -/
def truthy : JSVal → Bool
  | undefined => false
  | null => false
  | bool b => b
  | num n => n != 0
  | str s => s != ""
  | arr _ => true
  | obj _ => true

/-- Length of a string in UTF-16 code units, which is what `s.length` counts. -/
def utf16Length (s : String) : Nat :=
  (s.toList.map fun c => if c.toNat < 65536 then 1 else 2).sum

/-- Property read `v.key` for the keys the validator reads (none of them an array index).
Reading a property of `undefined` or `null` throws a `TypeError`. -/
def get (v : JSVal) (key : String) : Except String JSVal :=
  match v with
  | undefined => .error ("Cannot read properties of undefined (reading " ++ key ++ ")")
  | null => .error ("Cannot read properties of null (reading " ++ key ++ ")")
  | bool _ => .ok undefined
  | num _ => .ok undefined
  | str s => .ok (if key = "length" then num (utf16Length s) else undefined)
  | arr items => .ok (if key = "length" then num items.length else undefined)
  | obj fields => .ok ((fields.lookup key).getD undefined)

/-- Strict equality `a === b`: by value on primitives, by reference on arrays and objects
(two values of the tree model are never the same reference). -/
def strictEq : JSVal → JSVal → Bool
  | undefined, undefined => true
  | null, null => true
  | bool a, bool b => a == b
  | num a, num b => a == b
  | str a, str b => a == b
  | _, _ => false

mutual
/-- String conversion `String(v)`. -/
def toStr : JSVal → String
  | undefined => "undefined"
  | null => "null"
  | bool b => if b then "true" else "false"
  | num n => toString n
  | str s => s
  | arr items => joinItems items
  | obj _ => "[object Object]"
/-- The comma-separated rendering `Array.prototype.join` gives: `undefined` and `null`
elements render as the empty string. -/
def joinItems : List JSVal → String
  | [] => ""
  | [x] => joinOne x
  | x :: y :: rest => joinOne x ++ "," ++ joinItems (y :: rest)
/-- One element of a joined array. -/
def joinOne : JSVal → String
  | undefined => ""
  | null => ""
  | bool b => if b then "true" else "false"
  | num n => toString n
  | str s => s
  | arr items => joinItems items
  | obj _ => "[object Object]"
end

/-- Value of a run of decimal digits, most significant first; `none` on a non-digit. -/
def digitsValue : Nat → List Char → Option Nat
  | acc, [] => some acc
  | acc, c :: cs => if c.isDigit then digitsValue (10 * acc + (c.toNat - 48)) cs else none

/-- White space and line terminators of the language (the characters `trim` and numeric
conversion drop). -/
def isSpace (c : Char) : Bool :=
  c.toNat = 9 || c.toNat = 10 || c.toNat = 11 || c.toNat = 12 || c.toNat = 13 || c.toNat = 32
    || c.toNat = 160 || c.toNat = 5760 || (8192 ≤ c.toNat && c.toNat ≤ 8202)
    || c.toNat = 8232 || c.toNat = 8233 || c.toNat = 8239 || c.toNat = 8287
    || c.toNat = 12288 || c.toNat = 65279

/-- The characters of a string without leading and trailing white space. -/
def trimmed (s : String) : List Char :=
  ((s.toList.dropWhile isSpace).reverse.dropWhile isSpace).reverse

/-- Numeric reading of a string (`StringToNumber`) for integer numerals: surrounding white
space is dropped, the empty string is `0`, an optionally signed run of decimal digits is its
value, and anything else is `NaN` (`none`). Numerals with a fraction, an exponent or a radix
mark lie outside the integer number model. -/
def stringToNumber (s : String) : Option Int :=
  match trimmed s with
  | [] => some 0
  | '-' :: c :: cs => (digitsValue 0 (c :: cs)).map fun n => - (n : Int)
  | '+' :: c :: cs => (digitsValue 0 (c :: cs)).map fun n => (n : Int)
  | '-' :: [] => none
  | '+' :: [] => none
  | cs => (digitsValue 0 cs).map fun n => (n : Int)

/-- Numeric conversion `ToNumber`; `none` stands for `NaN`. -/
def toNumber : JSVal → Option Int
  | undefined => none
  | null => some 0
  | bool b => some (if b then 1 else 0)
  | num n => some n
  | str s => stringToNumber s
  | arr items => stringToNumber (joinItems items)
  | obj _ => none

/-- The comparison `a > b * (p / q)` with a numeric right-hand side: both sides are converted
to numbers and a `NaN` on either side makes it false. -/
def gtScaled (a b : JSVal) (p q : Nat) : Bool :=
  match toNumber a, toNumber b with
  | some x, some y => decide ((p : Int) * y < (q : Int) * x)
  | _, _ => false

/-- The comparison `a > 0`. -/
def gtZero (a : JSVal) : Bool :=
  match toNumber a with
  | some x => decide (0 < x)
  | none => false

/-- The values a `for ... of` loop visits: the elements of an array, the characters of a
string; anything else is not iterable. -/
def iterate : JSVal → Except String (List JSVal)
  | arr items => .ok items
  | str s => .ok (s.toList.map fun c => str (String.singleton c))
  | _ => .error "value is not iterable"

/-- Receiver of an array method (`find`, `some`, `filter`, `flatMap`): only arrays have them. -/
def asArray : JSVal → Except String (List JSVal)
  | arr items => .ok items
  | undefined => .error "Cannot read properties of undefined"
  | null => .error "Cannot read properties of null"
  | _ => .error "is not a function"

/-- Whether `needle` occurs as a contiguous run inside `hay`. -/
def containsRun (needle : List Char) : List Char → Bool
  | [] => needle.isEmpty
  | c :: cs => needle.isPrefixOf (c :: cs) || containsRun needle cs

/-- Method call `receiver.includes(x)`: element membership on an array, substring search on a
string; other receivers have no such method. -/
def includes (receiver x : JSVal) : Except String Bool :=
  match receiver with
  | arr items => .ok (items.any fun y => strictEq y x)
  | str s => .ok (containsRun (toStr x).toList s.toList)
  | undefined => .error "Cannot read properties of undefined (reading includes)"
  | null => .error "Cannot read properties of null (reading includes)"
  | _ => .error "includes is not a function"

end JSVal

/-! ## `JSON.stringify(_, null, 2)` and the timestamp normalisation of the fallback comparison -/

namespace JSON

/-- The double-quote character. -/
def dq : Char := Char.ofNat 34

/-- The backslash character. -/
def bslash : Char := Char.ofNat 92

/-- Lower-case hexadecimal digit. -/
def hexDigit (n : Nat) : Char :=
  if n < 10 then Char.ofNat (48 + n) else Char.ofNat (87 + n)

/-- Escape of one character inside a JSON string literal (`QuoteJSONString`). -/
def quoteChar (c : Char) : List Char :=
  if c = dq then [bslash, dq]
  else if c = bslash then [bslash, bslash]
  else if c.toNat = 8 then [bslash, 'b']
  else if c.toNat = 9 then [bslash, 't']
  else if c.toNat = 10 then [bslash, 'n']
  else if c.toNat = 12 then [bslash, 'f']
  else if c.toNat = 13 then [bslash, 'r']
  else if c.toNat < 32 then [bslash, 'u', '0', '0', hexDigit (c.toNat / 16), hexDigit (c.toNat % 16)]
  else [c]

/-- Escapes of a run of characters. -/
def quoteChars : List Char → List Char
  | [] => []
  | c :: cs => quoteChar c ++ quoteChars cs

/-- A string as a JSON string literal. -/
def quote (s : String) : String :=
  String.mk (dq :: quoteChars s.toList ++ [dq])

/-- Indentation of `n` spaces. -/
def pad (n : Nat) : String := String.mk (List.replicate n ' ')

/-- Lines of a non-empty array or object body, joined and wrapped in its brackets. -/
def wrap (opening closing : String) (indent : Nat) (parts : List String) : String :=
  match parts with
  | [] => opening ++ closing
  | _ => opening ++ "\n" ++ pad (indent + 2)
          ++ String.intercalate (",\n" ++ pad (indent + 2)) parts
          ++ "\n" ++ pad indent ++ closing

mutual
/-- Serialisation of a value whose enclosing line is indented by `indent` spaces. An
`undefined` array element is written `null`. -/
def stringifyAt (indent : Nat) : JSVal → String
  | .undefined => "null"
  | .null => "null"
  | .bool b => if b then "true" else "false"
  | .num n => toString n
  | .str s => quote s
  | .arr items => wrap "[" "]" indent (stringifyItems (indent + 2) items)
  | .obj fields => wrap "\x7b" "\x7d" indent (stringifyFields (indent + 2) fields)
/-- The rendered elements of an array. -/
def stringifyItems (indent : Nat) : List JSVal → List String
  | [] => []
  | x :: xs => stringifyAt indent x :: stringifyItems indent xs
/-- The rendered `"key": value` entries of an object; a property whose value is `undefined`
is left out. -/
def stringifyFields (indent : Nat) : List (String × JSVal) → List String
  | [] => []
  | (_, .undefined) :: rest => stringifyFields indent rest
  | (k, v) :: rest => (quote k ++ ": " ++ stringifyAt indent v) :: stringifyFields indent rest
end

/-- The call `JSON.stringify(v, null, 2)`: `undefined` has no serialisation. -/
def stringify : JSVal → Option String
  | .undefined => none
  | v => some (stringifyAt 0 v)

/-- One position of the timestamp pattern: a decimal digit or a fixed character. -/
inductive PatChar where
  | digit
  | lit (c : Char)

/-- The pattern `"\d{4}-\d{2}-\d{2}T\d{2}:\d{2}:\d{2}\.\d{3}Z"`, quotes included. -/
def timestampPattern : List PatChar :=
  [.lit dq, .digit, .digit, .digit, .digit, .lit '-', .digit, .digit, .lit '-', .digit, .digit,
   .lit 'T', .digit, .digit, .lit ':', .digit, .digit, .lit ':', .digit, .digit, .lit '.',
   .digit, .digit, .digit, .lit 'Z', .lit dq]

/-- Whether the text starts with a match of the pattern. -/
def matchesAt : List PatChar → List Char → Bool
  | [], _ => true
  | _ :: _, [] => false
  | .digit :: ps, c :: cs => c.isDigit && matchesAt ps cs
  | .lit x :: ps, c :: cs => (c == x) && matchesAt ps cs

/-- Global replacement, left to right: `skip` counts the characters of the current match that
are still to be dropped. -/
def replaceAux : Nat → List Char → List Char
  | _, [] => []
  | skip + 1, _ :: cs => replaceAux skip cs
  | 0, c :: cs =>
    if matchesAt timestampPattern (c :: cs) then
      (dq :: "TIMESTAMP".toList ++ [dq]) ++ replaceAux 25 cs
    else c :: replaceAux 0 cs

/-- The normalisation `text.replace(/"\d{4}-...Z"/g, '"TIMESTAMP"')`. -/
def normalizeTimestamps (text : String) : String :=
  String.mk (replaceAux 0 text.toList)

end JSON

/-! ### Lines of a serialisation

A top-level entry of a serialised object starts a line with two spaces and the quoted key.
The predicates below look for such a line whose key begins with `ty`; they serve to tell the
serialisation of an object that has a `type` entry from that of a snapshot. -/

namespace JSON

/-- The characters that open a top-level entry whose key begins with `ty`: two spaces, the
quote, `t`, `y`. -/
def keyLineStart : List Char := [' ', ' ', dq, 't', 'y']

/-- Whether some line of the text starts with `keyLineStart`. -/
def hasKeyLine : List Char → Bool
  | [] => false
  | c :: cs => (c == '\n' && keyLineStart.isPrefixOf cs) || hasKeyLine cs

/-- Whether the text departs from the pattern at a position both of them have. -/
def differs : List Char → List Char → Bool
  | [], _ => false
  | _ :: _, [] => false
  | p :: ps, c :: cs => c != p || differs ps cs

/-- Whether every line break of the text is followed, within the text, by characters that
depart from `keyLineStart`. -/
def linesClear : List Char → Bool
  | [] => true
  | c :: cs => (c != '\n' || differs keyLineStart cs) && linesClear cs

/-- No position of the pattern accepts a line break. -/
def patternAvoidsNewline : List PatChar → Bool
  | [] => true
  | .digit :: ps => patternAvoidsNewline ps
  | .lit c :: ps => c != '\n' && patternAvoidsNewline ps

end JSON

/-! ## Instants and `toISOString` -/

/-- Decimal rendering of `n`, left-padded with zeros to `width` digits. -/
def zeroPad (width n : Nat) : String :=
  let digits := toString n
  String.mk (List.replicate (width - digits.length) '0') ++ digits

/-- The text `Date.prototype.toISOString` gives for the instant `ms` (milliseconds since the
epoch, proleptic Gregorian calendar, UTC): `YYYY-MM-DDTHH:mm:ss.sssZ`, with a signed six-digit
year outside the years 0000 to 9999. -/
def toISOString (ms : Int) : String :=
  let days := ms / 86400000
  let rest := (ms % 86400000).toNat
  let z := days + 719468
  let era := z / 146097
  let doe := (z - era * 146097).toNat
  let yoe := (doe - doe / 1460 + doe / 36524 - doe / 146096) / 365
  let doy := doe - (365 * yoe + yoe / 4 - yoe / 100)
  let mp := (5 * doy + 2) / 153
  let day := doy - (153 * mp + 2) / 5 + 1
  let month := if mp < 10 then mp + 3 else mp - 9
  let year : Int := (yoe : Int) + era * 400 + (if month ≤ 2 then 1 else 0)
  let yearText :=
    if 0 ≤ year ∧ year ≤ 9999 then zeroPad 4 year.toNat
    else (if year < 0 then "-" else "+") ++ zeroPad 6 year.natAbs
  yearText ++ "-" ++ zeroPad 2 month ++ "-" ++ zeroPad 2 day ++ "T"
    ++ zeroPad 2 (rest / 3600000) ++ ":" ++ zeroPad 2 (rest / 60000 % 60) ++ ":"
    ++ zeroPad 2 (rest / 1000 % 60) ++ "." ++ zeroPad 3 (rest % 1000) ++ "Z"

/-! ## Claims, reality snapshots, divergences -/

/-- A recorded claim `{feature, expected, timestamp}`. -/
structure Claim where
  feature : String
  expected : JSVal
  timestamp : Int
  deriving Inhabited, Repr

/-- A reality snapshot `{timestamp, apiResponses, uiElements, databaseState, performance}`;
a slice that is not there is `undefined`. -/
structure Reality where
  timestamp : Int
  apiResponses : JSVal
  uiElements : JSVal
  databaseState : JSVal
  performance : JSVal
  deriving Inhabited, Repr

/-- The claim as the JavaScript object the validator passes around. -/
def Claim.toJS (c : Claim) : JSVal :=
  .obj [("feature", .str c.feature), ("expected", c.expected),
        ("timestamp", .str (toISOString c.timestamp))]

/-- The snapshot as the JavaScript object the validator passes around. -/
def Reality.toJS (r : Reality) : JSVal :=
  .obj [("timestamp", .str (toISOString r.timestamp)), ("apiResponses", r.apiResponses),
        ("uiElements", r.uiElements), ("databaseState", r.databaseState),
        ("performance", r.performance)]

/-- Severity labels. -/
inductive Level where
  | LOW
  | MEDIUM
  | HIGH
  | CRITICAL
  deriving DecidableEq, Inhabited, Repr

/-- A severity assessment `{level, score, factors, timestamp}`: the stamp is the clock reading
taken when the assessment is returned. The error text that the failure path attaches as well
is not modelled. -/
structure SeverityAssessment where
  level : Level
  score : Nat
  factors : List String
  timestamp : Int
  deriving DecidableEq, Inhabited, Repr

/-- A divergence `{claim, reality, severity}`. -/
structure Divergence where
  claim : Claim
  reality : Reality
  severity : SeverityAssessment
  deriving Inhabited, Repr

/-! ## Pairing a claim with a snapshot -/

/-- Method `findMatchingReality(claim)`: `Array.prototype.find` over the snapshot list with the test
`new Date(reality.timestamp) > new Date(claim.timestamp)`. -/
def findMatchingReality (actualBehaviors : List Reality) (claim : Claim) : Option Reality :=
  actualBehaviors.find? fun reality => decide (reality.timestamp > claim.timestamp)

/-! ## Category-specific comparison -/

open JSVal in
/-- The `find` of `compareAPIBehavior`: the first entry `ep` with
`ep.url === expectedEndpoint.url`. -/
def findEndpoint (expectedEndpoint : JSVal) : List JSVal → Except String (Option JSVal)
  | [] => .ok none
  | ep :: rest => do
    let url ← get ep "url"
    let expectedUrl ← get expectedEndpoint "url"
    if strictEq url expectedUrl then pure (some ep) else findEndpoint expectedEndpoint rest

open JSVal in
/-- The loop of `compareAPIBehavior` over the expected endpoints still to be checked. -/
def compareAPILoop (actual : JSVal) : List JSVal → Except String Bool
  | [] => .ok true
  | expectedEndpoint :: rest => do
    let endpoints ← get actual "endpoints"
    let entries ← asArray endpoints
    let found ← findEndpoint expectedEndpoint entries
    match found with
    | none => pure false
    | some actualEndpoint =>
      if !truthy actualEndpoint then pure false
      else do
        let expectedStatus ← get expectedEndpoint "status"
        if truthy expectedStatus then do
          let actualStatus ← get actualEndpoint "status"
          if !strictEq actualStatus expectedStatus then pure false
          else compareAPILoop actual rest
        else compareAPILoop actual rest

open JSVal in
/-- Method `compareAPIBehavior(expected, actual)`. -/
def compareAPIBehavior (expected actual : JSVal) : Except String Bool := do
  let endpoints ← get expected "endpoints"
  if truthy endpoints then do
    let expectedEndpoints ← iterate endpoints
    compareAPILoop actual expectedEndpoints
  else pure true

open JSVal in
/-- The `some` of `compareUIBehavior`: whether an entry `el` has
`el.type === expectedElement.type || (el.detected && el.detected.includes(expectedElement.name))`. -/
def someElement (expectedElement : JSVal) : List JSVal → Except String Bool
  | [] => .ok false
  | el :: rest => do
    let ty ← get el "type"
    let expectedTy ← get expectedElement "type"
    if strictEq ty expectedTy then pure true
    else do
      let detected ← get el "detected"
      if truthy detected then do
        let name ← get expectedElement "name"
        let hit ← includes detected name
        if hit then pure true else someElement expectedElement rest
      else someElement expectedElement rest

open JSVal in
/-- The loop of `compareUIBehavior` over the expected elements still to be checked. -/
def compareUILoop (actual : JSVal) : List JSVal → Except String Bool
  | [] => .ok true
  | expectedElement :: rest => do
    let elements ← get actual "elements"
    let entries ← asArray elements
    let found ← someElement expectedElement entries
    if !found then pure false else compareUILoop actual rest

open JSVal in
/-- Method `compareUIBehavior(expected, actual)`. -/
def compareUIBehavior (expected actual : JSVal) : Except String Bool := do
  let elements ← get expected "elements"
  if truthy elements then do
    let expectedElements ← iterate elements
    compareUILoop actual expectedElements
  else pure true

open JSVal in
/-- The callback and flattening of `actual.databases.flatMap(db => db.tables || [])`. -/
def flatMapTables : List JSVal → Except String (List JSVal)
  | [] => .ok []
  | db :: rest => do
    let tables ← get db "tables"
    let tail ← flatMapTables rest
    if truthy tables then
      match tables with
      | .arr items => pure (items ++ tail)
      | other => pure (other :: tail)
    else pure tail

open JSVal in
/-- The loop of `compareDatabaseBehavior` over the expected tables: `true` when every one of
them is included in `actualTables`. -/
def allTablesIncluded (actualTables : List JSVal) : List JSVal → Bool
  | [] => true
  | expectedTable :: rest =>
    if !(actualTables.any fun t => strictEq t expectedTable) then false
    else allTablesIncluded actualTables rest

open JSVal in
/-- The second check of `compareDatabaseBehavior`: no inconsistencies. -/
def noInconsistencies (actual : JSVal) : Except String Bool := do
  let inconsistencies ← get actual "inconsistencies"
  if truthy inconsistencies then do
    let len ← get inconsistencies "length"
    if gtZero len then pure false else pure true
  else pure true

open JSVal in
/-- Method `compareDatabaseBehavior(expected, actual)`. -/
def compareDatabaseBehavior (expected actual : JSVal) : Except String Bool := do
  let tables ← get expected "tables"
  if truthy tables then do
    let databases ← get actual "databases"
    let len ← get databases "length"
    if gtZero len then do
      let dbs ← asArray databases
      let actualTables ← flatMapTables dbs
      let expectedTables ← iterate tables
      if !allTablesIncluded actualTables expectedTables then pure false
      else noInconsistencies actual
    else noInconsistencies actual
  else noInconsistencies actual

open JSVal in
/-- The `find` of `comparePerformanceBehavior`: the first benchmark named `local_http`. -/
def findHttpBenchmark : List JSVal → Except String (Option JSVal)
  | [] => .ok none
  | b :: rest => do
    let name ← get b "name"
    if strictEq name (.str "local_http") then pure (some b) else findHttpBenchmark rest

open JSVal in
/-- The memory check of `comparePerformanceBehavior`. -/
def memoryWithinRange (expected actual : JSVal) : Except String Bool := do
  let memoryUsage ← get expected "memoryUsage"
  if truthy memoryUsage then do
    let system ← get actual "system"
    if truthy system then do
      let memory ← get system "memory"
      if truthy memory then do
        let percentage ← get memory "percentage"
        if gtScaled percentage memoryUsage 3 2 then pure false else pure true
      else pure true
    else pure true
  else pure true

open JSVal in
/-- Method `comparePerformanceBehavior(expected, actual)`: the benchmark duration against
`expected.responseTime * 2`, then the memory percentage against `expected.memoryUsage * 1.5`. -/
def comparePerformanceBehavior (expected actual : JSVal) : Except String Bool := do
  let responseTime ← get expected "responseTime"
  if truthy responseTime then do
    let benchmarks ← get actual "benchmarks"
    if truthy benchmarks then do
      let entries ← asArray benchmarks
      let httpBenchmark ← findHttpBenchmark entries
      match httpBenchmark with
      | none => memoryWithinRange expected actual
      | some b =>
        if truthy b then do
          let duration ← get b "duration"
          if gtScaled duration responseTime 2 1 then pure false
          else memoryWithinRange expected actual
        else memoryWithinRange expected actual
    else memoryWithinRange expected actual
  else memoryWithinRange expected actual

open JSVal in
/-- The fallback of `behaviorsMatch`: equality of the two serialisations after every
timestamp-shaped string literal is replaced by `"TIMESTAMP"`. -/
def fallbackMatch (expected actual : JSVal) : Except String Bool :=
  match JSON.stringify expected, JSON.stringify actual with
  | some expectedStr, some actualStr =>
    .ok (JSON.normalizeTimestamps expectedStr == JSON.normalizeTimestamps actualStr)
  | _, _ => .error "Cannot read properties of undefined (reading replace)"

open JSVal in
/-- The guard `expected.type === category && actual[key]` of one branch of `behaviorsMatch`:
the slice to compare against when the guard holds. -/
def sliceFor (expected actual : JSVal) (category key : String) : Except String (Option JSVal) := do
  let ty ← get expected "type"
  if strictEq ty (.str category) then do
    let slice ← get actual key
    if truthy slice then pure (some slice) else pure none
  else pure none

open JSVal in
/-- The body of the `try` block of `behaviorsMatch`. -/
def behaviorsMatchBody (expected actual : JSVal) : Except String Bool := do
  if !truthy expected || !truthy actual then pure false
  else do
    match ← sliceFor expected actual "api" "apiResponses" with
    | some apiResponses => compareAPIBehavior expected apiResponses
    | none =>
      match ← sliceFor expected actual "ui" "uiElements" with
      | some uiElements => compareUIBehavior expected uiElements
      | none =>
        match ← sliceFor expected actual "database" "databaseState" with
        | some databaseState => compareDatabaseBehavior expected databaseState
        | none =>
          match ← sliceFor expected actual "performance" "performance" with
          | some performance => comparePerformanceBehavior expected performance
          | none => fallbackMatch expected actual

/-- Method `behaviorsMatch(expected, actual)`: a comparison that throws counts as a mismatch. -/
def behaviorsMatch (expected actual : JSVal) : Bool :=
  match behaviorsMatchBody expected actual with
  | .ok b => b
  | .error _ => false

/-! ## Severity scoring -/

/-- Label of a severity score: `>= 70` CRITICAL, `>= 40` HIGH, `>= 20` MEDIUM, else LOW. -/
def severityLevel (severityScore : Nat) : Level :=
  if severityScore ≥ 70 then .CRITICAL
  else if severityScore ≥ 40 then .HIGH
  else if severityScore ≥ 20 then .MEDIUM
  else .LOW

open JSVal in
/-- First factor: `reality.apiResponses && reality.apiResponses.status === 'critical'`. -/
def apiFactor (reality : JSVal) : Except String (List (Nat × String)) := do
  let apiResponses ← get reality "apiResponses"
  if truthy apiResponses then do
    let status ← get apiResponses "status"
    if strictEq status (.str "critical") then pure [(50, "Critical API failure detected")]
    else pure []
  else pure []

open JSVal in
/-- The `filter` of the database factor: the inconsistencies `i` with
`i.type === 'integrity_check' || i.type === 'data_corruption'`. -/
def filterIssues : List JSVal → Except String (List JSVal)
  | [] => .ok []
  | i :: rest => do
    let ty ← get i "type"
    let tail ← filterIssues rest
    if strictEq ty (.str "integrity_check") || strictEq ty (.str "data_corruption") then
      pure (i :: tail)
    else pure tail

open JSVal in
/-- Second factor: `reality.databaseState && reality.databaseState.inconsistencies.length > 0`
and a non-empty filtered list. -/
def databaseFactor (reality : JSVal) : Except String (List (Nat × String)) := do
  let databaseState ← get reality "databaseState"
  if truthy databaseState then do
    let inconsistencies ← get databaseState "inconsistencies"
    let len ← get inconsistencies "length"
    if gtZero len then do
      let items ← asArray inconsistencies
      let dbIssues ← filterIssues items
      if dbIssues.length > 0 then pure [(40, "Database integrity issues found")] else pure []
    else pure []
  else pure []

open JSVal in
/-- Third factor: overall performance status `poor`, else `degraded`. -/
def performanceFactor (reality : JSVal) : Except String (List (Nat × String)) := do
  let performance ← get reality "performance"
  if truthy performance then do
    let overallStatus ← get performance "overallStatus"
    if strictEq overallStatus (.str "poor") then pure [(30, "Severe performance degradation")]
    else if strictEq overallStatus (.str "degraded") then
      pure [(15, "Performance degradation detected")]
    else pure []
  else pure []

open JSVal in
/-- Fourth factor: `reality.uiElements && reality.uiElements.errors.length > 0`. -/
def uiFactor (reality : JSVal) : Except String (List (Nat × String)) := do
  let uiElements ← get reality "uiElements"
  if truthy uiElements then do
    let errors ← get uiElements "errors"
    let len ← get errors "length"
    if gtZero len then pure [(20, "UI errors detected")] else pure []
  else pure []

open JSVal in
/-- Fifth factor: the `switch` on `claim.expected.type`. -/
def claimTypeFactor (claim : JSVal) : Except String (List (Nat × String)) := do
  let expected ← get claim "expected"
  if truthy expected then do
    let ty ← get expected "type"
    if truthy ty then
      if strictEq ty (.str "security") then pure [(25, "Security-related claim failure")]
      else if strictEq ty (.str "data_integrity") then pure [(30, "Data integrity claim failure")]
      else if strictEq ty (.str "api") then pure [(20, "API functionality claim failure")]
      else if strictEq ty (.str "ui") then pure [(10, "UI functionality claim failure")]
      else pure []
    else pure []
  else pure []

/-- The body of the `try` block of `assessSeverity`: the triggered factors, in program order,
each with the points it adds to `severityScore`. -/
def severityFactors (claim reality : JSVal) : Except String (List (Nat × String)) := do
  let f1 ← apiFactor reality
  let f2 ← databaseFactor reality
  let f3 ← performanceFactor reality
  let f4 ← uiFactor reality
  let f5 ← claimTypeFactor claim
  pure (f1 ++ f2 ++ f3 ++ f4 ++ f5)

/-- Method `assessSeverity(claim, reality)`, called at the instant `now`: the additive score and
its label, or the fixed HIGH assessment of the `catch` block, stamped with `now`. -/
def assessSeverity (now : Int) (claim reality : JSVal) : SeverityAssessment :=
  match severityFactors claim reality with
  | .ok triggered =>
    let severityScore := (triggered.map Prod.fst).sum
    { level := severityLevel severityScore, score := severityScore,
      factors := triggered.map Prod.snd, timestamp := now }
  | .error _ =>
    { level := .HIGH, score := 50, factors := ["Severity assessment failed"], timestamp := now }

/-! ## Engine state and persisted artifacts -/

/-- The validator instance: the claim list, the snapshot list and the active flag. -/
structure Engine where
  claimedBehaviors : List Claim
  actualBehaviors : List Reality
  validationActive : Bool
  deriving Inhabited, Repr

/-- The token `{timestamp, evidence, validator}` kept at `.truthforge/validation-passed`. -/
structure ValidationToken where
  timestamp : Int
  evidence : JSVal
  validator : String
  deriving Inhabited, Repr

/-- One entry of the failure memory. The code stores the claim and the snapshot as a
description text; the entry keeps them as values. -/
structure FailurePattern where
  date : Int
  claim : Claim
  reality : Reality
  severity : SeverityAssessment
  deriving Inhabited, Repr

/-- The document `memory/failure-patterns.json`. -/
structure FailureMemory where
  patterns : List FailurePattern
  totalFailuresPrevented : Nat
  lastUpdated : Option Int
  deriving Inhabited, Repr

/-- The incident record written to `.truthforge/emergency.log` (its `event` and `action`
fields are constants). -/
structure EmergencyRecord where
  timestamp : Int
  claims : List Claim
  reality : List Reality
  deriving Inhabited, Repr

/-- The files the validator reads and writes. `failureMemory = none` is a document that is
missing or cannot be parsed. -/
structure Files where
  token : Option ValidationToken
  failureMemory : Option FailureMemory
  emergencyLog : Option EmergencyRecord
  emergencyScript : Bool
  deriving Inhabited, Repr

/-- Engine, files and the marker lines printed on the console so far (oldest first). -/
structure State where
  engine : Engine
  files : Files
  console : List String
  deriving Inhabited, Repr

/-- What the outside world decides while `validateAgainstReality` and the emergency handler
run: the clock reading `assessmentClock i` taken when the claim at position `i` of the claim
list is assessed, the clock of the handler, and whether each write or external command
succeeds. -/
structure EmergencyEnv where
  assessmentClock : Nat → Int
  now : Int
  memoryWrite : Except String Unit
  logWrite : Except String Unit
  backup : Except String Unit
  script : Except String Unit

/-- A fresh validator (the constructor). -/
def Engine.new : Engine :=
  { claimedBehaviors := [], actualBehaviors := [], validationActive := false }

/-- Method `startValidation()`. -/
def startValidation (e : Engine) : Engine :=
  { e with validationActive := true }

/-- Method `recordClaim(feature, expectedBehavior)` at the instant `now`. -/
def recordClaim (now : Int) (feature : String) (expectedBehavior : JSVal) (e : Engine) : Engine :=
  { e with claimedBehaviors :=
      e.claimedBehaviors ++ [{ feature := feature, expected := expectedBehavior, timestamp := now }] }

/-! ## Emergency handling -/

/-- Method `updateFailureMemory(divergences)`: read-modify-write of the failure memory; any error is
logged and swallowed. -/
def updateFailureMemory (env : EmergencyEnv) (divergences : List Divergence) (s : State) : State :=
  match s.files.failureMemory with
  | none => { s with console := s.console ++ ["Failed to update failure memory:"] }
  | some memory =>
    match env.memoryWrite with
    | .error _ => { s with console := s.console ++ ["Failed to update failure memory:"] }
    | .ok _ =>
      let added := divergences.map fun d =>
        ({ date := env.now, claim := d.claim, reality := d.reality, severity := d.severity }
          : FailurePattern)
      let memory' : FailureMemory :=
        { patterns := memory.patterns ++ added,
          totalFailuresPrevented := memory.totalFailuresPrevented + divergences.length,
          lastUpdated := some env.now }
      { s with
        files := { s.files with failureMemory := some memory' },
        console := s.console ++ ["Failure memory updated"] }

/-- Method `triggerEmergencyProtocol()`: incident log, best-effort backup, then the operator script or
the built-in fallback. A failing log write ends the protocol in its `catch` block. -/
def triggerEmergencyProtocol (env : EmergencyEnv) (s : State) : State :=
  let s1 := { s with console := s.console ++ ["Triggering emergency protocol..."] }
  match env.logWrite with
  | .error _ =>
    { s1 with console := s1.console ++
        ["Emergency protocol itself failed:",
         "System may be in critical state - immediate manual intervention required"] }
  | .ok _ =>
    let record : EmergencyRecord :=
      { timestamp := env.now, claims := s.engine.claimedBehaviors,
        reality := s.engine.actualBehaviors }
    let s2 := { s1 with files := { s1.files with emergencyLog := some record } }
    let s3 :=
      match env.backup with
      | .ok _ => { s2 with console := s2.console ++ ["Emergency backup created"] }
      | .error _ => { s2 with console := s2.console ++ ["Could not create emergency backup:"] }
    if s3.files.emergencyScript then
      match env.script with
      | .ok _ => s3
      | .error _ => { s3 with console := s3.console ++ ["Emergency script failed:"] }
    else
      { s3 with
        engine := { s3.engine with validationActive := false },
        console := s3.console ++
          ["Emergency script not found. Manual intervention required.",
           "CRITICAL SYSTEM FAILURE", "Manual intervention required",
           "Check .truthforge/emergency.log for details"] }

/-- Method `handleCatastrophicFailure(divergences)`. -/
def handleCatastrophicFailure (env : EmergencyEnv) (divergences : List Divergence) (s : State) :
    State :=
  let s1 := { s with console := s.console ++ ["CATASTROPHIC FAILURE DETECTED"] }
  triggerEmergencyProtocol env (updateFailureMemory env divergences s1)

/-! ## Divergence detection -/

/-- The `forEach` of `validateAgainstReality`: the divergences of the claims still to be
visited, in order; `index` is the position of the next claim in the claim list. -/
def collectDivergences (clock : Nat → Int) (actualBehaviors : List Reality) :
    Nat → List Claim → List Divergence
  | _, [] => []
  | index, claim :: rest =>
    match findMatchingReality actualBehaviors claim with
    | some reality =>
      if !behaviorsMatch claim.expected reality.toJS then
        { claim := claim, reality := reality,
          severity := assessSeverity (clock index) claim.toJS reality.toJS }
          :: collectDivergences clock actualBehaviors (index + 1) rest
      else collectDivergences clock actualBehaviors (index + 1) rest
    | none => collectDivergences clock actualBehaviors (index + 1) rest

/-- Method `validateAgainstReality()`: the divergence list and the state after the emergency handler
has run (it runs only for a non-empty list). -/
def validateAgainstReality (env : EmergencyEnv) (s : State) : List Divergence × State :=
  let divergences :=
    collectDivergences env.assessmentClock s.engine.actualBehaviors 0 s.engine.claimedBehaviors
  if divergences.length > 0 then (divergences, handleCatastrophicFailure env divergences s)
  else (divergences, s)

/-! ## Token -/

/-- Method `createValidationToken(evidence)`: writes the token file, or throws when the write fails. -/
def createValidationToken (now : Int) (write : Except String Unit) (evidence : JSVal) (s : State) :
    Except String State :=
  match write with
  | .error e => .error e
  | .ok _ =>
    .ok { s with
      files := { s.files with
        token := some { timestamp := now, evidence := evidence, validator := "TruthForge Core" } },
      console := s.console ++ ["Validation token created"] }

/-! ## Reality capture -/

/-- What the outside world decides during one `captureReality()`: the clock and the outcome of
the probing code inside each of the four collectors (a value, or the error it throws). -/
structure CaptureEnv where
  now : Int
  apiProbe : Except String JSVal
  uiProbe : Except String JSVal
  databaseProbe : Except String JSVal
  performanceProbe : Except String JSVal

/-- Method `checkAPIHealth()`: the probe result, or the degraded record of its `catch` block. -/
def checkAPIHealth (env : CaptureEnv) : JSVal :=
  match env.apiProbe with
  | .ok v => v
  | .error message =>
    .obj [("status", .str "error"), ("endpoints", .arr []), ("error", .str message),
          ("timestamp", .str (toISOString env.now))]

/-- Method `verifyUIState()`: the probe result, or the degraded record of its `catch` block. -/
def verifyUIState (env : CaptureEnv) : JSVal :=
  match env.uiProbe with
  | .ok v => v
  | .error message =>
    .obj [("elements", .arr []),
          ("errors", .arr [.obj [("type", .str "validation_error"), ("message", .str message)]]),
          ("screenshots", .arr []), ("timestamp", .str (toISOString env.now))]

/-- Method `queryDatabase()`: the probe result, or the degraded record of its `catch` block. -/
def queryDatabase (env : CaptureEnv) : JSVal :=
  match env.databaseProbe with
  | .ok v => v
  | .error message =>
    .obj [("databases", .arr []), ("tables", .arr []),
          ("inconsistencies", .arr [.obj [("type", .str "validation_error"), ("error", .str message)]]),
          ("connections", .arr []), ("timestamp", .str (toISOString env.now))]

/-- Method `measurePerformance()`: the probe result, or the degraded record of its `catch` block. -/
def measurePerformance (env : CaptureEnv) : JSVal :=
  match env.performanceProbe with
  | .ok v => v
  | .error message =>
    .obj [("system", .obj []), ("application", .obj []), ("benchmarks", .arr []),
          ("error", .str message), ("timestamp", .str (toISOString env.now))]

/-- Method `captureReality()`: nothing when the engine is not active; otherwise one snapshot, appended
to the snapshot list and returned. -/
def captureReality (env : CaptureEnv) (e : Engine) : Option Reality × Engine :=
  if !e.validationActive then (none, e)
  else
    let reality : Reality :=
      { timestamp := env.now, apiResponses := checkAPIHealth env, uiElements := verifyUIState env,
        databaseState := queryDatabase env, performance := measurePerformance env }
    (some reality, { e with actualBehaviors := e.actualBehaviors ++ [reality] })

/-! ## Double-precision arithmetic of the overall score

`Math.round((score / maxScore) * 100)` is computed in IEEE 754 binary64. A finite non-negative
double is `mant * 2 ^ exp`; division and multiplication round the exact result to the nearest
double, ties to even. Exponent range limits (overflow, subnormals) are not modelled: they are
not reached by scores, which are integers below `2 ^ 53`. -/

namespace Double

/-- Number of binary digits of `n`, by recursion on `fuel`. -/
def bitLengthAux : Nat → Nat → Nat
  | 0, _ => 0
  | fuel + 1, n => if n = 0 then 0 else bitLengthAux fuel (n / 2) + 1

/-- Number of binary digits of `n` (`0` for `0`). -/
def bitLength (n : Nat) : Nat := bitLengthAux n n

/-- The integer nearest to `a / b`, a tie going to the even one. -/
def roundHalfEven (a b : Nat) : Nat :=
  if 2 * (a % b) < b then a / b
  else if b < 2 * (a % b) then a / b + 1
  else if a / b % 2 = 0 then a / b else a / b + 1

/-- A finite non-negative double, `mant * 2 ^ exp`. -/
structure Value where
  mant : Nat
  exp : Int
  deriving DecidableEq, Repr

/-- The rational `n / d` scaled by `2 ^ (-e)`, as a numerator and a denominator. -/
def scaled (n d : Nat) (e : Int) : Nat × Nat :=
  if 0 ≤ e then (n, d * 2 ^ e.toNat) else (n * 2 ^ (-e).toNat, d)

/-- The double nearest to `n / d` (for `d > 0`): the exponent `e` is chosen so that
`n / d / 2 ^ e` lies in `[2 ^ 52, 2 ^ 53)`, and the mantissa is that quotient rounded. -/
def nearest (n d : Nat) : Value :=
  if n = 0 then { mant := 0, exp := 0 }
  else
    let e0 : Int := (bitLength n : Int) - (bitLength d : Int) - 53
    let e : Int := if (scaled n d e0).1 < (scaled n d e0).2 * 2 ^ 53 then e0 else e0 + 1
    { mant := roundHalfEven (scaled n d e).1 (scaled n d e).2, exp := e }

/-- The double of an integer below `2 ^ 53` (exact). -/
def ofNat (n : Nat) : Value := { mant := n, exp := 0 }

/-- Floating-point quotient `x / y` of two integers held as doubles. -/
def divNat (x y : Nat) : Value := nearest x y

/-- Floating-point product `x * k` with an integer `k`. -/
def mulNat (x : Value) (k : Nat) : Value :=
  if 0 ≤ x.exp then nearest (x.mant * k * 2 ^ x.exp.toNat) 1
  else nearest (x.mant * k) (2 ^ (-x.exp).toNat)

/-- The call `Math.round(x)` for `x >= 0`: the integer `floor(x + 1/2)`. -/
def round (x : Value) : Nat :=
  if 0 ≤ x.exp then x.mant * 2 ^ x.exp.toNat
  else (2 * x.mant + 2 ^ (-x.exp).toNat) / 2 ^ ((-x.exp).toNat + 1)

/-- The exact rational value of a double. -/
def Value.toRat (x : Value) : ℚ := (x.mant : ℚ) * (2 : ℚ) ^ x.exp

end Double

/-- The overall score `maxScore > 0 ? Math.round((score / maxScore) * 100) : 0`. -/
def overallScoreOf (score maxScore : Nat) : Nat :=
  if maxScore > 0 then Double.round (Double.mulNat (Double.divNat score maxScore) 100) else 0

/-! ## Evidence aggregation and the gate -/

/-- The record returned by the security source: `score`, `maxScore`, `overallStatus` and the
recommendations, each possibly absent (the source's own error record has no `maxScore`). -/
structure SecurityResults where
  score : Option Nat
  maxScore : Option Nat
  overallStatus : Option String
  recommendations : Option (List String)
  deriving Inhabited, Repr

/-- The record `validateSecurity` returns from its `catch` block:
`{timestamp, error, tests: [], vulnerabilities: [], score: 0, overallStatus: 'error'}`, with no
`maxScore` and no `recommendations`. -/
def securityErrorRecord : SecurityResults :=
  { score := some 0, maxScore := none, overallStatus := some "error", recommendations := none }

/-- A vulnerability record of the security validator; `determineOverallStatus` reads only its
`severity`. -/
structure Vulnerability where
  severity : JSVal
  deriving Inhabited, Repr

/-- Method `determineOverallStatus(score, vulnerabilities)` of the security validator. -/
def determineOverallStatus (score : Int) (vulnerabilities : List Vulnerability) : String :=
  let criticalVulns :=
    (vulnerabilities.filter fun v => JSVal.strictEq v.severity (.str "critical")).length
  let highVulns :=
    (vulnerabilities.filter fun v => JSVal.strictEq v.severity (.str "high")).length
  if criticalVulns > 0 then "critical"
  else if highVulns > 2 then "poor"
  else if score < 50 then "poor"
  else if score < 70 then "fair"
  else if score < 85 then "good"
  else "excellent"

/-- One entry of the UI evidence's `validationResults`. -/
structure UIResult where
  status : String
  deriving Inhabited, Repr

/-- The record returned by the screenshot source. -/
structure UIValidation where
  screenshots : List JSVal
  validationResults : List UIResult
  deriving Inhabited, Repr

/-- The record returned by the test runner. -/
structure TestResults where
  passed : Bool
  deriving Inhabited, Repr

/-- The claim evidence `{divergences, claimedBehaviors, actualBehaviors}`. -/
structure ClaimsEvidence where
  divergences : List Divergence
  claimedBehaviors : List Claim
  actualBehaviors : List Reality
  deriving Inhabited, Repr

/-- The `evidence` object of a validation; a key that was never assigned is `none`. -/
structure Evidence where
  systemState : Option Reality
  security : Option SecurityResults
  ui : Option UIValidation
  tests : Option TestResults
  claims : Option ClaimsEvidence
  deriving Inhabited, Repr

/-- The summary object. -/
structure Summary where
  overallScore : Nat
  evidenceTypes : List String
  securityStatus : String
  uiScreenshots : Nat
  claimDivergences : Nat
  testsPassed : Bool
  deriving Inhabited, Repr

/-- The validation object of a comprehensive run. -/
structure Validation where
  timestamp : Int
  evidence : Evidence
  passed : Bool
  score : Nat
  maxScore : Nat
  overallScore : Nat
  summary : Option Summary
  recommendations : List String
  deriving Inhabited, Repr

/-- The options of a run. -/
structure Options where
  runTests : Bool
  deriving Inhabited, Repr

/-- The guard `validation.evidence.security && validation.evidence.security.overallStatus ===
'critical'`. -/
def securityIsCritical (evidence : Evidence) : Bool :=
  match evidence.security with
  | some security => security.overallStatus == some "critical"
  | none => false

/-- The `filter` of the gate: the divergences whose severity level is CRITICAL or HIGH. -/
def criticalDivergences (divergences : List Divergence) : List Divergence :=
  divergences.filter fun d => d.severity.level == .CRITICAL || d.severity.level == .HIGH

/-- The guard `validation.evidence.claims && divergences.length > 0` together with the inner
test `criticalDivergences.length > 0`. -/
def hasCriticalDivergence (evidence : Evidence) : Bool :=
  match evidence.claims with
  | some claims =>
    decide (claims.divergences.length > 0) &&
      decide ((criticalDivergences claims.divergences).length > 0)
  | none => false

/-- The guard `validation.evidence.tests && !validation.evidence.tests.passed`. -/
def testsFailed (evidence : Evidence) : Bool :=
  match evidence.tests with
  | some tests => !tests.passed
  | none => false

/-- Method `determineValidationPass(validation)`. -/
def determineValidationPass (validation : Validation) : Bool :=
  if validation.overallScore < 60 then false
  else if securityIsCritical validation.evidence then false
  else if hasCriticalDivergence validation.evidence then false
  else if testsFailed validation.evidence then false
  else true

/-- The list `Object.keys(validation.evidence)` at the end of a run: `systemState`, `security` and `ui`
are always assigned, `tests` only when the test suite ran, `claims` last. -/
def evidenceKeys (evidence : Evidence) : List String :=
  ["systemState", "security", "ui"] ++ (if evidence.tests.isSome then ["tests"] else [])
    ++ ["claims"]

/-- Method `generateValidationSummary(validation)`. -/
def generateValidationSummary (validation : Validation) : Summary :=
  { overallScore := validation.overallScore,
    evidenceTypes := evidenceKeys validation.evidence,
    securityStatus :=
      (match validation.evidence.security with
        | some security =>
          (match security.overallStatus with
            | some status => if status != "" then status else "unknown"
            | none => "unknown")
        | none => "unknown"),
    uiScreenshots :=
      (match validation.evidence.ui with
        | some ui => ui.screenshots.length
        | none => 0),
    claimDivergences :=
      (match validation.evidence.claims with
        | some claims => claims.divergences.length
        | none => 0),
    testsPassed :=
      (match validation.evidence.tests with
        | some tests => tests.passed
        | none => false) }

/-- Method `generateRecommendations(validation)`. -/
def generateRecommendations (validation : Validation) : List String :=
  (match validation.evidence.security with
    | some security =>
      (match security.recommendations with
        | some recommendations => recommendations.take 3
        | none => [])
    | none => [])
  ++ (match validation.evidence.ui with
    | some ui =>
      if (ui.validationResults.filter fun r => r.status == "error").length > 0 then
        ["Fix UI rendering issues detected in screenshots"]
      else []
    | none => [])
  ++ (match validation.evidence.tests with
    | some tests =>
      if !tests.passed then ["Fix failing tests before creating checkpoint"] else []
    | none => [])
  ++ (match validation.evidence.claims with
    | some claims =>
      if claims.divergences.length > 0 then
        ["Resolve claim vs reality divergences before proceeding"]
      else []
    | none => [])

/-- What the outside world decides during one comprehensive run. -/
structure RunEnv where
  startTime : Int
  capture : CaptureEnv
  security : Except String SecurityResults
  ui : Except String UIValidation
  tests : Except String TestResults
  emergency : EmergencyEnv
  tokenTime : Int
  tokenWrite : Except String Unit
  errorTime : Int

/-- What `performComprehensiveValidation` returns: the validation object, or the error record
`{timestamp, validationType, error, passed: false, score: 0}` of its `catch` block. -/
inductive RunResult where
  | completed (validation : Validation)
  | internalError (timestamp : Int) (error : String)
  deriving Inhabited, Repr

/-- The `passed` field of a result. -/
def RunResult.passed : RunResult → Bool
  | .completed validation => validation.passed
  | .internalError _ _ => false

/-- The `score` field of a result. -/
def RunResult.score : RunResult → Nat
  | .completed validation => validation.score
  | .internalError _ _ => 0

/-- The evidence object `{comprehensive, score, evidence, timestamp}` that a passing run hands
to `createValidationToken`. -/
def tokenEvidence (validation : Validation) : JSVal :=
  .obj [("comprehensive", .bool true), ("score", .num validation.overallScore),
        ("evidence", .arr ((evidenceKeys validation.evidence).map JSVal.str)),
        ("timestamp", .str (toISOString validation.timestamp))]

/-- Steps 5 and 6 of `performComprehensiveValidation`: the claim evidence is attached, the
claim check adds its 15 points to `maxScore` (and to `score` when there is no divergence), and
the overall score is computed. `score` and `maxScore` are the running totals so far. -/
def scoredValidation (env : RunEnv) (evidence : Evidence) (score maxScore : Nat)
    (claimValidation : List Divergence) (engine : Engine) : Validation :=
  { timestamp := env.startTime,
    evidence :=
      { evidence with
        claims := some { divergences := claimValidation,
                         claimedBehaviors := engine.claimedBehaviors,
                         actualBehaviors := engine.actualBehaviors } },
    passed := false,
    score := if claimValidation.length = 0 then score + 15 else score,
    maxScore := maxScore + 15,
    overallScore :=
      overallScoreOf (if claimValidation.length = 0 then score + 15 else score) (maxScore + 15),
    summary := none,
    recommendations := [] }

/-- Steps 7 and 8 of `performComprehensiveValidation`: the gate decision, then the summary and
the recommendations. -/
def decidedValidation (validation : Validation) : Validation :=
  let v1 := { validation with passed := determineValidationPass validation }
  let v2 := { v1 with summary := some (generateValidationSummary v1) }
  { v2 with recommendations := generateRecommendations v2 }

/-- Steps 5 to 9 of `performComprehensiveValidation`, after the evidence sources have
returned: claim validation, scoring, the gate decision and, on a pass, the token. An error
thrown by the token write is caught by the `catch` block of the run. -/
def finishValidation (env : RunEnv) (evidence : Evidence) (score maxScore : Nat) (s : State) :
    RunResult × State :=
  let checked := validateAgainstReality env.emergency s
  let validation :=
    decidedValidation (scoredValidation env evidence score maxScore checked.1 checked.2.engine)
  if validation.passed then
    match createValidationToken env.tokenTime env.tokenWrite (tokenEvidence validation)
        checked.2 with
    | .ok s2 => (.completed validation, s2)
    | .error message => (.internalError env.errorTime message, checked.2)
  else (.completed validation, checked.2)

/-- Method `performComprehensiveValidation(options)`. -/
def performComprehensiveValidation (env : RunEnv) (options : Options) (s : State) :
    RunResult × State :=
  let (reality, engine1) := captureReality env.capture (startValidation s.engine)
  let s1 := { s with engine := engine1 }
  match env.security with
  | .error message => (.internalError env.errorTime message, s1)
  | .ok securityResults =>
    let score := securityResults.score.getD 0
    let maxScore := securityResults.maxScore.getD 0
    match env.ui with
    | .error message => (.internalError env.errorTime message, s1)
    | .ok uiValidation =>
      let evidence : Evidence :=
        { systemState := reality, security := some securityResults, ui := some uiValidation,
          tests := none, claims := none }
      if options.runTests then
        match env.tests with
        | .error message => (.internalError env.errorTime message, s1)
        | .ok testResults =>
          finishValidation env { evidence with tests := some testResults }
            (if testResults.passed then score + 20 else score) (maxScore + 20) s1
      else finishValidation env evidence score maxScore s1

/-! ## The specification's wording of divergence detection and severity factors -/

/-- In the words of the specification: the divergence a claim contributes, if any, when it is
assessed at the instant `now`. A claim with a paired snapshot whose expected behaviour does not
match it contributes `{claim, reality, severity}`; every other claim contributes nothing. -/
def divergenceOf (now : Int) (actualBehaviors : List Reality) (claim : Claim) :
    Option Divergence :=
  match findMatchingReality actualBehaviors claim with
  | some reality =>
    if behaviorsMatch claim.expected reality.toJS then none
    else some { claim := claim, reality := reality,
                severity := assessSeverity now claim.toJS reality.toJS }
  | none => none

/-- Lenient property read: the property's value, `undefined` where there is none to read. -/
def JSVal.field (v : JSVal) (key : String) : JSVal :=
  match v.get key with
  | .ok x => x
  | .error _ => .undefined

/-- The elements of an array value; no elements for anything else. -/
def JSVal.elements : JSVal → List JSVal
  | .arr items => items
  | _ => []

/-- Whether the value is `undefined` or `null`, the two values that have no properties. -/
def JSVal.isNullish : JSVal → Bool
  | .undefined => true
  | .null => true
  | _ => false

/-- Whether the value is an array (`Array.isArray`). -/
def JSVal.isArray : JSVal → Bool
  | .arr _ => true
  | _ => false

/-- In the words of the specification: the snapshot's API status is `critical`. -/
def apiStatusCritical (reality : JSVal) : Bool :=
  JSVal.strictEq ((reality.field "apiResponses").field "status") (.str "critical")

/-- In the words of the specification: some database inconsistency has type
`integrity_check` or `data_corruption`. -/
def hasIntegrityIssue (reality : JSVal) : Bool :=
  ((reality.field "databaseState").field "inconsistencies").elements.any fun i =>
    JSVal.strictEq (i.field "type") (.str "integrity_check")
      || JSVal.strictEq (i.field "type") (.str "data_corruption")

/-- In the words of the specification: the overall performance status equals `status`. -/
def performanceStatusIs (reality : JSVal) (status : String) : Bool :=
  JSVal.strictEq ((reality.field "performance").field "overallStatus") (.str status)

/-- In the words of the specification: the UI error list is non-empty. -/
def hasUIErrors (reality : JSVal) : Bool :=
  JSVal.gtZero (((reality.field "uiElements").field "errors").field "length")

/-- In the words of the specification: the claim's category is `category`. -/
def claimCategoryIs (claim : JSVal) (category : String) : Bool :=
  JSVal.strictEq ((claim.field "expected").field "type") (.str category)

/-- In the words of the specification: the triggered factors with their points, in the order
of the factor table. -/
def triggeredFactors (claim reality : JSVal) : List (Nat × String) :=
  (if apiStatusCritical reality then [(50, "Critical API failure detected")] else [])
  ++ (if hasIntegrityIssue reality then [(40, "Database integrity issues found")] else [])
  ++ (if performanceStatusIs reality "poor" then [(30, "Severe performance degradation")]
      else if performanceStatusIs reality "degraded" then
        [(15, "Performance degradation detected")]
      else [])
  ++ (if hasUIErrors reality then [(20, "UI errors detected")] else [])
  ++ (if claimCategoryIs claim "security" then [(25, "Security-related claim failure")]
      else if claimCategoryIs claim "data_integrity" then [(30, "Data integrity claim failure")]
      else if claimCategoryIs claim "api" then [(20, "API functionality claim failure")]
      else if claimCategoryIs claim "ui" then [(10, "UI functionality claim failure")]
      else [])

/-- In the words of the specification: the sum of the points of the triggered factors. -/
def factorScore (claim reality : JSVal) : Nat :=
  (if apiStatusCritical reality then 50 else 0)
  + (if hasIntegrityIssue reality then 40 else 0)
  + (if performanceStatusIs reality "poor" then 30
     else if performanceStatusIs reality "degraded" then 15 else 0)
  + (if hasUIErrors reality then 20 else 0)
  + (if claimCategoryIs claim "security" then 25
     else if claimCategoryIs claim "data_integrity" then 30
     else if claimCategoryIs claim "api" then 20
     else if claimCategoryIs claim "ui" then 10 else 0)

/-- The fixed assessment of the failure path of `assessSeverity`, stamped with `now`. -/
def failSafeAssessment (now : Int) : SeverityAssessment :=
  { level := .HIGH, score := 50, factors := ["Severity assessment failed"], timestamp := now }

/-- In the words of the specification: what a severity assessment says, its level, score and
factors, without the instant at which it was made. -/
def SeverityAssessment.content (a : SeverityAssessment) : Level × Nat × List String :=
  (a.level, a.score, a.factors)

/-- The status that `main` of `run-validation.js` hands to `process.exit` once it has printed
and saved the report of a run: `result.passed ? 0 : 1`. -/
def exitCode (result : RunResult) : Nat :=
  if result.passed then 0 else 1

/-! ## Sequences of runs -/

/-- A sequence of comprehensive runs on the same validator and working directory: the results
in order and the final state. -/
def runSequence : List (RunEnv × Options) → State → List RunResult × State
  | [], s => ([], s)
  | (env, options) :: rest, s =>
    let (result, s1) := performComprehensiveValidation env options s
    let (results, s2) := runSequence rest s1
    (result :: results, s2)

/-- The validation object of a result, when the run completed. -/
def RunResult.validation? : RunResult → Option Validation
  | .completed validation => some validation
  | .internalError _ _ => none

/-- The divergence list recorded in a result (none in an error record). -/
def RunResult.divergences : RunResult → List Divergence
  | .completed validation =>
    (match validation.evidence.claims with
      | some claims => claims.divergences
      | none => [])
  | .internalError _ _ => []

/-- The state in which step 5 of a run calls `validateAgainstReality`: the engine has been
activated and has captured one snapshot. -/
def stateAtClaimValidation (env : RunEnv) (s : State) : State :=
  { s with engine := (captureReality env.capture (startValidation s.engine)).2 }

/-- In the words of the specification: the test-suite points of a run, 20 if a test suite was
requested and passed. -/
def testPoints (options : Options) (tests : Except String TestResults) : Nat :=
  match tests with
  | .ok testResults => if options.runTests && testResults.passed then 20 else 0
  | .error _ => 0

/-- In the words of the specification: the claim-check points of a run, 15 if the run has zero
divergences. -/
def claimPoints (divergences : List Divergence) : Nat :=
  if divergences.length = 0 then 15 else 0

/-- The integer nearest to `a / b`, a tie going up (`Math.round` on the exact quotient). -/
def roundHalfUp (a b : Nat) : Nat := (2 * a + b) / (2 * b)

/-! ## The category-specific rules in the words of the specification -/

/-- In the words of the specification: the snapshot's endpoint list. -/
def endpointList (apiResponses : JSVal) : List JSVal :=
  (apiResponses.field "endpoints").elements

/-- In the words of the specification: the snapshot's UI element list. -/
def uiElementList (uiElements : JSVal) : List JSVal :=
  (uiElements.field "elements").elements

/-- In the words of the specification: the "detected" collection of a snapshot element. -/
def detectedCollection (el : JSVal) : List JSVal :=
  (el.field "detected").elements

/-- In the words of the specification: the union of the table lists of the observed
databases. -/
def observedTables : List JSVal → List JSVal
  | [] => []
  | db :: rest => (db.field "tables").elements ++ observedTables rest

/-- In the words of the specification: the snapshot's inconsistency list. -/
def inconsistencyList (databaseState : JSVal) : List JSVal :=
  (databaseState.field "inconsistencies").elements

/-- In the words of the specification: the duration of the snapshot's local-HTTP benchmark, the
first benchmark named `local_http`, when there is one and its duration is a number. -/
def localHttpDuration (performance : JSVal) : Option Int :=
  match (performance.field "benchmarks").elements.find?
      fun b => JSVal.strictEq (b.field "name") (.str "local_http") with
  | some b => (b.field "duration").toNumber
  | none => none

/-- In the words of the specification: the snapshot's memory-usage percentage, when it is a
number. -/
def memoryPercentage (performance : JSVal) : Option Int :=
  (((performance.field "system").field "memory").field "percentage").toNumber

/-! ## Concrete scenarios -/

namespace Scenario

/-- One healthy entry of the API collector's endpoint list. -/
def healthyEndpoint (url : String) : JSVal :=
  .obj [("url", .str url), ("status", .num 200), ("healthy", .bool true)]

/-- A healthy system as the four collectors report it: all four probed endpoints answer 200,
no HTML files, UI frameworks or local servers, no database, good performance. -/
def healthyCapture (now : Int) : CaptureEnv :=
  { now := now,
    apiProbe := .ok (.obj [("status", .str "healthy"),
      ("endpoints", .arr [healthyEndpoint "http://localhost:3000/api/health",
        healthyEndpoint "http://localhost:8080/health",
        healthyEndpoint "http://localhost:4000/graphql",
        healthyEndpoint "http://localhost:5000/api/status"]),
      ("timestamp", .str (toISOString now))]),
    uiProbe := .ok (.obj [
      ("elements", .arr [.obj [("type", .str "html_files"), ("count", .num 0),
        ("files", .arr [])]]),
      ("errors", .arr []), ("screenshots", .arr []),
      ("timestamp", .str (toISOString now))]),
    databaseProbe := .ok (.obj [("databases", .arr []), ("tables", .arr []),
      ("inconsistencies", .arr []), ("connections", .arr []),
      ("timestamp", .str (toISOString now))]),
    performanceProbe := .ok (.obj [
      ("system", .obj [("memory", .obj [("total", .num 16000), ("free", .num 12000),
        ("used", .num 4000), ("percentage", .num 25)])]),
      ("application", .obj []),
      ("benchmarks", .arr [.obj [("name", .str "file_io"), ("duration", .num 1),
        ("unit", .str "ms")]]),
      ("timestamp", .str (toISOString now)),
      ("overallStatus", .str "good")]) }

/-- A capture, at instant 2000, of a healthy system whose database source raises. -/
def databaseFailureCapture : CaptureEnv :=
  { healthyCapture 2000 with databaseProbe := .error "spawnSync find ENOENT" }

/-- An emergency environment in which every write and command succeeds. -/
def calmEmergency (now : Int) : EmergencyEnv :=
  { assessmentClock := fun _ => now, now := now, memoryWrite := .ok (), logWrite := .ok (),
    backup := .ok (), script := .ok () }

/-- A run environment around a healthy system, with the given security record and test
outcome; every write succeeds. -/
def runEnv (now : Int) (security : SecurityResults) (testsPassed : Bool) : RunEnv :=
  { startTime := now, capture := healthyCapture (now + 1), security := .ok security,
    ui := .ok { screenshots := [], validationResults := [] },
    tests := .ok { passed := testsPassed }, emergency := calmEmergency (now + 2),
    tokenTime := now + 3, tokenWrite := .ok (), errorTime := now + 4 }

/-- A security record with every point earned. -/
def fullSecurity : SecurityResults :=
  { score := some 165, maxScore := some 165, overallStatus := some "excellent",
    recommendations := some [] }

/-- A security record with 14 of 165 points. -/
def weakSecurity : SecurityResults :=
  { score := some 14, maxScore := some 165, overallStatus := some "poor",
    recommendations := some [] }

/-- A security record whose score exceeds its maximum: 174 of 165 points. The security source
adds the points of every running web server to a test whose maximum is fixed at 30, so with
three servers scoring 13 each it reports 39 of 30 for that test. -/
def overflowSecurity : SecurityResults :=
  { score := some 174, maxScore := some 165, overallStatus := some "excellent",
    recommendations := some [] }

/-- An empty working directory. -/
def noFiles : Files :=
  { token := none, failureMemory := none, emergencyLog := none, emergencyScript := false }

/-- A fresh validator in an empty working directory. -/
def freshState : State :=
  { engine := Engine.new, files := noFiles, console := [] }

/-- A validator holding one `ui` claim, recorded at instant 1000, that expects a `button`
element. -/
def uiClaimState : State :=
  { engine := recordClaim 1000 "dashboard"
      (.obj [("type", .str "ui"), ("elements", .arr [.obj [("type", .str "button")]])]) Engine.new,
    files := noFiles, console := [] }

/-- A claim of category `security`, as the validator passes it to `assessSeverity`. -/
def securityClaim : JSVal :=
  .obj [("expected", .obj [("type", .str "security")])]

/-- A snapshot with a critical API status and a failed database integrity check. -/
def brokenReality : JSVal :=
  .obj [("apiResponses", .obj [("status", .str "critical")]),
        ("databaseState", .obj [("inconsistencies",
          .arr [.obj [("type", .str "integrity_check"), ("issue", .str "corruption")]])])]

/-- The expectation of an `api` claim: the endpoint `http://localhost:3000/health` answers with
status 200. -/
def loginExpected : JSVal :=
  .obj [("type", .str "api"),
    ("endpoints", .arr [.obj [("url", .str "http://localhost:3000/health"),
      ("status", .num 200)]])]

/-- A snapshot, taken at `now`, of a system like `healthyCapture` except that its API slice
reports the endpoint `http://localhost:3000/health` with the given status code. -/
def loginReality (now : Int) (status : Int) : Reality :=
  { timestamp := now,
    apiResponses := .obj [("status", .str (if status = 200 then "healthy" else "degraded")),
      ("endpoints", .arr [
        .obj [("url", .str "http://localhost:3000/health"), ("status", .num status),
          ("healthy", .bool (decide (status = 200))), ("responseTime", .num 12)],
        healthyEndpoint "http://localhost:8080/health"]),
      ("timestamp", .str (toISOString now))],
    uiElements := .obj [("elements", .arr []), ("errors", .arr []), ("screenshots", .arr []),
      ("timestamp", .str (toISOString now))],
    databaseState := .obj [("databases", .arr []), ("tables", .arr []),
      ("inconsistencies", .arr []), ("connections", .arr []),
      ("timestamp", .str (toISOString now))],
    performance := .obj [("system", .obj []), ("application", .obj []), ("benchmarks", .arr []),
      ("timestamp", .str (toISOString now)), ("overallStatus", .str "good")] }

/-- The expectation of an `api` claim: the endpoint `http://localhost:3000/health` reports
status 0, the status the API collector records for an endpoint it cannot reach. -/
def unreachableExpected : JSVal :=
  .obj [("type", .str "api"),
    ("endpoints", .arr [.obj [("url", .str "http://localhost:3000/health"),
      ("status", .num 0)]])]

/-- A snapshot like `loginReality now 500` except that its API slice lists the endpoint
`http://localhost:3000/health` twice, first at status 500 and then at status 200. -/
def repeatedUrlReality (now : Int) : Reality :=
  { loginReality now 500 with
    apiResponses := .obj [("status", .str "degraded"),
      ("endpoints", .arr [
        .obj [("url", .str "http://localhost:3000/health"), ("status", .num 500),
          ("healthy", .bool false)],
        .obj [("url", .str "http://localhost:3000/health"), ("status", .num 200),
          ("healthy", .bool true)]]),
      ("timestamp", .str (toISOString now))] }

/-- A snapshot like `loginReality now 500` except that its API slice has no endpoint list. -/
def noEndpointListReality (now : Int) : Reality :=
  { loginReality now 500 with
    apiResponses := .obj [("status", .str "error"), ("error", .str "probe failed")] }

/-- A validator holding the claim `loginExpected` for the feature `login`, recorded at instant
1000, and the given snapshots. -/
def loginClaimState (snapshots : List Reality) : State :=
  { engine := { recordClaim 1000 "login" loginExpected Engine.new with
      actualBehaviors := snapshots, validationActive := true },
    files := noFiles, console := [] }

/-- The expectation of a `ui` claim: something detected under the name `React`, and an element
of type `html_files`. -/
def uiExpected : JSVal :=
  .obj [("type", .str "ui"),
    ("elements", .arr [.obj [("name", .str "React")], .obj [("type", .str "html_files")]])]

/-- An observation whose UI slice lists the HTML files found and the UI frameworks detected. -/
def uiActual : JSVal :=
  .obj [("uiElements", .obj [
    ("elements", .arr [
      .obj [("type", .str "html_files"), ("count", .num 1), ("files", .arr [.str "index.html"])],
      .obj [("type", .str "ui_frameworks"), ("detected", .arr [.str "React", .str "Vue"])]]),
    ("errors", .arr []), ("screenshots", .arr [])])]

/-- The expectation of a `database` claim: a table `users`. -/
def databaseExpected : JSVal :=
  .obj [("type", .str "database"), ("tables", .arr [.str "users"])]

/-- An observation whose database slice lists one SQLite database with the tables `users` and
`orders` and no inconsistency. -/
def databaseActual : JSVal :=
  .obj [("databaseState", .obj [
    ("databases", .arr [.obj [("type", .str "sqlite"), ("file", .str "./app.db"),
      ("tables", .arr [.str "users", .str "orders"]), ("tableCount", .num 2)]]),
    ("tables", .arr []), ("inconsistencies", .arr []), ("connections", .arr [])])]

/-- The expectation of a `performance` claim: a response time of 100 and a memory usage of
50. -/
def performanceExpected : JSVal :=
  .obj [("type", .str "performance"), ("responseTime", .num 100), ("memoryUsage", .num 50)]

/-- The expectation of a `performance` claim with the given response time and memory usage. -/
def performanceExpectedWith (responseTime memoryUsage : Int) : JSVal :=
  .obj [("type", .str "performance"), ("responseTime", .num responseTime),
    ("memoryUsage", .num memoryUsage)]

/-- An observation whose performance slice reports a local-HTTP benchmark of the given duration
and the given memory-usage percentage. -/
def performanceActual (duration percentage : Int) : JSVal :=
  .obj [("performance", .obj [
    ("system", .obj [("memory", .obj [("total", .num 16000), ("free", .num 4000),
      ("used", .num 12000), ("percentage", .num percentage)])]),
    ("application", .obj []),
    ("benchmarks", .arr [
      .obj [("name", .str "file_io"), ("duration", .num 1), ("unit", .str "ms")],
      .obj [("name", .str "local_http"), ("duration", .num duration), ("unit", .str "ms")]]),
    ("overallStatus", .str "good")])]

/-- The run environment `runEnv now security true` except that the incident log of the
emergency protocol cannot be written. -/
def failedLogEnv (now : Int) (security : SecurityResults) : RunEnv :=
  { runEnv now security true with
    emergency := { calmEmergency (now + 2) with logWrite := .error "EACCES: permission denied" } }

/-- The expectation of an `api` claim that declares only a status and no endpoint list. -/
def statusOnlyExpected : JSVal :=
  .obj [("type", .str "api"), ("status", .num 200)]

/-- A snapshot, taken at `now`, that holds only an API slice, with overall status
`critical`. -/
def criticalApiReality (now : Int) : Reality :=
  { timestamp := now, apiResponses := .obj [("status", .str "critical")],
    uiElements := .undefined, databaseState := .undefined, performance := .undefined }

/-- A validator holding the claim `statusOnlyExpected` for the feature `test`, recorded at
instant 1000, and the snapshot `criticalApiReality 2000`. -/
def statusOnlyClaimState : State :=
  { engine := { recordClaim 1000 "test" statusOnlyExpected Engine.new with
      actualBehaviors := [criticalApiReality 2000] },
    files := noFiles, console := [] }

/-- A claim of category `ui`, as the validator passes it to `assessSeverity`. -/
def minorUiClaim : JSVal :=
  .obj [("expected", .obj [("type", .str "ui")])]

/-- A snapshot whose only issue is one UI error, with overall performance status `good` and
neither an API nor a database slice. -/
def minorUiReality : JSVal :=
  .obj [("uiElements", .obj [("errors", .arr [.obj [("type", .str "minor")]])]),
        ("performance", .obj [("overallStatus", .str "good")])]

/-- Two runs in a row on a fresh validator: every point earned, then 14 of 165 security
points. -/
def passThenFail : List (RunEnv × Options) :=
  [(runEnv 5000 fullSecurity true, { runTests := false }),
   (runEnv 6000 weakSecurity true, { runTests := false })]

/-- The expectation of a `security` claim: no vulnerability is found. -/
def securityExpected : JSVal :=
  .obj [("type", .str "security"), ("vulnerabilities", .num 0)]

/-- A validator holding the claim `securityExpected` for the feature `audit`, recorded at
instant 1000, and the snapshot `loginReality 2000 200`. -/
def securityClaimState : State :=
  { engine := { recordClaim 1000 "audit" securityExpected Engine.new with
      actualBehaviors := [loginReality 2000 200] },
    files := noFiles, console := [] }

end Scenario

/-! # Theorems -/

theorem securityIsCritical_eq_false_iff (e : Evidence) :
    securityIsCritical e = false ↔
      ∀ sec, e.security = some sec → sec.overallStatus ≠ some "critical" := by
  unfold securityIsCritical
  cases h : e.security with
  | none => simp
  | some sec => simp

theorem hasCriticalDivergence_eq_false_iff (e : Evidence) :
    hasCriticalDivergence e = false ↔
      ∀ cl, e.claims = some cl →
        ∀ d ∈ cl.divergences, d.severity.level ≠ .HIGH ∧ d.severity.level ≠ .CRITICAL := by
  unfold hasCriticalDivergence criticalDivergences
  cases h : e.claims with
  | none => simp
  | some cl =>
    simp only [Option.some.injEq, forall_eq']
    constructor
    · intro hf d hd
      by_contra hcon
      have hmem : d ∈ cl.divergences.filter
          (fun d => d.severity.level == .CRITICAL || d.severity.level == .HIGH) := by
        rw [List.mem_filter]
        refine ⟨hd, ?_⟩
        cases hl : d.severity.level <;> simp_all
      have hpos : 0 < (cl.divergences.filter
          (fun d => d.severity.level == .CRITICAL || d.severity.level == .HIGH)).length :=
        List.length_pos_of_mem hmem
      have hpos2 : 0 < cl.divergences.length := List.length_pos_of_mem hd
      simp [hpos, hpos2] at hf
    · intro hall
      have hnil : cl.divergences.filter
          (fun d => d.severity.level == .CRITICAL || d.severity.level == .HIGH) = [] := by
        rw [List.filter_eq_nil_iff]
        intro d hd
        have := hall d hd
        cases hl : d.severity.level <;> simp_all
      simp [hnil]

theorem testsFailed_eq_false_iff (e : Evidence) :
    testsFailed e = false ↔ ∀ t, e.tests = some t → t.passed = true := by
  unfold testsFailed
  cases h : e.tests with
  | none => simp
  | some t => simp

theorem determineValidationPass_eq_true_iff (v : Validation) :
    determineValidationPass v = true ↔
      (60 ≤ v.overallScore ∧ securityIsCritical v.evidence = false ∧
        hasCriticalDivergence v.evidence = false ∧ testsFailed v.evidence = false) := by
  unfold determineValidationPass
  by_cases h1 : v.overallScore < 60
  · simp [h1]
  · have h60 : 60 ≤ v.overallScore := not_lt.mp h1
    cases h2 : securityIsCritical v.evidence <;> cases h3 : hasCriticalDivergence v.evidence <;>
      cases h4 : testsFailed v.evidence <;> simp [h1, h60]

/-- C1. `determineValidationPass` returns `true` exactly when all four gate conditions hold:
the overall score is at least 60, the security evidence (when present) does not have overall
status `critical`, no divergence of the run has severity level HIGH or CRITICAL, and the test
evidence (present when a test suite was requested) has `passed = true`. In particular, with
the other three conditions holding, an overall score of 59 gives `false` and 60 gives `true`,
and a `critical` security status gives `false` whatever the overall score is. -/
theorem determineValidationPass_iff_all_conditions (v : Validation) :
    (determineValidationPass v = true ↔
      (60 ≤ v.overallScore ∧
        (∀ sec, v.evidence.security = some sec → sec.overallStatus ≠ some "critical") ∧
        (∀ cl, v.evidence.claims = some cl →
          ∀ d ∈ cl.divergences, d.severity.level ≠ .HIGH ∧ d.severity.level ≠ .CRITICAL) ∧
        (∀ t, v.evidence.tests = some t → t.passed = true))) ∧
    (((∀ sec, v.evidence.security = some sec → sec.overallStatus ≠ some "critical") ∧
        (∀ cl, v.evidence.claims = some cl →
          ∀ d ∈ cl.divergences, d.severity.level ≠ .HIGH ∧ d.severity.level ≠ .CRITICAL) ∧
        (∀ t, v.evidence.tests = some t → t.passed = true)) →
      determineValidationPass { v with overallScore := 59 } = false ∧
      determineValidationPass { v with overallScore := 60 } = true) ∧
    (∀ sec, v.evidence.security = some sec → sec.overallStatus = some "critical" →
      ∀ n, determineValidationPass { v with overallScore := n } = false) := by
  have key : ∀ w : Validation, determineValidationPass w = true ↔
      (60 ≤ w.overallScore ∧
        (∀ sec, w.evidence.security = some sec → sec.overallStatus ≠ some "critical") ∧
        (∀ cl, w.evidence.claims = some cl →
          ∀ d ∈ cl.divergences, d.severity.level ≠ .HIGH ∧ d.severity.level ≠ .CRITICAL) ∧
        (∀ t, w.evidence.tests = some t → t.passed = true)) := by
    intro w
    rw [determineValidationPass_eq_true_iff, securityIsCritical_eq_false_iff,
      hasCriticalDivergence_eq_false_iff, testsFailed_eq_false_iff]
  refine ⟨key v, ?_, ?_⟩
  · intro h
    constructor
    · rw [← Bool.not_eq_true, key]
      simp
    · rw [key]
      exact ⟨le_refl _, h⟩
  · intro sec hsec hcrit n
    rw [← Bool.not_eq_true, key]
    intro hall
    exact hall.2.1 sec hsec hcrit

/-! ## Pairing and divergence detection -/

theorem findMatchingReality_some_split (snaps : List Reality) (c : Claim) (r : Reality)
    (h : findMatchingReality snaps c = some r) :
    ∃ before after, snaps = before ++ r :: after ∧ c.timestamp < r.timestamp ∧
      ∀ x ∈ before, x.timestamp ≤ c.timestamp := by
  induction snaps with
  | nil => simp [findMatchingReality] at h
  | cons x xs ih =>
    unfold findMatchingReality at h ih
    rw [List.find?_cons] at h
    by_cases hx : x.timestamp > c.timestamp
    · simp only [hx, decide_True] at h
      cases h
      exact ⟨[], xs, rfl, hx, by simp⟩
    · simp only [hx, decide_False] at h
      obtain ⟨b, a, hs, hlt, hb⟩ := ih h
      refine ⟨x :: b, a, by simp [hs], hlt, ?_⟩
      intro y hy
      rcases List.mem_cons.mp hy with rfl | hy
      · exact not_lt.mp hx
      · exact hb y hy

theorem findMatchingReality_of_split (before after : List Reality) (c : Claim) (r : Reality)
    (hr : c.timestamp < r.timestamp) (hb : ∀ x ∈ before, x.timestamp ≤ c.timestamp) :
    findMatchingReality (before ++ r :: after) c = some r := by
  induction before with
  | nil => simp [findMatchingReality, hr]
  | cons x xs ih =>
    have hx : ¬ (x.timestamp > c.timestamp) := not_lt.mpr (hb x (by simp))
    have ih' := ih (fun y hy => hb y (by simp [hy]))
    unfold findMatchingReality at ih' ⊢
    simp only [List.cons_append, List.find?_cons, hx, decide_False]
    exact ih'

theorem findMatchingReality_none_iff (snaps : List Reality) (c : Claim) :
    findMatchingReality snaps c = none ↔ ∀ x ∈ snaps, x.timestamp ≤ c.timestamp := by
  unfold findMatchingReality
  rw [List.find?_eq_none]
  simp

theorem collectDivergences_cons (clock : Nat → Int) (snaps : List Reality) (i : Nat)
    (c : Claim) (cs : List Claim) :
    collectDivergences clock snaps i (c :: cs)
      = (divergenceOf (clock i) snaps c).toList ++ collectDivergences clock snaps (i + 1) cs := by
  rw [collectDivergences]
  unfold divergenceOf
  cases hf : findMatchingReality snaps c with
  | none => simp
  | some r =>
    cases hm : behaviorsMatch c.expected r.toJS
    · simp [hm]
    · simp [hm]

theorem collectDivergences_eq_filterMap (clock : Nat → Int) (snaps : List Reality) (i : Nat)
    (claims : List Claim) :
    collectDivergences clock snaps i claims
      = (claims.enumFrom i).filterMap fun p => divergenceOf (clock p.1) snaps p.2 := by
  induction claims generalizing i with
  | nil => rfl
  | cons c cs ih =>
    rw [collectDivergences_cons, List.enumFrom_cons, List.filterMap_cons, ih]
    cases divergenceOf (clock i) snaps c <;> simp

theorem validateAgainstReality_fst (env : EmergencyEnv) (s : State) :
    (validateAgainstReality env s).1
      = collectDivergences env.assessmentClock s.engine.actualBehaviors 0
          s.engine.claimedBehaviors := by
  unfold validateAgainstReality
  dsimp only
  split <;> rfl

theorem divergenceOf_some (now : Int) (snaps : List Reality) (c : Claim) (d : Divergence)
    (h : divergenceOf now snaps c = some d) :
    d.claim = c ∧ findMatchingReality snaps c = some d.reality ∧
      behaviorsMatch c.expected d.reality.toJS = false ∧
      d.severity = assessSeverity now c.toJS d.reality.toJS := by
  unfold divergenceOf at h
  cases hf : findMatchingReality snaps c with
  | none => simp [hf] at h
  | some r =>
    rw [hf] at h
    cases hm : behaviorsMatch c.expected r.toJS
    · simp only [hm, Bool.false_eq_true, if_false, Option.some.injEq] at h
      subst h
      exact ⟨rfl, rfl, hm, rfl⟩
    · simp [hm] at h

/-- C2. For every claim and every snapshot list, `findMatchingReality` returns the first
snapshot in list order whose timestamp is strictly later than the claim's: the snapshots before
it are not later, it returns nothing exactly when no snapshot is strictly later, and a
snapshot whose timestamp equals the claim's is never chosen. -/
theorem findMatchingReality_first_strictly_later (snaps : List Reality) (c : Claim) :
    (∀ r, findMatchingReality snaps c = some r ↔
      ∃ before after, snaps = before ++ r :: after ∧ c.timestamp < r.timestamp ∧
        ∀ x ∈ before, ¬ c.timestamp < x.timestamp) ∧
    (findMatchingReality snaps c = none ↔ ∀ x ∈ snaps, ¬ c.timestamp < x.timestamp) ∧
    (∀ r, findMatchingReality snaps c = some r → r.timestamp ≠ c.timestamp) := by
  refine ⟨?_, ?_, ?_⟩
  · intro r
    constructor
    · intro h
      obtain ⟨b, a, hs, hlt, hb⟩ := findMatchingReality_some_split snaps c r h
      exact ⟨b, a, hs, hlt, fun x hx => not_lt.mpr (hb x hx)⟩
    · rintro ⟨b, a, hs, hlt, hb⟩
      rw [hs]
      exact findMatchingReality_of_split b a c r hlt (fun x hx => not_lt.mp (hb x hx))
  · rw [findMatchingReality_none_iff]
    constructor
    · intro h x hx
      exact not_lt.mpr (h x hx)
    · intro h x hx
      exact not_lt.mp (h x hx)
  · intro r h
    obtain ⟨_, _, _, hlt, _⟩ := findMatchingReality_some_split snaps c r h
    exact ne_of_gt hlt

/-- C3. `validateAgainstReality` returns, in the order the claims were recorded, exactly one
divergence `{claim, reality, severity}` for each recorded claim that has a paired snapshot
(`findMatchingReality`) which its expected behaviour does not match (`behaviorsMatch`), and
none for any other claim. Every reported divergence pairs its claim with a snapshot strictly
after it and carries the assessment `assessSeverity` makes of the pair, a claim with no
snapshot strictly after it contributes none, and the result never has more entries than there
are claims. -/
theorem validateAgainstReality_divergences (env : EmergencyEnv) (s : State) :
    (validateAgainstReality env s).1
        = (s.engine.claimedBehaviors.enum.filterMap fun p =>
            divergenceOf (env.assessmentClock p.1) s.engine.actualBehaviors p.2) ∧
    (∀ d ∈ (validateAgainstReality env s).1,
      d.claim ∈ s.engine.claimedBehaviors ∧
      findMatchingReality s.engine.actualBehaviors d.claim = some d.reality ∧
      d.claim.timestamp < d.reality.timestamp ∧
      behaviorsMatch d.claim.expected d.reality.toJS = false ∧
      ∃ now, d.severity = assessSeverity now d.claim.toJS d.reality.toJS) ∧
    (∀ c ∈ s.engine.claimedBehaviors,
      (∀ r ∈ s.engine.actualBehaviors, ¬ c.timestamp < r.timestamp) →
        ∀ d ∈ (validateAgainstReality env s).1, d.claim ≠ c) ∧
    (validateAgainstReality env s).1.length ≤ s.engine.claimedBehaviors.length := by
  have hEq : (validateAgainstReality env s).1
      = (s.engine.claimedBehaviors.enum.filterMap fun p =>
          divergenceOf (env.assessmentClock p.1) s.engine.actualBehaviors p.2) := by
    rw [validateAgainstReality_fst, collectDivergences_eq_filterMap]
    rfl
  have hMem : ∀ d ∈ (validateAgainstReality env s).1,
      d.claim ∈ s.engine.claimedBehaviors ∧
      findMatchingReality s.engine.actualBehaviors d.claim = some d.reality ∧
      d.claim.timestamp < d.reality.timestamp ∧
      behaviorsMatch d.claim.expected d.reality.toJS = false ∧
      ∃ now, d.severity = assessSeverity now d.claim.toJS d.reality.toJS := by
    intro d hd
    rw [hEq, List.mem_filterMap] at hd
    obtain ⟨p, hp, hdc⟩ := hd
    obtain ⟨h1, h2, h3, h4⟩ := divergenceOf_some _ _ p.2 d hdc
    have hc : p.2 ∈ s.engine.claimedBehaviors := List.snd_mem_of_mem_enum hp
    rw [← h1] at hc h2 h3 h4
    obtain ⟨_, _, _, hlt, _⟩ := findMatchingReality_some_split _ _ _ h2
    exact ⟨hc, h2, hlt, h3, _, h4⟩
  refine ⟨hEq, hMem, ?_, ?_⟩
  · intro c _ hnone d hd hdc
    obtain ⟨_, hfind, hlt, _, _⟩ := hMem d hd
    obtain ⟨b, a, hs, _, _⟩ := findMatchingReality_some_split _ _ _ hfind
    have hmem : d.reality ∈ s.engine.actualBehaviors := by
      rw [hs]
      simp
    exact hnone d.reality hmem (hdc ▸ hlt)
  · rw [hEq]
    calc _ ≤ s.engine.claimedBehaviors.enum.length := List.length_filterMap_le _ _
      _ = s.engine.claimedBehaviors.length := List.enum_length

/-! ## Severity scoring -/

theorem JSVal.field_of_get {v x : JSVal} {key : String} (h : v.get key = .ok x) :
    v.field key = x := by
  simp [JSVal.field, h]

theorem JSVal.field_of_not_truthy {v : JSVal} (h : v.truthy = false) (key : String)
    (hk : key ≠ "length") : v.field key = .undefined := by
  cases v <;> simp_all [JSVal.field, JSVal.get, JSVal.truthy]

theorem JSVal.field_undefined (key : String) : JSVal.undefined.field key = .undefined := by
  simp [JSVal.field, JSVal.get]

theorem apiFactor_ok (reality : JSVal) (l : List (Nat × String))
    (h : apiFactor reality = .ok l) :
    l = if apiStatusCritical reality then [(50, "Critical API failure detected")] else [] := by
  unfold apiFactor at h
  unfold apiStatusCritical
  cases h1 : reality.get "apiResponses" with
  | error e => simp [h1, bind, Except.bind] at h
  | ok api =>
    rw [JSVal.field_of_get h1]
    simp only [h1, bind, Except.bind] at h
    cases ht : api.truthy
    · simp only [ht, Bool.false_eq_true, if_false, pure, Except.pure, Except.ok.injEq] at h
      rw [JSVal.field_of_not_truthy ht _ (by decide)]
      simp [JSVal.strictEq, ← h]
    · simp only [ht, if_true] at h
      cases h2 : api.get "status" with
      | error e => simp [h2] at h
      | ok st =>
        rw [JSVal.field_of_get h2]
        simp only [h2] at h
        split at h <;> simp_all [pure, Except.pure]


theorem JSVal.get_ok_of_truthy {v : JSVal} (h : v.truthy = true) (key : String) :
    ∃ x, v.get key = .ok x := by
  cases v <;> simp_all [JSVal.get, JSVal.truthy]

theorem filterIssues_ok (items l : List JSVal) (h : filterIssues items = .ok l) :
    decide (l.length > 0) = items.any fun i =>
      JSVal.strictEq (i.field "type") (.str "integrity_check")
        || JSVal.strictEq (i.field "type") (.str "data_corruption") := by
  induction items generalizing l with
  | nil =>
    simp only [filterIssues, Except.ok.injEq] at h
    subst h
    simp
  | cons i rest ih =>
    unfold filterIssues at h
    cases h1 : i.get "type" with
    | error e => simp [h1, bind, Except.bind] at h
    | ok ty =>
      simp only [h1, bind, Except.bind] at h
      cases h2 : filterIssues rest with
      | error e => simp [h2] at h
      | ok tail =>
        have iht := ih tail h2
        simp only [h2] at h
        rw [List.any_cons, JSVal.field_of_get h1, ← iht]
        split at h
        · rename_i hc
          simp only [pure, Except.pure, Except.ok.injEq] at h
          subst h
          simp [hc]
        · rename_i hc
          simp only [pure, Except.pure, Except.ok.injEq] at h
          subst h
          simp only [Bool.not_eq_true] at hc
          simp [hc]

theorem JSVal.asArray_ok {v : JSVal} {items : List JSVal} (h : v.asArray = .ok items) :
    v = .arr items := by
  cases v <;> simp_all [JSVal.asArray]

theorem JSVal.gtZero_length_false_elements {v len : JSVal} (h1 : v.get "length" = .ok len)
    (h2 : len.gtZero = false) : v.elements = [] := by
  cases v with
  | arr items =>
    simp only [JSVal.get, if_true, Except.ok.injEq] at h1
    subst h1
    cases items with
    | nil => rfl
    | cons x xs => simp [JSVal.gtZero, JSVal.toNumber] at h2
  | _ => rfl

theorem databaseFactor_ok (reality : JSVal) (l : List (Nat × String))
    (h : databaseFactor reality = .ok l) :
    l = if hasIntegrityIssue reality then [(40, "Database integrity issues found")] else [] := by
  unfold databaseFactor at h
  unfold hasIntegrityIssue
  cases h1 : reality.get "databaseState" with
  | error e => simp [h1, bind, Except.bind] at h
  | ok db =>
    rw [JSVal.field_of_get h1]
    simp only [h1, bind, Except.bind] at h
    cases ht : db.truthy
    · simp only [ht, Bool.false_eq_true, if_false, pure, Except.pure, Except.ok.injEq] at h
      rw [JSVal.field_of_not_truthy ht _ (by decide)]
      simp [JSVal.elements, ← h]
    · simp only [ht, if_true] at h
      cases h2 : db.get "inconsistencies" with
      | error e => simp [h2] at h
      | ok inc =>
        rw [JSVal.field_of_get h2]
        simp only [h2] at h
        cases h3 : inc.get "length" with
        | error e => simp [h3] at h
        | ok len =>
          simp only [h3] at h
          cases hg : len.gtZero
          · simp only [hg, Bool.false_eq_true, if_false, pure, Except.pure, Except.ok.injEq] at h
            rw [JSVal.gtZero_length_false_elements h3 hg]
            simp [← h]
          · simp only [hg, if_true] at h
            cases h4 : inc.asArray with
            | error e => simp [h4] at h
            | ok items =>
              simp only [h4] at h
              have hinc := JSVal.asArray_ok h4
              subst hinc
              cases h5 : filterIssues items with
              | error e => simp [h5] at h
              | ok issues =>
                simp only [h5] at h
                have hiss := filterIssues_ok items issues h5
                simp only [JSVal.elements]
                by_cases hpos : issues.length > 0
                · have hany : (items.any fun i =>
                      JSVal.strictEq (i.field "type") (.str "integrity_check")
                        || JSVal.strictEq (i.field "type") (.str "data_corruption")) = true := by
                    rw [← hiss]
                    simp [hpos]
                  simp only [hpos, if_true, pure, Except.pure, Except.ok.injEq] at h
                  rw [if_pos hany, ← h]
                · have hany : ¬ (items.any fun i =>
                      JSVal.strictEq (i.field "type") (.str "integrity_check")
                        || JSVal.strictEq (i.field "type") (.str "data_corruption")) = true := by
                    rw [← hiss]
                    simp [hpos]
                  simp only [hpos, if_false, pure, Except.pure, Except.ok.injEq] at h
                  rw [if_neg hany, ← h]

theorem performanceFactor_ok (reality : JSVal) (l : List (Nat × String))
    (h : performanceFactor reality = .ok l) :
    l = if performanceStatusIs reality "poor" then [(30, "Severe performance degradation")]
        else if performanceStatusIs reality "degraded" then
          [(15, "Performance degradation detected")]
        else [] := by
  unfold performanceFactor at h
  unfold performanceStatusIs
  cases h1 : reality.get "performance" with
  | error e => simp [h1, bind, Except.bind] at h
  | ok perf =>
    rw [JSVal.field_of_get h1]
    simp only [h1, bind, Except.bind] at h
    cases ht : perf.truthy
    · simp only [ht, Bool.false_eq_true, if_false, pure, Except.pure, Except.ok.injEq] at h
      rw [JSVal.field_of_not_truthy ht _ (by decide)]
      simp [JSVal.strictEq, ← h]
    · simp only [ht, if_true] at h
      cases h2 : perf.get "overallStatus" with
      | error e => simp [h2] at h
      | ok st =>
        rw [JSVal.field_of_get h2]
        simp only [h2] at h
        split at h
        · simp_all [pure, Except.pure]
        · split at h <;> simp_all [pure, Except.pure]

theorem uiFactor_ok (reality : JSVal) (l : List (Nat × String))
    (h : uiFactor reality = .ok l) :
    l = if hasUIErrors reality then [(20, "UI errors detected")] else [] := by
  unfold uiFactor at h
  unfold hasUIErrors
  cases h1 : reality.get "uiElements" with
  | error e => simp [h1, bind, Except.bind] at h
  | ok ui =>
    rw [JSVal.field_of_get h1]
    simp only [h1, bind, Except.bind] at h
    cases ht : ui.truthy
    · simp only [ht, Bool.false_eq_true, if_false, pure, Except.pure, Except.ok.injEq] at h
      rw [JSVal.field_of_not_truthy ht _ (by decide), JSVal.field_undefined]
      simp [JSVal.gtZero, JSVal.toNumber, ← h]
    · simp only [ht, if_true] at h
      cases h2 : ui.get "errors" with
      | error e => simp [h2] at h
      | ok errors =>
        rw [JSVal.field_of_get h2]
        simp only [h2] at h
        cases h3 : errors.get "length" with
        | error e => simp [h3] at h
        | ok len =>
          rw [JSVal.field_of_get h3]
          simp only [h3] at h
          split at h <;> simp_all [pure, Except.pure]

theorem JSVal.strictEq_str_of_not_truthy {v : JSVal} (h : v.truthy = false) (t : String)
    (ht : t ≠ "") : JSVal.strictEq v (.str t) = false := by
  cases v <;> simp_all [JSVal.strictEq, JSVal.truthy]
  rintro rfl
  simp_all

theorem claimTypeFactor_ok (claim : JSVal) (l : List (Nat × String))
    (h : claimTypeFactor claim = .ok l) :
    l = if claimCategoryIs claim "security" then [(25, "Security-related claim failure")]
        else if claimCategoryIs claim "data_integrity" then
          [(30, "Data integrity claim failure")]
        else if claimCategoryIs claim "api" then [(20, "API functionality claim failure")]
        else if claimCategoryIs claim "ui" then [(10, "UI functionality claim failure")]
        else [] := by
  unfold claimTypeFactor at h
  unfold claimCategoryIs
  cases h1 : claim.get "expected" with
  | error e => simp [h1, bind, Except.bind] at h
  | ok expected =>
    rw [JSVal.field_of_get h1]
    simp only [h1, bind, Except.bind] at h
    cases ht : expected.truthy
    · simp only [ht, Bool.false_eq_true, if_false, pure, Except.pure, Except.ok.injEq] at h
      rw [JSVal.field_of_not_truthy ht _ (by decide)]
      simp [JSVal.strictEq, ← h]
    · simp only [ht, if_true] at h
      cases h2 : expected.get "type" with
      | error e => simp [h2] at h
      | ok ty =>
        rw [JSVal.field_of_get h2]
        simp only [h2] at h
        cases hty : ty.truthy
        · simp only [hty, Bool.false_eq_true, if_false, pure, Except.pure, Except.ok.injEq] at h
          simp [JSVal.strictEq_str_of_not_truthy hty, ← h]
        · simp only [hty, if_true] at h
          split at h
          · simp_all [pure, Except.pure]
          · split at h
            · simp_all [pure, Except.pure]
            · split at h
              · simp_all [pure, Except.pure]
              · split at h <;> simp_all [pure, Except.pure]

theorem severityFactors_ok (claim reality : JSVal) (triggered : List (Nat × String))
    (h : severityFactors claim reality = .ok triggered) :
    triggered = triggeredFactors claim reality := by
  unfold severityFactors at h
  cases h1 : apiFactor reality with
  | error e => simp [h1, bind, Except.bind] at h
  | ok f1 =>
    cases h2 : databaseFactor reality with
    | error e => simp [h1, h2, bind, Except.bind] at h
    | ok f2 =>
      cases h3 : performanceFactor reality with
      | error e => simp [h1, h2, h3, bind, Except.bind] at h
      | ok f3 =>
        cases h4 : uiFactor reality with
        | error e => simp [h1, h2, h3, h4, bind, Except.bind] at h
        | ok f4 =>
          cases h5 : claimTypeFactor claim with
          | error e => simp [h1, h2, h3, h4, h5, bind, Except.bind] at h
          | ok f5 =>
            simp only [h1, h2, h3, h4, h5, bind, Except.bind, pure, Except.pure,
              Except.ok.injEq] at h
            rw [← h, apiFactor_ok _ _ h1, databaseFactor_ok _ _ h2, performanceFactor_ok _ _ h3,
              uiFactor_ok _ _ h4, claimTypeFactor_ok _ _ h5]
            rfl

theorem triggeredFactors_sum (claim reality : JSVal) :
    ((triggeredFactors claim reality).map Prod.fst).sum = factorScore claim reality := by
  unfold triggeredFactors factorScore
  simp only [List.map_append, List.sum_append]
  congr 1
  · congr 1
    · congr 1
      · congr 1
        · split <;> simp
        · split <;> simp
      · split
        · simp
        · split <;> simp
    · split <;> simp
  · split
    · simp
    · split
      · simp
      · split
        · simp
        · split <;> simp


theorem assessSeverity_of_error (now : Int) (claim reality : JSVal) (e : String)
    (h : severityFactors claim reality = .error e) :
    assessSeverity now claim reality = failSafeAssessment now := by
  simp [assessSeverity, h, failSafeAssessment]

theorem severityFactors_error_of_database (claim reality : JSVal) (e : String)
    (h : databaseFactor reality = .error e) : ∃ e2, severityFactors claim reality = .error e2 := by
  unfold severityFactors
  cases h1 : apiFactor reality with
  | error e1 => exact ⟨e1, by simp [bind, Except.bind]⟩
  | ok f1 => exact ⟨e, by simp [h, bind, Except.bind]⟩

theorem severityFactors_error_of_ui (claim reality : JSVal) (e : String)
    (h : uiFactor reality = .error e) : ∃ e2, severityFactors claim reality = .error e2 := by
  unfold severityFactors
  cases h1 : apiFactor reality with
  | error e1 => exact ⟨e1, by simp [bind, Except.bind]⟩
  | ok f1 =>
    cases h2 : databaseFactor reality with
    | error e1 => exact ⟨e1, by simp [bind, Except.bind]⟩
    | ok f2 =>
      cases h3 : performanceFactor reality with
      | error e1 => exact ⟨e1, by simp [bind, Except.bind]⟩
      | ok f3 => exact ⟨e, by simp [h, bind, Except.bind]⟩

theorem severityLevel_cases (n : Nat) :
    (severityLevel n = .CRITICAL ↔ 70 ≤ n) ∧ (severityLevel n = .HIGH ↔ 40 ≤ n ∧ n < 70) ∧
    (severityLevel n = .MEDIUM ↔ 20 ≤ n ∧ n < 40) ∧ (severityLevel n = .LOW ↔ n < 20) := by
  unfold severityLevel
  by_cases h1 : n ≥ 70
  · simp [h1]
    omega
  · by_cases h2 : n ≥ 40
    · simp [h1, h2]
      omega
    · by_cases h3 : n ≥ 20
      · simp [h1, h2, h3]
        omega
      · simp [h1, h2, h3]
        omega

theorem assessSeverity_level_eq (now : Int) (claim reality : JSVal) :
    (assessSeverity now claim reality).level = severityLevel (assessSeverity now claim reality).score := by
  unfold assessSeverity
  cases severityFactors claim reality with
  | error e => simp [severityLevel]
  | ok t => rfl

/-- C7. Whenever `assessSeverity` completes without an internal error, its score is the sum of
the points of exactly the triggered factors (50 for API status `critical`; 40 for a database
inconsistency of type `integrity_check` or `data_corruption`; 30 for performance status `poor`,
otherwise 15 for `degraded`; 20 for a non-empty UI error list; 25, 30, 20 or 10 for a claim of
category security, data_integrity, api or ui), and the factors list holds one label per
triggered factor, in that order. -/
theorem assessSeverity_score_is_sum_of_triggered_factors (now : Int) (claim reality : JSVal)
    (h : ∃ triggered, severityFactors claim reality = .ok triggered) :
    (assessSeverity now claim reality).score = factorScore claim reality ∧
    (assessSeverity now claim reality).factors = (triggeredFactors claim reality).map Prod.snd ∧
    (assessSeverity now claim reality).factors.length = (triggeredFactors claim reality).length := by
  obtain ⟨triggered, ht⟩ := h
  have hspec := severityFactors_ok claim reality triggered ht
  subst hspec
  have hs : (assessSeverity now claim reality).score = factorScore claim reality := by
    rw [← triggeredFactors_sum]
    simp [assessSeverity, ht]
  have hf : (assessSeverity now claim reality).factors
      = (triggeredFactors claim reality).map Prod.snd := by
    simp [assessSeverity, ht]
  exact ⟨hs, hf, by rw [hf, List.length_map]⟩

/-- C7, witness: a `security` claim against a snapshot with a critical API status and a failed
integrity check completes with score 50 + 40 + 25. -/
theorem assessSeverity_score_is_sum_of_triggered_factors_witness :
    (∃ triggered, severityFactors Scenario.securityClaim Scenario.brokenReality = .ok triggered) ∧
    ((assessSeverity 7000 Scenario.securityClaim Scenario.brokenReality).score
        = factorScore Scenario.securityClaim Scenario.brokenReality ∧
      (assessSeverity 7000 Scenario.securityClaim Scenario.brokenReality).factors
        = (triggeredFactors Scenario.securityClaim Scenario.brokenReality).map Prod.snd ∧
      (assessSeverity 7000 Scenario.securityClaim Scenario.brokenReality).factors.length
        = (triggeredFactors Scenario.securityClaim Scenario.brokenReality).length) :=
  ⟨⟨_, rfl⟩,
    assessSeverity_score_is_sum_of_triggered_factors 7000 Scenario.securityClaim
      Scenario.brokenReality ⟨_, rfl⟩⟩

/-- C8. The severity level returned by `assessSeverity` is determined by its score alone:
CRITICAL iff the score is at least 70, HIGH iff it is at least 40 and below 70, MEDIUM iff it is
at least 20 and below 40, LOW iff it is below 20; so 70 is CRITICAL, 69 and 40 are HIGH, 39 and
20 are MEDIUM, and 19 is LOW. -/
theorem assessSeverity_level_determined_by_score (now : Int) (claim reality : JSVal) :
    (assessSeverity now claim reality).level = severityLevel (assessSeverity now claim reality).score ∧
    ((assessSeverity now claim reality).level = .CRITICAL ↔
      70 ≤ (assessSeverity now claim reality).score) ∧
    ((assessSeverity now claim reality).level = .HIGH ↔
      40 ≤ (assessSeverity now claim reality).score ∧ (assessSeverity now claim reality).score < 70) ∧
    ((assessSeverity now claim reality).level = .MEDIUM ↔
      20 ≤ (assessSeverity now claim reality).score ∧ (assessSeverity now claim reality).score < 40) ∧
    ((assessSeverity now claim reality).level = .LOW ↔ (assessSeverity now claim reality).score < 20) ∧
    severityLevel 70 = .CRITICAL ∧ severityLevel 69 = .HIGH ∧ severityLevel 40 = .HIGH ∧
    severityLevel 39 = .MEDIUM ∧ severityLevel 20 = .MEDIUM ∧ severityLevel 19 = .LOW := by
  have hl := assessSeverity_level_eq now claim reality
  obtain ⟨h1, h2, h3, h4⟩ := severityLevel_cases (assessSeverity now claim reality).score
  rw [← hl] at h1 h2 h3 h4
  exact ⟨hl, h1, h2, h3, h4, by decide, by decide, by decide, by decide, by decide, by decide⟩

/-- C9. `assessSeverity` never raises: it always returns an assessment, and whenever evaluating
the factors raises an error it returns level HIGH, score 50 and a factors list with exactly one
explanatory entry, never LOW. This is the case in particular when the snapshot's database slice
has no inconsistency list, and when its UI slice has no error list. -/
theorem assessSeverity_fail_safe (now : Int) (claim reality : JSVal) :
    (assessSeverity now claim reality = failSafeAssessment now ∨
      ∃ triggered, severityFactors claim reality = .ok triggered) ∧
    (∀ e, severityFactors claim reality = .error e →
      assessSeverity now claim reality = failSafeAssessment now) ∧
    (∀ db, reality.get "databaseState" = .ok db → db.truthy = true →
      db.get "inconsistencies" = .ok .undefined →
      assessSeverity now claim reality = failSafeAssessment now) ∧
    (∀ ui, reality.get "uiElements" = .ok ui → ui.truthy = true →
      ui.get "errors" = .ok .undefined →
      assessSeverity now claim reality = failSafeAssessment now) ∧
    (failSafeAssessment now).level = .HIGH ∧ (failSafeAssessment now).score = 50 ∧
    (failSafeAssessment now).factors.length = 1 ∧ (failSafeAssessment now).level ≠ .LOW := by
  refine ⟨?_, ?_, ?_, ?_, rfl, rfl, rfl, by simp [failSafeAssessment]⟩
  · cases h : severityFactors claim reality with
    | error e => exact Or.inl (assessSeverity_of_error now claim reality e h)
    | ok t => exact Or.inr ⟨t, rfl⟩
  · intro e h
    exact assessSeverity_of_error now claim reality e h
  · intro db h1 ht h2
    have hdb : ∃ e, databaseFactor reality = .error e := by
      unfold databaseFactor
      simp only [h1, ht, h2, bind, Except.bind, if_true]
      exact ⟨_, rfl⟩
    obtain ⟨e, he⟩ := hdb
    obtain ⟨e2, he2⟩ := severityFactors_error_of_database claim reality e he
    exact assessSeverity_of_error now claim reality e2 he2
  · intro ui h1 ht h2
    have hui : ∃ e, uiFactor reality = .error e := by
      unfold uiFactor
      simp only [h1, ht, h2, bind, Except.bind, if_true]
      exact ⟨_, rfl⟩
    obtain ⟨e, he⟩ := hui
    obtain ⟨e2, he2⟩ := severityFactors_error_of_ui claim reality e he
    exact assessSeverity_of_error now claim reality e2 he2

/-! ## Comprehensive runs -/

theorem updateFailureMemory_token (env : EmergencyEnv) (ds : List Divergence) (s : State) :
    (updateFailureMemory env ds s).files.token = s.files.token := by
  unfold updateFailureMemory
  cases s.files.failureMemory with
  | none => rfl
  | some m => cases env.memoryWrite <;> rfl

theorem triggerEmergencyProtocol_token (env : EmergencyEnv) (s : State) :
    (triggerEmergencyProtocol env s).files.token = s.files.token := by
  unfold triggerEmergencyProtocol
  cases env.logWrite with
  | error e => rfl
  | ok u =>
    cases env.backup <;> cases env.script <;> cases hs : s.files.emergencyScript <;> simp [hs]

theorem validateAgainstReality_token (env : EmergencyEnv) (s : State) :
    (validateAgainstReality env s).2.files.token = s.files.token := by
  unfold validateAgainstReality
  dsimp only
  split
  · simp only [handleCatastrophicFailure]
    rw [triggerEmergencyProtocol_token, updateFailureMemory_token]
  · rfl


theorem decidedValidation_passed (v : Validation) :
    (decidedValidation v).passed = determineValidationPass v := rfl

theorem decidedValidation_evidence (v : Validation) :
    (decidedValidation v).evidence = v.evidence := rfl

theorem decidedValidation_scores (v : Validation) :
    (decidedValidation v).score = v.score ∧ (decidedValidation v).maxScore = v.maxScore ∧
      (decidedValidation v).overallScore = v.overallScore := ⟨rfl, rfl, rfl⟩

theorem determineValidationPass_decided (v : Validation) :
    determineValidationPass (decidedValidation v) = determineValidationPass v := rfl

/-- The three ways steps 5 to 9 can end: the gate fails; the gate passes and the token is
written; the gate passes and the token write throws. -/
theorem finishValidation_result (env : RunEnv) (evidence : Evidence) (score maxScore : Nat)
    (s : State) :
    ∃ v : Validation,
      v = decidedValidation (scoredValidation env evidence score maxScore
            (validateAgainstReality env.emergency s).1
            (validateAgainstReality env.emergency s).2.engine) ∧
      ((v.passed = false ∧
          finishValidation env evidence score maxScore s
            = (.completed v, (validateAgainstReality env.emergency s).2)) ∨
        (v.passed = true ∧ env.tokenWrite = .ok () ∧
          (finishValidation env evidence score maxScore s).1 = .completed v ∧
          (finishValidation env evidence score maxScore s).2.files.token
            = some { timestamp := env.tokenTime, evidence := tokenEvidence v,
                     validator := "TruthForge Core" }) ∨
        (v.passed = true ∧ ∃ message, env.tokenWrite = .error message ∧
          finishValidation env evidence score maxScore s
            = (.internalError env.errorTime message,
                (validateAgainstReality env.emergency s).2))) := by
  refine ⟨_, rfl, ?_⟩
  unfold finishValidation
  dsimp only
  cases hp : (decidedValidation (scoredValidation env evidence score maxScore
      (validateAgainstReality env.emergency s).1
      (validateAgainstReality env.emergency s).2.engine)).passed
  · left
    simp
  · right
    cases hw : env.tokenWrite with
    | error message =>
      right
      simp [createValidationToken]
    | ok u =>
      left
      simp [createValidationToken]

/-- The ways a run can go: a source throws before the claim check, or the run reaches steps 5
to 9 with the running totals of the security and test evidence. -/
theorem performComprehensiveValidation_cases (env : RunEnv) (options : Options) (s : State) :
    (∃ message, performComprehensiveValidation env options s
        = (.internalError env.errorTime message, stateAtClaimValidation env s)) ∨
    (∃ sec ui evidence,
        env.security = .ok sec ∧ env.ui = .ok ui ∧
        evidence.security = some sec ∧ evidence.ui = some ui ∧
        (options.runTests = false → evidence.tests = none) ∧
        (options.runTests = true → ∃ t, env.tests = .ok t ∧ evidence.tests = some t) ∧
        performComprehensiveValidation env options s
          = finishValidation env evidence
              (sec.score.getD 0 + testPoints options env.tests)
              (sec.maxScore.getD 0 + (if options.runTests then 20 else 0))
              (stateAtClaimValidation env s)) := by
  unfold performComprehensiveValidation stateAtClaimValidation
  dsimp only
  cases hsec : env.security with
  | error message => exact Or.inl ⟨message, rfl⟩
  | ok sec =>
    cases hui : env.ui with
    | error message => exact Or.inl ⟨message, rfl⟩
    | ok ui =>
      cases hrt : options.runTests
      · right
        refine ⟨sec, ui,
          { systemState := (captureReality env.capture (startValidation s.engine)).1,
            security := some sec, ui := some ui, tests := none, claims := none },
          rfl, rfl, rfl, rfl, fun _ => rfl, fun h => by simp at h, ?_⟩
        simp [testPoints, hrt]
        cases env.tests <;> simp
      · cases htests : env.tests with
        | error message => exact Or.inl ⟨message, by simp⟩
        | ok t =>
          right
          refine ⟨sec, ui,
            { systemState := (captureReality env.capture (startValidation s.engine)).1,
              security := some sec, ui := some ui, tests := some t, claims := none },
            rfl, rfl, rfl, rfl, fun h => by simp at h, fun _ => ⟨t, rfl, rfl⟩, ?_⟩
          cases hp : t.passed <;> simp [testPoints, hrt, hp]


theorem stateAtClaimValidation_token (env : RunEnv) (s : State) :
    (stateAtClaimValidation env s).files.token = s.files.token := rfl

/-- The token after a run: the run's own token when the result has `passed = true`, the
previous content otherwise. -/
theorem performComprehensiveValidation_token_cases (env : RunEnv) (options : Options)
    (s : State) :
    ((performComprehensiveValidation env options s).1.passed = true ∧
      ∃ v, (performComprehensiveValidation env options s).1 = .completed v ∧
        v.passed = determineValidationPass v ∧ env.tokenWrite = .ok () ∧
        (performComprehensiveValidation env options s).2.files.token
          = some { timestamp := env.tokenTime, evidence := tokenEvidence v,
                   validator := "TruthForge Core" }) ∨
    ((performComprehensiveValidation env options s).1.passed = false ∧
      (performComprehensiveValidation env options s).2.files.token = s.files.token) := by
  rcases performComprehensiveValidation_cases env options s with ⟨message, hrun⟩ |
    ⟨sec, ui, evidence, _, _, _, _, _, _, hrun⟩
  · right
    rw [hrun]
    exact ⟨rfl, rfl⟩
  · rw [hrun]
    obtain ⟨v, hv, hcases⟩ := finishValidation_result env evidence
      (sec.score.getD 0 + testPoints options env.tests)
      (sec.maxScore.getD 0 + (if options.runTests then 20 else 0))
      (stateAtClaimValidation env s)
    rcases hcases with ⟨hp, hfin⟩ | ⟨hp, hw, hfin, htok⟩ | ⟨hp, message, hw, hfin⟩
    · right
      rw [hfin]
      exact ⟨hp, by rw [validateAgainstReality_token, stateAtClaimValidation_token]⟩
    · left
      refine ⟨by rw [hfin]; exact hp, v, hfin, ?_, hw, htok⟩
      rw [hv, determineValidationPass_decided, decidedValidation_passed]
    · right
      rw [hfin]
      exact ⟨rfl, by rw [validateAgainstReality_token, stateAtClaimValidation_token]⟩

theorem performComprehensiveValidation_token_isSome (env : RunEnv) (options : Options)
    (s : State) :
    (performComprehensiveValidation env options s).2.files.token.isSome = true ↔
      (s.files.token.isSome = true ∨
        (performComprehensiveValidation env options s).1.passed = true) := by
  rcases performComprehensiveValidation_token_cases env options s with
    ⟨hp, v, _, _, _, htok⟩ | ⟨hp, htok⟩
  · rw [htok]
    simp [hp]
  · rw [htok]
    simp [hp]

theorem runSequence_cons (env : RunEnv) (options : Options) (rest : List (RunEnv × Options))
    (s : State) :
    runSequence ((env, options) :: rest) s
      = ((performComprehensiveValidation env options s).1
          :: (runSequence rest (performComprehensiveValidation env options s).2).1,
         (runSequence rest (performComprehensiveValidation env options s).2).2) := rfl

theorem runSequence_token_isSome (runs : List (RunEnv × Options)) (s : State) :
    (runSequence runs s).2.files.token.isSome = true ↔
      (s.files.token.isSome = true ∨ ∃ r ∈ (runSequence runs s).1, r.passed = true) := by
  induction runs generalizing s with
  | nil => simp [runSequence]
  | cons x rest ih =>
    obtain ⟨env, options⟩ := x
    rw [runSequence_cons]
    simp only [List.mem_cons, exists_eq_or_imp]
    rw [ih, performComprehensiveValidation_token_isSome]
    tauto

theorem runSequence_last_passed (runs : List (RunEnv × Options)) (s : State) (r : RunResult)
    (hlast : (runSequence runs s).1.getLast? = some r) (hp : r.passed = true) :
    ∃ (v : Validation) (env : RunEnv) (options : Options),
      runs.getLast? = some (env, options) ∧ r = .completed v ∧
      (runSequence runs s).2.files.token
        = some { timestamp := env.tokenTime, evidence := tokenEvidence v,
                 validator := "TruthForge Core" } := by
  induction runs generalizing s with
  | nil => simp [runSequence] at hlast
  | cons x rest ih =>
    obtain ⟨env, options⟩ := x
    rw [runSequence_cons] at hlast ⊢
    cases rest with
    | nil =>
      simp only [runSequence, List.getLast?_singleton, Option.some.injEq] at hlast ⊢
      rcases performComprehensiveValidation_token_cases env options s with
        ⟨_, v, hv, _, _, htok⟩ | ⟨hf, _⟩
      · exact ⟨v, env, options, rfl, by rw [← hlast, hv], htok⟩
      · rw [hlast, hp] at hf
        cases hf
    | cons y rest2 =>
      obtain ⟨env2, options2⟩ := y
      rw [runSequence_cons] at hlast
      simp only [List.getLast?_cons_cons] at hlast ⊢
      exact ih _ (by rw [runSequence_cons]; exact hlast)

theorem performComprehensiveValidation_passed_gate (env : RunEnv) (options : Options)
    (s : State) (h : (performComprehensiveValidation env options s).1.passed = true) :
    ∃ evidence score maxScore,
      (performComprehensiveValidation env options s).1
        = .completed (decidedValidation (scoredValidation env evidence score maxScore
            (validateAgainstReality env.emergency (stateAtClaimValidation env s)).1
            (validateAgainstReality env.emergency (stateAtClaimValidation env s)).2.engine)) ∧
      determineValidationPass (scoredValidation env evidence score maxScore
            (validateAgainstReality env.emergency (stateAtClaimValidation env s)).1
            (validateAgainstReality env.emergency (stateAtClaimValidation env s)).2.engine)
        = true := by
  rcases performComprehensiveValidation_cases env options s with ⟨message, hrun⟩ |
    ⟨sec, ui, evidence, _, _, _, _, _, _, hrun⟩
  · rw [hrun] at h
    cases h
  · rw [hrun] at h ⊢
    obtain ⟨v, hv, hcases⟩ := finishValidation_result env evidence
      (sec.score.getD 0 + testPoints options env.tests)
      (sec.maxScore.getD 0 + (if options.runTests then 20 else 0))
      (stateAtClaimValidation env s)
    refine ⟨evidence, sec.score.getD 0 + testPoints options env.tests,
      sec.maxScore.getD 0 + (if options.runTests then 20 else 0), ?_⟩
    rcases hcases with ⟨hp, hfin⟩ | ⟨hp, hw, hfin, htok⟩ | ⟨hp, message, hw, hfin⟩
    · rw [hfin] at h
      have h2 : v.passed = true := h
      rw [hp] at h2
      cases h2
    · rw [hfin, ← hv]
      refine ⟨rfl, ?_⟩
      rw [← decidedValidation_passed, ← hv]
      exact hp
    · rw [hfin] at h
      cases h

/-- C4, as the code has it. Every run of `performComprehensiveValidation` that returns
`passed = true` has no divergence of severity level HIGH or CRITICAL in the list that
`validateAgainstReality` computed in that run (which is the list recorded in the result);
divergences of level LOW or MEDIUM do not block the pass. -/
theorem passing_run_has_no_severe_divergence (env : RunEnv) (options : Options) (s : State)
    (h : (performComprehensiveValidation env options s).1.passed = true) :
    (performComprehensiveValidation env options s).1.divergences
        = (validateAgainstReality env.emergency (stateAtClaimValidation env s)).1 ∧
    ∀ d ∈ (validateAgainstReality env.emergency (stateAtClaimValidation env s)).1,
      d.severity.level ≠ .HIGH ∧ d.severity.level ≠ .CRITICAL := by
  obtain ⟨evidence, score, maxScore, hres, hgate⟩ :=
    performComprehensiveValidation_passed_gate env options s h
  refine ⟨by rw [hres]; rfl, ?_⟩
  rw [determineValidationPass_eq_true_iff] at hgate
  exact (hasCriticalDivergence_eq_false_iff _).mp hgate.2.2.1 _ rfl

/-- C4, witness: the run of the `ui` claim scenario passes, and its single divergence has
level LOW. -/
theorem passing_run_has_no_severe_divergence_witness :
    (performComprehensiveValidation (Scenario.runEnv 5000 Scenario.fullSecurity true)
        { runTests := false } Scenario.uiClaimState).1.passed = true ∧
    ((performComprehensiveValidation (Scenario.runEnv 5000 Scenario.fullSecurity true)
        { runTests := false } Scenario.uiClaimState).1.divergences
        = (validateAgainstReality (Scenario.runEnv 5000 Scenario.fullSecurity true).emergency
            (stateAtClaimValidation (Scenario.runEnv 5000 Scenario.fullSecurity true)
              Scenario.uiClaimState)).1 ∧
      ∀ d ∈ (validateAgainstReality (Scenario.runEnv 5000 Scenario.fullSecurity true).emergency
            (stateAtClaimValidation (Scenario.runEnv 5000 Scenario.fullSecurity true)
              Scenario.uiClaimState)).1,
        d.severity.level ≠ .HIGH ∧ d.severity.level ≠ .CRITICAL) :=
  ⟨by decide,
    passing_run_has_no_severe_divergence (Scenario.runEnv 5000 Scenario.fullSecurity true)
      { runTests := false } Scenario.uiClaimState (by decide)⟩

/-- C4, counterexample: a validator holding one `ui` claim that the captured snapshot does not
match. The run returns `passed = true` and writes the token although
`validateAgainstReality` reported one divergence (of level LOW) in that run. -/
theorem passing_run_with_divergence :
    (performComprehensiveValidation (Scenario.runEnv 5000 Scenario.fullSecurity true)
        { runTests := false } Scenario.uiClaimState).1.passed = true ∧
    (validateAgainstReality (Scenario.runEnv 5000 Scenario.fullSecurity true).emergency
        (stateAtClaimValidation (Scenario.runEnv 5000 Scenario.fullSecurity true)
          Scenario.uiClaimState)).1.length = 1 ∧
    (performComprehensiveValidation (Scenario.runEnv 5000 Scenario.fullSecurity true)
        { runTests := false } Scenario.uiClaimState).1.divergences.length = 1 ∧
    (performComprehensiveValidation (Scenario.runEnv 5000 Scenario.fullSecurity true)
        { runTests := false } Scenario.uiClaimState).2.files.token.isSome = true := by
  decide

theorem completed_run_validation (env : RunEnv) (options : Options) (s : State)
    (v : Validation) (h : (performComprehensiveValidation env options s).1 = .completed v) :
    ∃ sec evidence,
      env.security = .ok sec ∧
      v = decidedValidation (scoredValidation env evidence
            (sec.score.getD 0 + testPoints options env.tests)
            (sec.maxScore.getD 0 + (if options.runTests then 20 else 0))
            (validateAgainstReality env.emergency (stateAtClaimValidation env s)).1
            (validateAgainstReality env.emergency (stateAtClaimValidation env s)).2.engine) := by
  rcases performComprehensiveValidation_cases env options s with ⟨message, hrun⟩ |
    ⟨sec, ui, evidence, hsec, _, _, _, _, _, hrun⟩
  · rw [hrun] at h
    cases h
  · rw [hrun] at h
    obtain ⟨v2, hv2, hcases⟩ := finishValidation_result env evidence
      (sec.score.getD 0 + testPoints options env.tests)
      (sec.maxScore.getD 0 + (if options.runTests then 20 else 0))
      (stateAtClaimValidation env s)
    refine ⟨sec, evidence, hsec, ?_⟩
    rcases hcases with ⟨_, hfin⟩ | ⟨_, _, hfin, _⟩ | ⟨_, message, _, hfin⟩
    · rw [hfin] at h
      cases h
      exact hv2
    · rw [hfin] at h
      cases h
      exact hv2
    · rw [hfin] at h
      cases h

/-- C5. `performComprehensiveValidation` writes the validation token `{timestamp, evidence,
validator: 'TruthForge Core'}` exactly when the run passes: a result with `passed = true` is a
completed validation whose gate decision is pass, and the token file then holds this run's
token; a run whose result has `passed = false` leaves the token file as it was; the `passed`
field of a completed validation is its gate decision; and no run deletes a token that is
there. -/
theorem performComprehensiveValidation_writes_token_iff_passed (env : RunEnv)
    (options : Options) (s : State) :
    ((performComprehensiveValidation env options s).1.passed = true →
      ∃ v, (performComprehensiveValidation env options s).1 = .completed v ∧
        determineValidationPass v = true ∧
        (performComprehensiveValidation env options s).2.files.token
          = some { timestamp := env.tokenTime, evidence := tokenEvidence v,
                   validator := "TruthForge Core" }) ∧
    ((performComprehensiveValidation env options s).1.passed = false →
      (performComprehensiveValidation env options s).2.files.token = s.files.token) ∧
    (∀ v, (performComprehensiveValidation env options s).1 = .completed v →
      v.passed = determineValidationPass v) ∧
    (s.files.token.isSome = true →
      (performComprehensiveValidation env options s).2.files.token.isSome = true) := by
  refine ⟨?_, ?_, ?_, ?_⟩
  · intro hp
    rcases performComprehensiveValidation_token_cases env options s with
      ⟨_, v, hv, hgate, _, htok⟩ | ⟨hf, _⟩
    · refine ⟨v, hv, ?_, htok⟩
      rw [← hgate]
      rw [hv] at hp
      exact hp
    · rw [hp] at hf
      cases hf
  · intro hp
    rcases performComprehensiveValidation_token_cases env options s with
      ⟨ht, _⟩ | ⟨_, htok⟩
    · rw [hp] at ht
      cases ht
    · exact htok
  · intro v hv
    obtain ⟨sec, evidence, _, hval⟩ := completed_run_validation env options s v hv
    rw [hval, determineValidationPass_decided, decidedValidation_passed]
  · intro hs
    exact (performComprehensiveValidation_token_isSome env options s).mpr (Or.inl hs)

/-- C6, as the code has it. After any sequence of comprehensive runs the token is present
exactly when it was present before the sequence or some run of the sequence passed; and when
the most recent run passed, the token is present and is a token written for that run's
validation. -/
theorem token_present_iff_some_run_passed (runs : List (RunEnv × Options)) (s : State) :
    ((runSequence runs s).2.files.token.isSome = true ↔
      (s.files.token.isSome = true ∨ ∃ r ∈ (runSequence runs s).1, r.passed = true)) ∧
    (∀ r, (runSequence runs s).1.getLast? = some r → r.passed = true →
      ∃ (v : Validation) (env : RunEnv) (options : Options),
        runs.getLast? = some (env, options) ∧ r = .completed v ∧
        (runSequence runs s).2.files.token
          = some { timestamp := env.tokenTime, evidence := tokenEvidence v,
                   validator := "TruthForge Core" }) :=
  ⟨runSequence_token_isSome runs s, fun r hlast hp => runSequence_last_passed runs s r hlast hp⟩

/-- C6, counterexample: on a fresh validator in an empty directory, a passing run followed by a
failing run. The most recent run did not pass, yet the token is present. -/
theorem token_present_after_failing_run :
    (runSequence Scenario.passThenFail Scenario.freshState).1.map RunResult.passed
      = [true, false] ∧
    (runSequence Scenario.passThenFail Scenario.freshState).2.files.token.isSome = true := by
  decide

/-! ## Double-precision rounding -/

namespace Double

theorem bitLengthAux_zero (fuel : Nat) : bitLengthAux fuel 0 = 0 := by
  cases fuel <;> simp [bitLengthAux]

theorem bitLengthAux_spec (fuel n : Nat) (hle : n ≤ fuel) (hpos : 0 < n) :
    n < 2 ^ bitLengthAux fuel n ∧ 2 ^ bitLengthAux fuel n ≤ 2 * n := by
  induction fuel generalizing n with
  | zero => omega
  | succ fuel ih =>
    have hn : n ≠ 0 := by omega
    simp only [bitLengthAux, hn, if_false]
    by_cases h2 : n / 2 = 0
    · rw [h2, bitLengthAux_zero]
      have : n = 1 := by omega
      subst this
      simp
    · have hlt : n / 2 ≤ fuel := by omega
      obtain ⟨h3, h4⟩ := ih (n / 2) hlt (by omega)
      rw [pow_succ]
      constructor <;> omega

theorem bitLength_spec (n : Nat) (hpos : 0 < n) :
    n < 2 ^ bitLength n ∧ 2 ^ bitLength n ≤ 2 * n :=
  bitLengthAux_spec n n (le_refl n) hpos

theorem roundHalfEven_bounds (a b : Nat) (hb : 0 < b) :
    2 * (roundHalfEven a b * b) ≤ 2 * a + b ∧ 2 * a ≤ 2 * (roundHalfEven a b * b) + b := by
  have hdm := Nat.div_add_mod a b
  have hmod := Nat.mod_lt a hb
  have hcomm : a / b * b = b * (a / b) := Nat.mul_comm _ _
  have hsucc : (a / b + 1) * b = b * (a / b) + b := by rw [Nat.add_mul, Nat.one_mul, hcomm]
  unfold roundHalfEven
  split
  · rw [hcomm]
    omega
  · split
    · rw [hsucc]
      omega
    · split
      · rw [hcomm]
        omega
      · rw [hsucc]
        omega

theorem roundHalfEven_error (a b : Nat) (hb : 0 < b) :
    |(roundHalfEven a b : ℚ) - (a : ℚ) / b| ≤ 1 / 2 := by
  obtain ⟨h1, h2⟩ := roundHalfEven_bounds a b hb
  have hbq : (0 : ℚ) < b := by exact_mod_cast hb
  have h1q : 2 * ((roundHalfEven a b : ℚ) * b) ≤ 2 * a + b := by exact_mod_cast h1
  have h2q : 2 * (a : ℚ) ≤ 2 * ((roundHalfEven a b : ℚ) * b) + b := by exact_mod_cast h2
  rw [abs_le]
  constructor
  · rw [le_sub_iff_add_le, ← sub_eq_neg_add, sub_le_iff_le_add, div_le_iff₀ hbq]
    linarith
  · rw [sub_le_iff_le_add, ← sub_le_iff_le_add', le_div_iff₀ hbq]
    linarith

theorem scaled_spec (n d : Nat) (e : Int) (hd : 0 < d) :
    0 < (scaled n d e).2 ∧
      ((scaled n d e).1 : ℚ) / ((scaled n d e).2 : ℚ) = (n : ℚ) / d * (2 : ℚ) ^ (-e) := by
  have hdq : (d : ℚ) ≠ 0 := by exact_mod_cast hd.ne'
  unfold scaled
  by_cases he : 0 ≤ e
  · simp only [he, if_true]
    obtain ⟨k, rfl⟩ := Int.eq_ofNat_of_zero_le he
    refine ⟨by positivity, ?_⟩
    simp only [Int.toNat_ofNat, Nat.cast_mul, Nat.cast_pow, Nat.cast_ofNat, zpow_neg,
      zpow_natCast]
    field_simp
  · simp only [he, if_false]
    have hneg : 0 ≤ -e := by omega
    obtain ⟨k, hk⟩ := Int.eq_ofNat_of_zero_le hneg
    refine ⟨hd, ?_⟩
    rw [hk]
    simp only [Int.toNat_ofNat, Nat.cast_mul, Nat.cast_pow, Nat.cast_ofNat, zpow_natCast]
    field_simp

theorem scaled_initial_lower (n d : Nat) (hn : 0 < n) (hd : 0 < d) :
    (scaled n d ((bitLength n : Int) - (bitLength d : Int) - 53)).2 * 2 ^ 52
      < (scaled n d ((bitLength n : Int) - (bitLength d : Int) - 53)).1 := by
  obtain ⟨hn1, hn2⟩ := bitLength_spec n hn
  obtain ⟨hd1, hd2⟩ := bitLength_spec d hd
  unfold scaled
  by_cases he : 0 ≤ (bitLength n : Int) - (bitLength d : Int) - 53
  · simp only [he, if_true]
    have hk : ((bitLength n : Int) - (bitLength d : Int) - 53).toNat
        = bitLength n - bitLength d - 53 := by omega
    rw [hk]
    have hL : bitLength n = bitLength d + (bitLength n - bitLength d - 53) + 52 + 1 := by omega
    have hpow : 2 ^ bitLength n
        = 2 ^ bitLength d * 2 ^ (bitLength n - bitLength d - 53) * 2 ^ 52 * 2 := by
      conv_lhs => rw [hL]
      rw [pow_add, pow_add, pow_add, pow_one]
    have hP : 0 < 2 ^ (bitLength n - bitLength d - 53) * 2 ^ 52 := by positivity
    have hlt : d * (2 ^ (bitLength n - bitLength d - 53) * 2 ^ 52)
        < 2 ^ bitLength d * (2 ^ (bitLength n - bitLength d - 53) * 2 ^ 52) :=
      Nat.mul_lt_mul_of_pos_right hd1 hP
    show d * 2 ^ (bitLength n - bitLength d - 53) * 2 ^ 52 < n
    nlinarith
  · simp only [he, if_false]
    have hk : (-((bitLength n : Int) - (bitLength d : Int) - 53)).toNat
        = bitLength d + 53 - bitLength n := by omega
    rw [hk]
    have hL : bitLength n + (bitLength d + 53 - bitLength n) = bitLength d + 52 + 1 := by omega
    have hpow : 2 ^ bitLength n * 2 ^ (bitLength d + 53 - bitLength n)
        = 2 ^ bitLength d * 2 ^ 52 * 2 := by
      rw [← pow_add, hL, pow_add, pow_add, pow_one]
    have hP : 0 < 2 ^ (bitLength d + 53 - bitLength n) := by positivity
    have h1 : 2 ^ bitLength n * 2 ^ (bitLength d + 53 - bitLength n)
        ≤ 2 * n * 2 ^ (bitLength d + 53 - bitLength n) :=
      Nat.mul_le_mul_right _ hn2
    have h2 : d * 2 ^ 52 < 2 ^ bitLength d * 2 ^ 52 :=
      Nat.mul_lt_mul_of_pos_right hd1 (by positivity)
    show d * 2 ^ 52 < n * 2 ^ (bitLength d + 53 - bitLength n)
    nlinarith

/-- The exponent that `nearest` picks. -/
theorem nearest_eq (n d : Nat) (hn : 0 < n) :
    ∃ e : Int,
      nearest n d = { mant := roundHalfEven (scaled n d e).1 (scaled n d e).2, exp := e } ∧
      (e = (bitLength n : Int) - (bitLength d : Int) - 53 ∨
        (e = (bitLength n : Int) - (bitLength d : Int) - 53 + 1 ∧
          (scaled n d ((bitLength n : Int) - (bitLength d : Int) - 53)).2 * 2 ^ 53
            ≤ (scaled n d ((bitLength n : Int) - (bitLength d : Int) - 53)).1)) := by
  have hn0 : n ≠ 0 := by omega
  unfold nearest
  simp only [hn0, if_false]
  by_cases ht : (scaled n d ((bitLength n : Int) - (bitLength d : Int) - 53)).1
      < (scaled n d ((bitLength n : Int) - (bitLength d : Int) - 53)).2 * 2 ^ 53
  · exact ⟨_, by simp only [ht, if_true], Or.inl rfl⟩
  · exact ⟨_, by simp only [ht, if_false], Or.inr ⟨rfl, not_lt.mp ht⟩⟩

/-- The scaled quotient that `nearest` rounds is at least `2 ^ 52`. -/
theorem nearest_quotient_lower (n d : Nat) (hn : 0 < n) (hd : 0 < d) :
    ∃ e : Int,
      nearest n d = { mant := roundHalfEven (scaled n d e).1 (scaled n d e).2, exp := e } ∧
      (2 : ℚ) ^ 52 ≤ (n : ℚ) / d * (2 : ℚ) ^ (-e) := by
  obtain ⟨e, hnear, hcase⟩ := nearest_eq n d hn
  refine ⟨e, hnear, ?_⟩
  have h0 := scaled_initial_lower n d hn hd
  obtain ⟨hpos0, hq0⟩ := scaled_spec n d ((bitLength n : Int) - (bitLength d : Int) - 53) hd
  have hposq : (0 : ℚ) < ((scaled n d ((bitLength n : Int) - (bitLength d : Int) - 53)).2 : ℚ) := by
    exact_mod_cast hpos0
  rcases hcase with he | ⟨he, htest⟩
  · rw [he, ← hq0, le_div_iff₀ hposq]
    have : ((scaled n d ((bitLength n : Int) - (bitLength d : Int) - 53)).2 : ℚ) * 2 ^ 52
        < ((scaled n d ((bitLength n : Int) - (bitLength d : Int) - 53)).1 : ℚ) := by
      exact_mod_cast h0
    linarith
  · have h53 : (2 : ℚ) ^ 53 ≤ (n : ℚ) / d
        * (2 : ℚ) ^ (-((bitLength n : Int) - (bitLength d : Int) - 53)) := by
      rw [← hq0, le_div_iff₀ hposq]
      have : ((scaled n d ((bitLength n : Int) - (bitLength d : Int) - 53)).2 : ℚ) * 2 ^ 53
          ≤ ((scaled n d ((bitLength n : Int) - (bitLength d : Int) - 53)).1 : ℚ) := by
        exact_mod_cast htest
      linarith
    rw [he, neg_add, zpow_add₀ (by norm_num : (2 : ℚ) ≠ 0), ← mul_assoc]
    have h2 : (2 : ℚ) ^ (-1 : ℤ) = 1 / 2 := by norm_num
    rw [h2]
    have h3 : (2 : ℚ) ^ 53 = 2 ^ 52 * 2 := by norm_num
    rw [h3] at h53
    linarith

/-- Rounding to the nearest double has relative error at most `2 ^ (-53)`. -/
theorem nearest_error (n d : Nat) (hn : 0 < n) (hd : 0 < d) :
    |(nearest n d).toRat - (n : ℚ) / d| ≤ (n : ℚ) / d / 2 ^ 53 := by
  obtain ⟨e, hnear, hlow⟩ := nearest_quotient_lower n d hn hd
  obtain ⟨hpos, hq⟩ := scaled_spec n d e hd
  have herr := roundHalfEven_error (scaled n d e).1 (scaled n d e).2 hpos
  rw [hq] at herr
  rw [hnear]
  simp only [Value.toRat]
  have h2e : (0 : ℚ) < (2 : ℚ) ^ e := by positivity
  have hinv : (2 : ℚ) ^ (-e) * (2 : ℚ) ^ e = 1 := by
    rw [← zpow_add₀ (by norm_num : (2 : ℚ) ≠ 0)]
    simp
  have hnd : (n : ℚ) / d = ((n : ℚ) / d * (2 : ℚ) ^ (-e)) * (2 : ℚ) ^ e := by
    rw [mul_assoc, hinv, mul_one]
  set q : ℚ := (n : ℚ) / d * (2 : ℚ) ^ (-e) with hqdef
  set mant : ℚ := (roundHalfEven (scaled n d e).1 (scaled n d e).2 : ℚ) with hmdef
  rw [hnd, ← sub_mul, abs_mul, abs_of_pos h2e, le_div_iff₀ (by positivity)]
  have h1 : |mant - q| * (2 : ℚ) ^ e * 2 ^ 53 ≤ 1 / 2 * (2 : ℚ) ^ e * 2 ^ 53 := by
    have := mul_le_mul_of_nonneg_right herr (le_of_lt h2e)
    nlinarith
  have h2 : 1 / 2 * (2 : ℚ) ^ e * 2 ^ 53 ≤ q * (2 : ℚ) ^ e := by
    have h3 : (1 : ℚ) / 2 * 2 ^ 53 = 2 ^ 52 := by norm_num
    have := mul_le_mul_of_nonneg_right hlow (le_of_lt h2e)
    nlinarith
  linarith

theorem round_bounds (x : Value) :
    (round x : ℚ) ≤ x.toRat + 1 / 2 ∧ x.toRat + 1 / 2 < (round x : ℚ) + 1 := by
  unfold round Value.toRat
  by_cases he : 0 ≤ x.exp
  · simp only [he, if_true]
    obtain ⟨k, hk⟩ := Int.eq_ofNat_of_zero_le he
    rw [hk]
    simp only [Int.toNat_ofNat, Nat.cast_mul, Nat.cast_pow, Nat.cast_ofNat, zpow_natCast]
    constructor <;> linarith
  · simp only [he, if_false]
    have hneg : 0 ≤ -x.exp := by omega
    obtain ⟨k, hk⟩ := Int.eq_ofNat_of_zero_le hneg
    have hexp : x.exp = -(k : ℤ) := by omega
    rw [hk, hexp]
    simp only [Int.toNat_ofNat, zpow_neg, zpow_natCast]
    have hD : 0 < 2 ^ (k + 1) := by positivity
    have h1 : 2 ^ (k + 1) * ((2 * x.mant + 2 ^ k) / 2 ^ (k + 1)) ≤ 2 * x.mant + 2 ^ k :=
      Nat.mul_div_le _ _
    have h2 : 2 * x.mant + 2 ^ k < 2 ^ (k + 1) * ((2 * x.mant + 2 ^ k) / 2 ^ (k + 1) + 1) :=
      Nat.lt_mul_div_succ _ hD
    have h1q : (2 : ℚ) ^ (k + 1) * (((2 * x.mant + 2 ^ k) / 2 ^ (k + 1) : ℕ) : ℚ)
        ≤ 2 * (x.mant : ℚ) + 2 ^ k := by exact_mod_cast h1
    have h2q : 2 * (x.mant : ℚ) + 2 ^ k
        < (2 : ℚ) ^ (k + 1) * ((((2 * x.mant + 2 ^ k) / 2 ^ (k + 1) : ℕ) : ℚ) + 1) := by
      exact_mod_cast h2
    have hk0 : (0 : ℚ) < 2 ^ k := by positivity
    have hval : (x.mant : ℚ) * ((2 : ℚ) ^ k)⁻¹ + 1 / 2
        = (2 * (x.mant : ℚ) + 2 ^ k) / 2 ^ (k + 1) := by
      rw [pow_succ]
      field_simp
      ring
    rw [hval]
    constructor
    · rw [le_div_iff₀ (by positivity)]
      linarith
    · rw [div_lt_iff₀ (by positivity)]
      linarith

theorem nearest_toRat_pos (n d : Nat) (hn : 0 < n) (hd : 0 < d) :
    0 < (nearest n d).toRat := by
  have herr := nearest_error n d hn hd
  have hx : (0 : ℚ) < (n : ℚ) / d := by positivity
  rw [abs_le] at herr
  have h53 : (n : ℚ) / d / 2 ^ 53 < (n : ℚ) / d := by
    rw [div_lt_iff₀ (by positivity)]
    have : (1 : ℚ) < 2 ^ 53 := by norm_num
    nlinarith
  linarith [herr.1]

theorem mant_pos_of_toRat_pos (x : Value) (h : 0 < x.toRat) : 0 < x.mant := by
  rcases Nat.eq_zero_or_pos x.mant with h0 | h0
  · simp [Value.toRat, h0] at h
  · exact h0

theorem mulNat_error (x : Value) (k : Nat) (hx : 0 < x.mant) (hk : 0 < k) :
    |(mulNat x k).toRat - (k : ℚ) * x.toRat| ≤ (k : ℚ) * x.toRat / 2 ^ 53 := by
  unfold mulNat
  by_cases he : 0 ≤ x.exp
  · simp only [he, if_true]
    obtain ⟨j, hj⟩ := Int.eq_ofNat_of_zero_le he
    have hval : (k : ℚ) * x.toRat = ((x.mant * k * 2 ^ x.exp.toNat : ℕ) : ℚ) / ((1 : ℕ) : ℚ) := by
      simp only [Value.toRat, hj, Int.toNat_ofNat, Nat.cast_mul, Nat.cast_pow, Nat.cast_ofNat,
        zpow_natCast, Nat.cast_one, div_one]
      ring
    rw [hval]
    exact nearest_error _ 1 (by positivity) (by norm_num)
  · simp only [he, if_false]
    have hneg : 0 ≤ -x.exp := by omega
    obtain ⟨j, hj⟩ := Int.eq_ofNat_of_zero_le hneg
    have hexp : x.exp = -(j : ℤ) := by omega
    have hval : (k : ℚ) * x.toRat
        = ((x.mant * k : ℕ) : ℚ) / ((2 ^ (-x.exp).toNat : ℕ) : ℚ) := by
      simp only [Value.toRat, hj, Int.toNat_ofNat, Nat.cast_mul, Nat.cast_pow, Nat.cast_ofNat]
      rw [hexp, zpow_neg, zpow_natCast]
      field_simp
      ring
    rw [hval]
    exact nearest_error _ _ (by positivity) (by positivity)

end Double

theorem overallScoreOf_zero (m : Nat) : overallScoreOf 0 m = 0 := by
  unfold overallScoreOf
  split
  · simp [Double.divNat, Double.nearest, Double.mulNat, Double.round]
  · rfl

/-- The computed product `(score / maxScore) * 100` is within `1 / (2 * maxScore)` of the exact
`100 * score / maxScore` as long as the score is below `2 ^ 43`. -/
theorem product_error (s m : Nat) (hs0 : 0 < s) (hm : 0 < m) (hs : s < 2 ^ 43) :
    |(Double.mulNat (Double.divNat s m) 100).toRat - 100 * (s : ℚ) / m| * (2 * m) < 1 := by
  have h1 := Double.nearest_error s m hs0 hm
  have hpos := Double.nearest_toRat_pos s m hs0 hm
  have hmant := Double.mant_pos_of_toRat_pos _ hpos
  have h2 := Double.mulNat_error (Double.nearest s m) 100 hmant (by norm_num)
  unfold Double.divNat
  set X : ℚ := (Double.nearest s m).toRat with hX
  set Y : ℚ := (Double.mulNat (Double.nearest s m) 100).toRat with hY
  have hmq : (0 : ℚ) < m := by exact_mod_cast hm
  have hsq : (0 : ℚ) < s := by exact_mod_cast hs0
  have hsb : (s : ℚ) < 2 ^ 43 := by exact_mod_cast hs
  set x : ℚ := (s : ℚ) / m with hx
  have hxpos : 0 < x := by positivity
  have hxm : x * m = s := by
    rw [hx]
    field_simp
  simp only [Nat.cast_ofNat] at h2
  rw [abs_le] at h1 h2
  have hXle : X ≤ 2 * x := by
    have : x / 2 ^ 53 ≤ x := by
      rw [div_le_iff₀ (by positivity)]
      have : (1 : ℚ) ≤ 2 ^ 53 := by norm_num
      nlinarith
    linarith [h1.2]
  have hXerr : 100 * X / 2 ^ 53 ≤ 200 * x / 2 ^ 53 := by
    apply div_le_div_of_nonneg_right _ (by positivity)
    linarith
  have hy : 100 * (s : ℚ) / m = 100 * x := by
    rw [hx]
    ring
  rw [hy]
  have habs : |Y - 100 * x| ≤ 300 * x / 2 ^ 53 := by
    rw [abs_le]
    constructor
    · have := h2.1
      have := h1.1
      have e1 : 300 * x / 2 ^ 53 = 200 * x / 2 ^ 53 + 100 * (x / 2 ^ 53) := by ring
      linarith
    · have := h2.2
      have := h1.2
      have e1 : 300 * x / 2 ^ 53 = 200 * x / 2 ^ 53 + 100 * (x / 2 ^ 53) := by ring
      linarith
  have hfin : 300 * x / 2 ^ 53 * (2 * m) < 1 := by
    have e2 : 300 * x / 2 ^ 53 * (2 * m) = 600 * (x * m) / 2 ^ 53 := by ring
    rw [e2, hxm, div_lt_iff₀ (by positivity)]
    have : (600 : ℚ) * 2 ^ 43 < 2 ^ 53 := by norm_num
    linarith
  calc |Y - 100 * x| * (2 * m) ≤ 300 * x / 2 ^ 53 * (2 * m) :=
        mul_le_mul_of_nonneg_right habs (by positivity)
    _ < 1 := hfin

/-- The overall score is an integer nearest to `100 * score / maxScore`: it differs from the
exact quotient by at most one half. -/
theorem overallScoreOf_nearest (s m : Nat) (hm : 0 < m) (hs : s < 2 ^ 43) :
    2 * (overallScoreOf s m * m) ≤ 200 * s + m ∧ 200 * s ≤ 2 * (overallScoreOf s m * m) + m := by
  rcases Nat.eq_zero_or_pos s with hs0 | hs0
  · subst hs0
    rw [overallScoreOf_zero]
    omega
  · have herr := product_error s m hs0 hm hs
    have hdef : overallScoreOf s m
        = Double.round (Double.mulNat (Double.divNat s m) 100) := by
      unfold overallScoreOf
      simp [hm]
    obtain ⟨hr1, hr2⟩ := Double.round_bounds (Double.mulNat (Double.divNat s m) 100)
    rw [← hdef] at hr1 hr2
    set Y : ℚ := (Double.mulNat (Double.divNat s m) 100).toRat with hY
    set r : ℕ := overallScoreOf s m with hr
    have hmq : (0 : ℚ) < m := by exact_mod_cast hm
    have hy : 100 * (s : ℚ) / m * (2 * m) = 200 * s := by
      field_simp
      ring
    have hsub : (Y - 100 * (s : ℚ) / m) * (2 * m) = 2 * (m * Y) - 200 * s := by
      rw [sub_mul, hy]
      ring
    have habs : |2 * (m * Y) - 200 * (s : ℚ)| < 1 := by
      rw [← hsub, abs_mul, abs_of_pos (by positivity : (0 : ℚ) < 2 * m)]
      exact herr
    rw [abs_lt] at habs
    have hA : (m : ℚ) * r ≤ m * Y + m / 2 := by
      have := mul_le_mul_of_nonneg_left hr1 (le_of_lt hmq)
      linarith
    have hB : (m : ℚ) * Y + m / 2 < m * r + m := by
      have := mul_lt_mul_of_pos_left hr2 hmq
      linarith
    constructor
    · by_contra hcon
      have hnat : 200 * s + m + 1 ≤ 2 * (r * m) := by omega
      have hq : (200 : ℚ) * s + m + 1 ≤ 2 * ((r : ℚ) * m) := by exact_mod_cast hnat
      linarith [habs.1, habs.2]
    · by_contra hcon
      have hnat : 2 * (r * m) + m + 1 ≤ 200 * s := by omega
      have hq : 2 * ((r : ℚ) * m) + m + 1 ≤ (200 : ℚ) * s := by exact_mod_cast hnat
      linarith [habs.1, habs.2]

/-- Away from ties the overall score is the exact quotient rounded half up. -/
theorem overallScoreOf_eq_roundHalfUp (s m : Nat) (hm : 0 < m) (hs : s < 2 ^ 43)
    (hne : (200 * s) % (2 * m) ≠ m) : overallScoreOf s m = roundHalfUp (100 * s) m := by
  obtain ⟨h1, h2⟩ := overallScoreOf_nearest s m hm hs
  unfold roundHalfUp
  have h2m : 0 < 2 * m := by omega
  apply le_antisymm
  · rw [Nat.le_div_iff_mul_le h2m]
    nlinarith
  · by_contra hcon
    have hlt : overallScoreOf s m + 1 ≤ (2 * (100 * s) + m) / (2 * m) := by omega
    rw [Nat.le_div_iff_mul_le h2m] at hlt
    have heq : 200 * s = 2 * m * overallScoreOf s m + m := by nlinarith
    apply hne
    rw [heq, Nat.mul_add_mod]
    exact Nat.mod_eq_of_lt (by omega)

/-- C10, as the code has it. In every comprehensive run that completes without an internal
error, `score` is the security score (0 when absent) plus 20 if a test suite was requested and
passed plus 15 if the run has zero divergences, and `maxScore` is the security maximum (0 when
absent) plus 20 if a test suite was requested plus 15, so it is never 0. `overallScore` is
`Math.round` of the double-precision product `(score / maxScore) * 100`: for a score below
`2 ^ 43` it is an integer nearest to `100 * score / maxScore` (at most one half away), and it
equals that quotient rounded half up unless the quotient lies exactly halfway between two
integers. -/
theorem completed_run_scores (env : RunEnv) (options : Options) (s : State) (v : Validation)
    (h : (performComprehensiveValidation env options s).1 = .completed v) :
    (∃ sec, env.security = .ok sec ∧
      v.score = sec.score.getD 0 + testPoints options env.tests
        + claimPoints (validateAgainstReality env.emergency (stateAtClaimValidation env s)).1 ∧
      v.maxScore = sec.maxScore.getD 0 + (if options.runTests then 20 else 0) + 15) ∧
    0 < v.maxScore ∧
    v.overallScore = overallScoreOf v.score v.maxScore ∧
    (v.score < 2 ^ 43 →
      2 * (v.overallScore * v.maxScore) ≤ 200 * v.score + v.maxScore ∧
      200 * v.score ≤ 2 * (v.overallScore * v.maxScore) + v.maxScore ∧
      ((200 * v.score) % (2 * v.maxScore) ≠ v.maxScore →
        v.overallScore = roundHalfUp (100 * v.score) v.maxScore)) := by
  obtain ⟨sec, evidence, hsec, hv⟩ := completed_run_validation env options s v h
  have hscore : v.score = sec.score.getD 0 + testPoints options env.tests
      + claimPoints (validateAgainstReality env.emergency (stateAtClaimValidation env s)).1 := by
    rw [hv]
    simp only [decidedValidation, scoredValidation, claimPoints]
    split <;> rfl
  have hmax : v.maxScore = sec.maxScore.getD 0 + (if options.runTests then 20 else 0) + 15 := by
    rw [hv]
    rfl
  have hoverall : v.overallScore = overallScoreOf v.score v.maxScore := by
    rw [hv]
    rfl
  have hpos : 0 < v.maxScore := by omega
  refine ⟨⟨sec, hsec, hscore, hmax⟩, hpos, hoverall, ?_⟩
  intro hbound
  rw [hoverall]
  obtain ⟨h1, h2⟩ := overallScoreOf_nearest v.score v.maxScore hpos hbound
  exact ⟨h1, h2, fun hne => overallScoreOf_eq_roundHalfUp v.score v.maxScore hpos hbound hne⟩

/-- C10, witness: the completed run on a fresh validator with every security point earned and
no test suite requested. -/
theorem completed_run_scores_witness :
    ∃ v, (performComprehensiveValidation (Scenario.runEnv 5000 Scenario.fullSecurity true)
        { runTests := false } Scenario.freshState).1 = .completed v ∧
      ((∃ sec, (Scenario.runEnv 5000 Scenario.fullSecurity true).security = .ok sec ∧
        v.score = sec.score.getD 0
          + testPoints { runTests := false } (Scenario.runEnv 5000 Scenario.fullSecurity true).tests
          + claimPoints (validateAgainstReality
              (Scenario.runEnv 5000 Scenario.fullSecurity true).emergency
              (stateAtClaimValidation (Scenario.runEnv 5000 Scenario.fullSecurity true)
                Scenario.freshState)).1 ∧
        v.maxScore = sec.maxScore.getD 0
          + (if ({ runTests := false } : Options).runTests then 20 else 0) + 15) ∧
      0 < v.maxScore ∧
      v.overallScore = overallScoreOf v.score v.maxScore ∧
      (v.score < 2 ^ 43 →
        2 * (v.overallScore * v.maxScore) ≤ 200 * v.score + v.maxScore ∧
        200 * v.score ≤ 2 * (v.overallScore * v.maxScore) + v.maxScore ∧
        ((200 * v.score) % (2 * v.maxScore) ≠ v.maxScore →
          v.overallScore = roundHalfUp (100 * v.score) v.maxScore))) :=
  ⟨_, rfl, completed_run_scores (Scenario.runEnv 5000 Scenario.fullSecurity true)
    { runTests := false } Scenario.freshState _ rfl⟩

/-- C10, counterexample: a fresh validator, 14 of 165 security points, a requested test suite
that fails and no divergence. The run completes with score 29 and maxScore 200, so
`100 * score / maxScore` is 14.5 and rounds to 15, but the overall score is 14: the
double-precision product `(29 / 200) * 100` falls just below 14.5. -/
theorem overall_score_not_rounded_quotient :
    ((performComprehensiveValidation (Scenario.runEnv 5000 Scenario.weakSecurity false)
        { runTests := true } Scenario.freshState).1.validation?.map
      fun v => (v.score, v.maxScore, v.overallScore)) = some (29, 200, 14) ∧
    roundHalfUp (100 * 29) 200 = 15 ∧ 2 * (100 * 29) = (2 * 14 + 1) * 200 := by
  decide

/-! ## Monotonicity of the double-precision operations -/

namespace Double

theorem roundHalfEven_tie_up (a b : Nat) (hb : 0 < b)
    (h : 2 * (roundHalfEven a b * b) = 2 * a + b) : roundHalfEven a b % 2 = 0 := by
  have hdm := Nat.div_add_mod a b
  have hmod := Nat.mod_lt a hb
  have hcomm : a / b * b = b * (a / b) := Nat.mul_comm _ _
  have hsucc : (a / b + 1) * b = b * (a / b) + b := by rw [Nat.add_mul, Nat.one_mul, hcomm]
  unfold roundHalfEven at h ⊢
  split at h
  · rw [hcomm] at h
    omega
  · split at h
    · rw [hsucc] at h
      omega
    · split at h
      · rw [hcomm] at h
        omega
      · rename_i h1 h2 h3
        simp only [h1, h2, h3, if_false]
        omega

theorem roundHalfEven_tie_down (a b : Nat) (hb : 0 < b)
    (h : 2 * a = 2 * (roundHalfEven a b * b) + b) : roundHalfEven a b % 2 = 0 := by
  have hdm := Nat.div_add_mod a b
  have hmod := Nat.mod_lt a hb
  have hcomm : a / b * b = b * (a / b) := Nat.mul_comm _ _
  have hsucc : (a / b + 1) * b = b * (a / b) + b := by rw [Nat.add_mul, Nat.one_mul, hcomm]
  unfold roundHalfEven at h ⊢
  split at h
  · rw [hcomm] at h
    omega
  · split at h
    · rw [hsucc] at h
      omega
    · split at h
      · rename_i h1 h2 h3
        simp only [h1, h2, h3, if_false, if_true]
      · rw [hsucc] at h
        omega

/-- Rounding to the nearest integer, ties to even, is monotone in the quotient. -/
theorem roundHalfEven_mono (a b a' b' : Nat) (hb : 0 < b) (hb' : 0 < b')
    (hq : a * b' ≤ a' * b) : roundHalfEven a b ≤ roundHalfEven a' b' := by
  obtain ⟨h1, h2⟩ := roundHalfEven_bounds a b hb
  obtain ⟨h1', h2'⟩ := roundHalfEven_bounds a' b' hb'
  by_contra hcon
  have hr : roundHalfEven a' b' + 1 ≤ roundHalfEven a b := by omega
  have A1 : 2 * (roundHalfEven a b * b) * b' ≤ (2 * a + b) * b' := Nat.mul_le_mul_right b' h1
  have A2 : 2 * a' * b ≤ (2 * (roundHalfEven a' b' * b') + b') * b := Nat.mul_le_mul_right b h2'
  have A3 : (roundHalfEven a' b' + 1) * (b * b') ≤ roundHalfEven a b * (b * b') :=
    Nat.mul_le_mul_right _ hr
  have e1 : 2 * (roundHalfEven a b * b) * b' = 2 * (roundHalfEven a b * (b * b')) := by ring
  have e2 : (2 * a + b) * b' = 2 * (a * b') + b * b' := by ring
  have e3 : 2 * a' * b = 2 * (a' * b) := by ring
  have e4 : (2 * (roundHalfEven a' b' * b') + b') * b
      = 2 * (roundHalfEven a' b' * (b * b')) + b * b' := by ring
  have e5 : (roundHalfEven a' b' + 1) * (b * b') = roundHalfEven a' b' * (b * b') + b * b' := by
    ring
  rw [e1, e2] at A1
  rw [e3, e4] at A2
  rw [e5] at A3
  have E1 : 2 * (roundHalfEven a b * (b * b')) = 2 * (a * b') + b * b' := by omega
  have E2 : 2 * (a' * b) = 2 * (roundHalfEven a' b' * (b * b')) + b * b' := by omega
  have E3 : roundHalfEven a' b' * (b * b') + b * b' = roundHalfEven a b * (b * b') := by omega
  have T1 : 2 * (roundHalfEven a b * b) = 2 * a + b := by
    apply Nat.eq_of_mul_eq_mul_right hb'
    rw [e1, e2]
    exact E1
  have T2 : 2 * a' = 2 * (roundHalfEven a' b' * b') + b' := by
    apply Nat.eq_of_mul_eq_mul_right hb
    rw [e3, e4]
    exact E2
  have T3 : roundHalfEven a' b' + 1 = roundHalfEven a b := by
    apply Nat.eq_of_mul_eq_mul_right (Nat.mul_pos hb hb')
    rw [e5]
    exact E3
  have p1 := roundHalfEven_tie_up a b hb T1
  have p2 := roundHalfEven_tie_down a' b' hb' T2
  omega

theorem scaled_initial_upper (n d : Nat) (hn : 0 < n) (hd : 0 < d) :
    (scaled n d ((bitLength n : Int) - (bitLength d : Int) - 53)).1
      < (scaled n d ((bitLength n : Int) - (bitLength d : Int) - 53)).2 * 2 ^ 54 := by
  obtain ⟨hn1, hn2⟩ := bitLength_spec n hn
  obtain ⟨hd1, hd2⟩ := bitLength_spec d hd
  unfold scaled
  by_cases he : 0 ≤ (bitLength n : Int) - (bitLength d : Int) - 53
  · simp only [he, if_true]
    have hk : ((bitLength n : Int) - (bitLength d : Int) - 53).toNat
        = bitLength n - bitLength d - 53 := by omega
    rw [hk]
    have hL : bitLength n = bitLength d + (bitLength n - bitLength d - 53) + 53 := by omega
    have hpow : 2 ^ bitLength n
        = 2 ^ bitLength d * (2 ^ (bitLength n - bitLength d - 53) * 2 ^ 53) := by
      conv_lhs => rw [hL]
      rw [pow_add, pow_add, Nat.mul_assoc]
    have hle : 2 ^ bitLength d * (2 ^ (bitLength n - bitLength d - 53) * 2 ^ 53)
        ≤ 2 * d * (2 ^ (bitLength n - bitLength d - 53) * 2 ^ 53) :=
      Nat.mul_le_mul_right _ hd2
    show n < d * 2 ^ (bitLength n - bitLength d - 53) * 2 ^ 54
    have e54 : (2 : ℕ) ^ 54 = 2 * 2 ^ 53 := by norm_num
    have e1 : d * 2 ^ (bitLength n - bitLength d - 53) * 2 ^ 54
        = 2 * d * (2 ^ (bitLength n - bitLength d - 53) * 2 ^ 53) := by
      rw [e54]
      ring
    rw [e1]
    omega
  · simp only [he, if_false]
    have hk : (-((bitLength n : Int) - (bitLength d : Int) - 53)).toNat
        = bitLength d + 53 - bitLength n := by omega
    rw [hk]
    have hL : bitLength n + (bitLength d + 53 - bitLength n) = bitLength d + 53 := by omega
    have hpow : 2 ^ bitLength n * 2 ^ (bitLength d + 53 - bitLength n)
        = 2 ^ bitLength d * 2 ^ 53 := by
      rw [← pow_add, hL, pow_add]
    have hP : 0 < 2 ^ (bitLength d + 53 - bitLength n) := by positivity
    have h1 : n * 2 ^ (bitLength d + 53 - bitLength n)
        < 2 ^ bitLength n * 2 ^ (bitLength d + 53 - bitLength n) :=
      Nat.mul_lt_mul_of_pos_right hn1 hP
    have h2 : 2 ^ bitLength d * 2 ^ 53 ≤ 2 * d * 2 ^ 53 := Nat.mul_le_mul_right _ hd2
    show n * 2 ^ (bitLength d + 53 - bitLength n) < d * 2 ^ 54
    have e54 : (2 : ℕ) ^ 54 = 2 * 2 ^ 53 := by norm_num
    have e1 : d * 2 ^ 54 = 2 * d * 2 ^ 53 := by
      rw [e54]
      ring
    rw [e1]
    omega

theorem roundHalfEven_one (a : Nat) : roundHalfEven a 1 = a := by
  simp [roundHalfEven, Nat.mod_one]

/-- The exponent that `nearest` picks, the scaled quotient it rounds and the range of the
resulting mantissa. -/
theorem nearest_spec (n d : Nat) (hn : 0 < n) (hd : 0 < d) :
    ∃ e : Int,
      nearest n d = { mant := roundHalfEven (scaled n d e).1 (scaled n d e).2, exp := e } ∧
      (2 : ℚ) ^ 52 * (2 : ℚ) ^ e ≤ (n : ℚ) / d ∧ (n : ℚ) / d < (2 : ℚ) ^ 53 * (2 : ℚ) ^ e ∧
      2 ^ 52 ≤ roundHalfEven (scaled n d e).1 (scaled n d e).2 ∧
      roundHalfEven (scaled n d e).1 (scaled n d e).2 ≤ 2 ^ 53 := by
  have hlo := scaled_initial_lower n d hn hd
  have hup := scaled_initial_upper n d hn hd
  obtain ⟨hpos0, hq0⟩ := scaled_spec n d ((bitLength n : Int) - (bitLength d : Int) - 53) hd
  have hposq : (0 : ℚ) < ((scaled n d ((bitLength n : Int) - (bitLength d : Int) - 53)).2 : ℚ) := by
    exact_mod_cast hpos0
  have hloq : (2 : ℚ) ^ 52 < (n : ℚ) / d
      * (2 : ℚ) ^ (-((bitLength n : Int) - (bitLength d : Int) - 53)) := by
    rw [← hq0, lt_div_iff₀ hposq]
    have : ((scaled n d ((bitLength n : Int) - (bitLength d : Int) - 53)).2 : ℚ) * 2 ^ 52
        < ((scaled n d ((bitLength n : Int) - (bitLength d : Int) - 53)).1 : ℚ) := by
      exact_mod_cast hlo
    linarith
  have hupq : (n : ℚ) / d * (2 : ℚ) ^ (-((bitLength n : Int) - (bitLength d : Int) - 53))
      < (2 : ℚ) ^ 54 := by
    rw [← hq0, div_lt_iff₀ hposq]
    have : ((scaled n d ((bitLength n : Int) - (bitLength d : Int) - 53)).1 : ℚ)
        < ((scaled n d ((bitLength n : Int) - (bitLength d : Int) - 53)).2 : ℚ) * 2 ^ 54 := by
      exact_mod_cast hup
    linarith
  have key : ∃ e : Int,
      nearest n d = { mant := roundHalfEven (scaled n d e).1 (scaled n d e).2, exp := e } ∧
      (2 : ℚ) ^ 52 ≤ (n : ℚ) / d * (2 : ℚ) ^ (-e) ∧ (n : ℚ) / d * (2 : ℚ) ^ (-e) < 2 ^ 53 := by
    have hn0 : n ≠ 0 := by omega
    by_cases ht : (scaled n d ((bitLength n : Int) - (bitLength d : Int) - 53)).1
        < (scaled n d ((bitLength n : Int) - (bitLength d : Int) - 53)).2 * 2 ^ 53
    · refine ⟨(bitLength n : Int) - (bitLength d : Int) - 53, ?_, le_of_lt hloq, ?_⟩
      · unfold nearest
        simp only [hn0, if_false, ht, if_true]
      · rw [← hq0, div_lt_iff₀ hposq]
        have : ((scaled n d ((bitLength n : Int) - (bitLength d : Int) - 53)).1 : ℚ)
            < ((scaled n d ((bitLength n : Int) - (bitLength d : Int) - 53)).2 : ℚ) * 2 ^ 53 := by
          exact_mod_cast ht
        linarith
    · have h53 : (2 : ℚ) ^ 53 ≤ (n : ℚ) / d
          * (2 : ℚ) ^ (-((bitLength n : Int) - (bitLength d : Int) - 53)) := by
        rw [← hq0, le_div_iff₀ hposq]
        have : ((scaled n d ((bitLength n : Int) - (bitLength d : Int) - 53)).2 : ℚ) * 2 ^ 53
            ≤ ((scaled n d ((bitLength n : Int) - (bitLength d : Int) - 53)).1 : ℚ) := by
          exact_mod_cast not_lt.mp ht
        linarith
      have h2 : (2 : ℚ) ^ (-1 : ℤ) = 1 / 2 := by norm_num
      have e52 : (2 : ℚ) ^ 53 = 2 ^ 52 * 2 := by norm_num
      have e54 : (2 : ℚ) ^ 54 = 2 ^ 53 * 2 := by norm_num
      refine ⟨(bitLength n : Int) - (bitLength d : Int) - 53 + 1, ?_, ?_, ?_⟩
      · unfold nearest
        simp only [hn0, if_false, ht]
      · rw [neg_add, zpow_add₀ (by norm_num : (2 : ℚ) ≠ 0), ← mul_assoc, h2]
        rw [e52] at h53
        linarith
      · rw [neg_add, zpow_add₀ (by norm_num : (2 : ℚ) ≠ 0), ← mul_assoc, h2]
        rw [e54] at hupq
        linarith
  obtain ⟨e, hnear, hlow, hhigh⟩ := key
  obtain ⟨hpos, hq⟩ := scaled_spec n d e hd
  have hsq : (0 : ℚ) < ((scaled n d e).2 : ℚ) := by exact_mod_cast hpos
  have h2e : (0 : ℚ) < (2 : ℚ) ^ e := by positivity
  have hinv : (2 : ℚ) ^ (-e) * (2 : ℚ) ^ e = 1 := by
    rw [← zpow_add₀ (by norm_num : (2 : ℚ) ≠ 0)]
    simp
  have hnd : (n : ℚ) / d = ((n : ℚ) / d * (2 : ℚ) ^ (-e)) * (2 : ℚ) ^ e := by
    rw [mul_assoc, hinv, mul_one]
  refine ⟨e, hnear, ?_, ?_, ?_, ?_⟩
  · rw [hnd]
    exact mul_le_mul_of_nonneg_right hlow (le_of_lt h2e)
  · rw [hnd]
    exact mul_lt_mul_of_pos_right hhigh h2e
  · have hmono := roundHalfEven_mono (2 ^ 52) 1 (scaled n d e).1 (scaled n d e).2
      (by norm_num) hpos (by
        rw [← hq, le_div_iff₀ hsq] at hlow
        have : ((2 ^ 52 * (scaled n d e).2 : ℕ) : ℚ) ≤ (((scaled n d e).1 * 1 : ℕ) : ℚ) := by
          push_cast
          linarith
        exact_mod_cast this)
    rw [roundHalfEven_one] at hmono
    exact hmono
  · have hmono := roundHalfEven_mono (scaled n d e).1 (scaled n d e).2 (2 ^ 53) 1
      hpos (by norm_num) (by
        rw [← hq, div_lt_iff₀ hsq] at hhigh
        have : (((scaled n d e).1 * 1 : ℕ) : ℚ) ≤ ((2 ^ 53 * (scaled n d e).2 : ℕ) : ℚ) := by
          push_cast
          linarith
        exact_mod_cast this)
    rw [roundHalfEven_one] at hmono
    exact hmono

theorem toRat_nonneg (x : Value) : 0 ≤ x.toRat := by
  unfold Value.toRat
  positivity

/-- Rounding to the nearest double is monotone. -/
theorem nearest_mono (n d n' d' : Nat) (hd : 0 < d) (hd' : 0 < d')
    (h : (n : ℚ) / d ≤ (n' : ℚ) / d') : (nearest n d).toRat ≤ (nearest n' d').toRat := by
  rcases Nat.eq_zero_or_pos n with hn | hn
  · subst hn
    have : (nearest 0 d).toRat = 0 := by simp [nearest, Value.toRat]
    rw [this]
    exact toRat_nonneg _
  · have hdq : (0 : ℚ) < d := by exact_mod_cast hd
    have hdq' : (0 : ℚ) < d' := by exact_mod_cast hd'
    have hxpos : (0 : ℚ) < (n : ℚ) / d := by positivity
    have hn' : 0 < n' := by
      rcases Nat.eq_zero_or_pos n' with h0 | h0
      · subst h0
        simp at h
        linarith
      · exact h0
    obtain ⟨e, hnear, hlo, hhi, hm1, hm2⟩ := nearest_spec n d hn hd
    obtain ⟨e', hnear', hlo', hhi', hm1', hm2'⟩ := nearest_spec n' d' hn' hd'
    obtain ⟨hpos, hq⟩ := scaled_spec n d e hd
    obtain ⟨hpos', hq'⟩ := scaled_spec n' d' e' hd'
    have two1 : (1 : ℚ) ≤ 2 := by norm_num
    have two0 : (2 : ℚ) ≠ 0 := by norm_num
    have e53 : (2 : ℚ) ^ 53 = 2 ^ 52 * 2 := by norm_num
    rw [hnear, hnear']
    simp only [Value.toRat]
    have hm1q : (2 : ℚ) ^ 52 ≤ (roundHalfEven (scaled n' d' e').1 (scaled n' d' e').2 : ℚ) := by
      exact_mod_cast hm1'
    have hm2q : (roundHalfEven (scaled n d e).1 (scaled n d e).2 : ℚ) ≤ (2 : ℚ) ^ 53 := by
      exact_mod_cast hm2
    have h2e : (0 : ℚ) < (2 : ℚ) ^ e := by positivity
    have h2e' : (0 : ℚ) < (2 : ℚ) ^ e' := by positivity
    rcases lt_trichotomy e e' with hlt | heq | hgt
    · have hstep : (2 : ℚ) ^ (e + 1) ≤ (2 : ℚ) ^ e' := zpow_le_zpow_right₀ two1 (by omega)
      rw [zpow_add_one₀ two0] at hstep
      calc (roundHalfEven (scaled n d e).1 (scaled n d e).2 : ℚ) * (2 : ℚ) ^ e
          ≤ 2 ^ 53 * (2 : ℚ) ^ e := mul_le_mul_of_nonneg_right hm2q (le_of_lt h2e)
        _ = 2 ^ 52 * ((2 : ℚ) ^ e * 2) := by
            rw [e53]
            ring
        _ ≤ 2 ^ 52 * (2 : ℚ) ^ e' := mul_le_mul_of_nonneg_left hstep (by positivity)
        _ ≤ (roundHalfEven (scaled n' d' e').1 (scaled n' d' e').2 : ℚ) * (2 : ℚ) ^ e' :=
            mul_le_mul_of_nonneg_right hm1q (le_of_lt h2e')
    · subst heq
      have hsq : (0 : ℚ) < ((scaled n d e).2 : ℚ) := by exact_mod_cast hpos
      have hsq' : (0 : ℚ) < ((scaled n' d' e).2 : ℚ) := by exact_mod_cast hpos'
      have hle : ((scaled n d e).1 : ℚ) / ((scaled n d e).2 : ℚ)
          ≤ ((scaled n' d' e).1 : ℚ) / ((scaled n' d' e).2 : ℚ) := by
        rw [hq, hq']
        exact mul_le_mul_of_nonneg_right h (by positivity)
      rw [div_le_div_iff₀ hsq hsq'] at hle
      have hnat : (scaled n d e).1 * (scaled n' d' e).2
          ≤ (scaled n' d' e).1 * (scaled n d e).2 := by exact_mod_cast hle
      have hmono := roundHalfEven_mono _ _ _ _ hpos hpos' hnat
      have hmq : (roundHalfEven (scaled n d e).1 (scaled n d e).2 : ℚ)
          ≤ (roundHalfEven (scaled n' d' e).1 (scaled n' d' e).2 : ℚ) := by
        exact_mod_cast hmono
      exact mul_le_mul_of_nonneg_right hmq (le_of_lt h2e)
    · exfalso
      have hstep : (2 : ℚ) ^ (e' + 1) ≤ (2 : ℚ) ^ e := zpow_le_zpow_right₀ two1 (by omega)
      rw [zpow_add_one₀ two0] at hstep
      have h1 : (2 : ℚ) ^ 53 * (2 : ℚ) ^ e' = 2 ^ 52 * ((2 : ℚ) ^ e' * 2) := by
        rw [e53]
        ring
      have h2 : (2 : ℚ) ^ 52 * ((2 : ℚ) ^ e' * 2) ≤ 2 ^ 52 * (2 : ℚ) ^ e :=
        mul_le_mul_of_nonneg_left hstep (by positivity)
      linarith

/-- The product `mulNat x k` is the double nearest to the exact product. -/
theorem mulNat_eq (x : Value) (k : Nat) :
    ∃ N D : Nat, 0 < D ∧ mulNat x k = nearest N D ∧ (N : ℚ) / D = (k : ℚ) * x.toRat := by
  unfold mulNat
  by_cases he : 0 ≤ x.exp
  · simp only [he, if_true]
    obtain ⟨j, hj⟩ := Int.eq_ofNat_of_zero_le he
    refine ⟨_, 1, by norm_num, rfl, ?_⟩
    simp only [Value.toRat, hj, Int.toNat_ofNat, Nat.cast_mul, Nat.cast_pow, Nat.cast_ofNat,
      zpow_natCast, Nat.cast_one, div_one]
    ring
  · simp only [he, if_false]
    have hneg : 0 ≤ -x.exp := by omega
    obtain ⟨j, hj⟩ := Int.eq_ofNat_of_zero_le hneg
    have hexp : x.exp = -(j : ℤ) := by omega
    refine ⟨_, _, by positivity, rfl, ?_⟩
    simp only [Value.toRat, hj, Int.toNat_ofNat, Nat.cast_mul, Nat.cast_pow, Nat.cast_ofNat]
    rw [hexp, zpow_neg, zpow_natCast]
    field_simp
    ring

theorem mulNat_mono (x y : Value) (k : Nat) (h : x.toRat ≤ y.toRat) :
    (mulNat x k).toRat ≤ (mulNat y k).toRat := by
  obtain ⟨N, D, hD, hx, hxv⟩ := mulNat_eq x k
  obtain ⟨N', D', hD', hy, hyv⟩ := mulNat_eq y k
  rw [hx, hy]
  apply nearest_mono N D N' D' hD hD'
  rw [hxv, hyv]
  exact mul_le_mul_of_nonneg_left h (by positivity)

theorem round_mono (x y : Value) (h : x.toRat ≤ y.toRat) : round x ≤ round y := by
  obtain ⟨h1, _⟩ := round_bounds x
  obtain ⟨_, h2⟩ := round_bounds y
  have hq : (round x : ℚ) < (round y : ℚ) + 1 := by linarith
  have hnat : round x < round y + 1 := by exact_mod_cast hq
  omega

end Double

/-- The overall score is monotone in the exact quotient `score / maxScore`. -/
theorem overallScoreOf_mono_quotient (s m s' m' : Nat) (hm : 0 < m) (hm' : 0 < m')
    (h : s * m' ≤ s' * m) : overallScoreOf s m ≤ overallScoreOf s' m' := by
  unfold overallScoreOf
  simp only [gt_iff_lt, hm, hm', if_true]
  apply Double.round_mono
  apply Double.mulNat_mono
  unfold Double.divNat
  apply Double.nearest_mono s m s' m' hm hm'
  have hmq : (0 : ℚ) < m := by exact_mod_cast hm
  have hmq' : (0 : ℚ) < m' := by exact_mod_cast hm'
  rw [div_le_div_iff₀ hmq hmq']
  exact_mod_cast h

/-- With the maximum fixed, a larger score never gives a smaller overall score. -/
theorem overallScoreOf_mono (s s' m : Nat) (h : s ≤ s') :
    overallScoreOf s m ≤ overallScoreOf s' m := by
  rcases Nat.eq_zero_or_pos m with hm | hm
  · subst hm
    simp [overallScoreOf]
  · exact overallScoreOf_mono_quotient s m s' m hm hm (Nat.mul_le_mul_right m h)

theorem overallScoreOf_one_one : overallScoreOf 1 1 = 100 := by decide

/-- A score that does not exceed the maximum gives an overall score of at most 100. -/
theorem overallScoreOf_le_hundred (s m : Nat) (h : s ≤ m) : overallScoreOf s m ≤ 100 := by
  rcases Nat.eq_zero_or_pos m with hm | hm
  · subst hm
    simp [overallScoreOf]
  · have := overallScoreOf_mono_quotient s m 1 1 hm (by norm_num) (by omega)
    rw [overallScoreOf_one_one] at this
    exact this

/-! ## Range and monotonicity of the overall score -/

theorem testPoints_le (options : Options) (tests : Except String TestResults) :
    testPoints options tests ≤ if options.runTests then 20 else 0 := by
  unfold testPoints
  cases tests with
  | error e => exact Nat.zero_le _
  | ok t =>
    cases hr : options.runTests <;> cases hp : t.passed <;> simp [hr, hp]

theorem claimPoints_le (divergences : List Divergence) : claimPoints divergences ≤ 15 := by
  unfold claimPoints
  split <;> omega

/-- The three sub-scores of a completed run and its maximum. -/
theorem completed_run_subscores (env : RunEnv) (options : Options) (s : State) (v : Validation)
    (h : (performComprehensiveValidation env options s).1 = .completed v) :
    ∃ sec, env.security = .ok sec ∧
      v.score = sec.score.getD 0 + testPoints options env.tests
        + claimPoints (validateAgainstReality env.emergency (stateAtClaimValidation env s)).1 ∧
      v.maxScore = sec.maxScore.getD 0 + (if options.runTests then 20 else 0) + 15 ∧
      v.overallScore = overallScoreOf v.score v.maxScore := by
  obtain ⟨sec, evidence, hsec, hv⟩ := completed_run_validation env options s v h
  refine ⟨sec, hsec, ?_, ?_, ?_⟩
  · rw [hv]
    simp only [decidedValidation, scoredValidation, claimPoints]
    split <;> rfl
  · rw [hv]
    rfl
  · rw [hv]
    rfl

/-- C11, as the code has it. In a comprehensive run that completes without an internal error
the overall score is a non-negative integer, the rounded percentage of `score` in `maxScore`.
It is at most 100 whenever the run's score does not exceed its maximum, which holds whenever
the security record's score (0 when absent) does not exceed the security record's maximum (0
when absent). Nothing clamps it: a security record whose score exceeds its maximum can give an
overall score above 100. -/
theorem completed_run_overall_score_range (env : RunEnv) (options : Options) (s : State)
    (v : Validation) (h : (performComprehensiveValidation env options s).1 = .completed v) :
    0 ≤ v.overallScore ∧
    v.overallScore = overallScoreOf v.score v.maxScore ∧
    (v.score ≤ v.maxScore → v.overallScore ≤ 100) ∧
    (∀ sec, env.security = .ok sec → sec.score.getD 0 ≤ sec.maxScore.getD 0 →
      v.score ≤ v.maxScore ∧ v.overallScore ≤ 100) := by
  obtain ⟨sec, hsec, hscore, hmax, hoverall⟩ := completed_run_subscores env options s v h
  refine ⟨Nat.zero_le _, hoverall, ?_, ?_⟩
  · intro hle
    rw [hoverall]
    exact overallScoreOf_le_hundred _ _ hle
  · intro sec' hsec' hle
    rw [hsec] at hsec'
    cases hsec'
    have h1 := testPoints_le options env.tests
    have h2 := claimPoints_le
      (validateAgainstReality env.emergency (stateAtClaimValidation env s)).1
    have hle' : v.score ≤ v.maxScore := by omega
    refine ⟨hle', ?_⟩
    rw [hoverall]
    exact overallScoreOf_le_hundred _ _ hle'

/-- C11, witness: the completed run on a fresh validator with 165 of 165 security points and no
test suite requested. -/
theorem completed_run_overall_score_range_witness :
    ∃ v, (performComprehensiveValidation (Scenario.runEnv 5000 Scenario.fullSecurity true)
        { runTests := false } Scenario.freshState).1 = .completed v ∧
      (0 ≤ v.overallScore ∧
      v.overallScore = overallScoreOf v.score v.maxScore ∧
      (v.score ≤ v.maxScore → v.overallScore ≤ 100) ∧
      (∀ sec, (Scenario.runEnv 5000 Scenario.fullSecurity true).security = .ok sec →
        sec.score.getD 0 ≤ sec.maxScore.getD 0 →
        v.score ≤ v.maxScore ∧ v.overallScore ≤ 100)) :=
  ⟨_, rfl, completed_run_overall_score_range (Scenario.runEnv 5000 Scenario.fullSecurity true)
    { runTests := false } Scenario.freshState _ rfl⟩

/-- C11, counterexample: a fresh validator, no test suite requested, and a security record
that reports 174 of 165 points. The run completes with score 189 and maxScore 180, and its
overall score is 105, which is above 100. -/
theorem overall_score_above_hundred :
    ((performComprehensiveValidation (Scenario.runEnv 5000 Scenario.overflowSecurity true)
        { runTests := false } Scenario.freshState).1.validation?.map
      fun v => (v.score, v.maxScore, v.overallScore)) = some (189, 180, 105) ∧
    ¬ (105 ≤ 100) := by
  decide

/-- C12. The overall score is monotone in each sub-score: for two comprehensive runs that
complete with the same `maxScore`, where each of the three sub-scores of the second run (the
security score, the test-suite points, the claim-check points) is at least that of the first
run, so in particular where they agree on two of them and the third is larger in the second
run, the overall score of the second run is at least that of the first. -/
theorem overall_score_monotone_in_subscores (env env' : RunEnv) (options options' : Options)
    (s s' : State) (v v' : Validation) (sec sec' : SecurityResults)
    (h : (performComprehensiveValidation env options s).1 = .completed v)
    (h' : (performComprehensiveValidation env' options' s').1 = .completed v')
    (hsec : env.security = .ok sec) (hsec' : env'.security = .ok sec')
    (hmax : v.maxScore = v'.maxScore)
    (hsecurity : sec.score.getD 0 ≤ sec'.score.getD 0)
    (htests : testPoints options env.tests ≤ testPoints options' env'.tests)
    (hclaims : claimPoints (validateAgainstReality env.emergency
        (stateAtClaimValidation env s)).1
      ≤ claimPoints (validateAgainstReality env'.emergency
        (stateAtClaimValidation env' s')).1) :
    v.score ≤ v'.score ∧ v.overallScore ≤ v'.overallScore := by
  obtain ⟨t, ht, hscore, _, hoverall⟩ := completed_run_subscores env options s v h
  obtain ⟨t', ht', hscore', _, hoverall'⟩ := completed_run_subscores env' options' s' v' h'
  rw [hsec] at ht
  rw [hsec'] at ht'
  cases ht
  cases ht'
  have hle : v.score ≤ v'.score := by omega
  refine ⟨hle, ?_⟩
  rw [hoverall, hoverall', hmax]
  exact overallScoreOf_mono _ _ _ hle

/-- C12, witness: two completed runs on a fresh validator with no test suite requested, the
first with 14 and the second with 165 of 165 security points. -/
theorem overall_score_monotone_in_subscores_witness :
    ∃ v v', (performComprehensiveValidation (Scenario.runEnv 5000 Scenario.weakSecurity true)
        { runTests := false } Scenario.freshState).1 = .completed v ∧
      (performComprehensiveValidation (Scenario.runEnv 5000 Scenario.fullSecurity true)
        { runTests := false } Scenario.freshState).1 = .completed v' ∧
      v.maxScore = v'.maxScore ∧
      v.score ≤ v'.score ∧ v.overallScore ≤ v'.overallScore :=
  ⟨_, _, rfl, rfl, rfl,
    overall_score_monotone_in_subscores (Scenario.runEnv 5000 Scenario.weakSecurity true)
      (Scenario.runEnv 5000 Scenario.fullSecurity true) { runTests := false }
      { runTests := false } Scenario.freshState Scenario.freshState _ _
      Scenario.weakSecurity Scenario.fullSecurity rfl rfl rfl rfl rfl (by decide) (by decide)
      (by decide)⟩

/-! ## The category-specific comparisons -/

namespace JSVal

theorem get_of_truthy (v : JSVal) (key : String) (h : v.truthy = true) :
    v.get key = .ok (v.field key) := by
  cases v <;> first | (simp [truthy] at h; done) | rfl

theorem get_of_not_nullish (v : JSVal) (key : String) (h : v.isNullish = false) :
    v.get key = .ok (v.field key) := by
  cases v <;> first | (simp [isNullish] at h; done) | rfl

theorem not_nullish_of_truthy (v : JSVal) (h : v.truthy = true) : v.isNullish = false := by
  cases v <;> first | (simp [truthy] at h; done) | rfl

theorem field_of_nullish (v : JSVal) (key : String) (h : v.isNullish = true) :
    v.field key = .undefined := by
  cases v <;> first | (simp [isNullish] at h; done) | rfl

theorem truthy_of_field_truthy (v : JSVal) (key : String) (h : (v.field key).truthy = true) :
    v.truthy = true := by
  cases v with
  | undefined => simp [field, get, truthy] at h
  | null => simp [field, get, truthy] at h
  | bool b => simp [field, get, truthy] at h
  | num n => simp [field, get, truthy] at h
  | str s =>
    by_cases hs : s = ""
    · subst hs
      simp only [field, get] at h
      split at h <;> simp [truthy, utf16Length] at h
    · simp [truthy, hs]
  | arr items => rfl
  | obj fields => rfl

theorem truthy_of_field_str (v : JSVal) (key s : String) (h : v.field key = .str s) :
    v.truthy = true := by
  cases v with
  | undefined => simp [field, get] at h
  | null => simp [field, get] at h
  | bool b => simp [field, get] at h
  | num n => simp [field, get] at h
  | str t =>
    simp only [field, get] at h
    split at h <;> simp at h
  | arr items =>
    simp only [field, get] at h
    split at h <;> simp at h
  | obj fields => rfl

theorem exists_of_isArray (v : JSVal) (h : v.isArray = true) : ∃ items, v = .arr items := by
  cases v <;> first | (simp [isArray] at h; done) | exact ⟨_, rfl⟩

theorem eq_of_strictEq (a b : JSVal) (h : strictEq a b = true) : a = b := by
  cases a <;> cases b <;> simp [strictEq] at h <;> simp [h]

theorem strictEq_trans_right (a b c : JSVal) (h1 : strictEq a c = true)
    (h2 : strictEq b c = true) : strictEq a b = true := by
  have e1 := eq_of_strictEq a c h1
  have e2 := eq_of_strictEq b c h2
  subst e1
  subst e2
  exact h1

end JSVal

open JSVal in
theorem sliceFor_hit (expected actual : JSVal) (category key : String)
    (hty : expected.field "type" = .str category) (hs : (actual.field key).truthy = true) :
    sliceFor expected actual category key = .ok (some (actual.field key)) := by
  have h1 := get_of_truthy expected "type" (truthy_of_field_str expected "type" category hty)
  have h2 := get_of_truthy actual key (truthy_of_field_truthy actual key hs)
  unfold sliceFor
  rw [h1, hty, h2]
  simp [bind, Except.bind, pure, Except.pure, strictEq, hs]

open JSVal in
theorem sliceFor_miss (expected actual : JSVal) (category other key : String)
    (hty : expected.field "type" = .str category) (hne : category ≠ other) :
    sliceFor expected actual other key = .ok none := by
  have h1 := get_of_truthy expected "type" (truthy_of_field_str expected "type" category hty)
  unfold sliceFor
  rw [h1, hty]
  simp [bind, Except.bind, pure, Except.pure, strictEq, hne]

theorem behaviorsMatchBody_api (expected actual : JSVal)
    (hty : expected.field "type" = .str "api")
    (hs : (actual.field "apiResponses").truthy = true) :
    behaviorsMatchBody expected actual
      = compareAPIBehavior expected (actual.field "apiResponses") := by
  have he := JSVal.truthy_of_field_str expected "type" "api" hty
  have ha := JSVal.truthy_of_field_truthy actual "apiResponses" hs
  unfold behaviorsMatchBody
  rw [sliceFor_hit expected actual "api" "apiResponses" hty hs]
  simp [he, ha, bind, Except.bind, pure, Except.pure]

theorem behaviorsMatchBody_ui (expected actual : JSVal)
    (hty : expected.field "type" = .str "ui")
    (hs : (actual.field "uiElements").truthy = true) :
    behaviorsMatchBody expected actual
      = compareUIBehavior expected (actual.field "uiElements") := by
  have he := JSVal.truthy_of_field_str expected "type" "ui" hty
  have ha := JSVal.truthy_of_field_truthy actual "uiElements" hs
  unfold behaviorsMatchBody
  rw [sliceFor_miss expected actual "ui" "api" "apiResponses" hty (by decide),
    sliceFor_hit expected actual "ui" "uiElements" hty hs]
  simp [he, ha, bind, Except.bind, pure, Except.pure]

theorem behaviorsMatchBody_database (expected actual : JSVal)
    (hty : expected.field "type" = .str "database")
    (hs : (actual.field "databaseState").truthy = true) :
    behaviorsMatchBody expected actual
      = compareDatabaseBehavior expected (actual.field "databaseState") := by
  have he := JSVal.truthy_of_field_str expected "type" "database" hty
  have ha := JSVal.truthy_of_field_truthy actual "databaseState" hs
  unfold behaviorsMatchBody
  rw [sliceFor_miss expected actual "database" "api" "apiResponses" hty (by decide),
    sliceFor_miss expected actual "database" "ui" "uiElements" hty (by decide),
    sliceFor_hit expected actual "database" "databaseState" hty hs]
  simp [he, ha, bind, Except.bind, pure, Except.pure]

theorem behaviorsMatchBody_performance (expected actual : JSVal)
    (hty : expected.field "type" = .str "performance")
    (hs : (actual.field "performance").truthy = true) :
    behaviorsMatchBody expected actual
      = comparePerformanceBehavior expected (actual.field "performance") := by
  have he := JSVal.truthy_of_field_str expected "type" "performance" hty
  have ha := JSVal.truthy_of_field_truthy actual "performance" hs
  unfold behaviorsMatchBody
  rw [sliceFor_miss expected actual "performance" "api" "apiResponses" hty (by decide),
    sliceFor_miss expected actual "performance" "ui" "uiElements" hty (by decide),
    sliceFor_miss expected actual "performance" "database" "databaseState" hty (by decide),
    sliceFor_hit expected actual "performance" "performance" hty hs]
  simp [he, ha, bind, Except.bind, pure, Except.pure]

/-! ### API -/

open JSVal in
theorem findEndpoint_eq (e : JSVal) (he : e.isNullish = false) (entries : List JSVal)
    (hentries : ∀ a ∈ entries, a.truthy = true) :
    findEndpoint e entries
      = .ok (entries.find? fun a => strictEq (a.field "url") (e.field "url")) := by
  induction entries with
  | nil => rfl
  | cons a rest ih =>
    have ha := get_of_truthy a "url" (hentries a (List.mem_cons_self _ _))
    have hu := get_of_not_nullish e "url" he
    have ih2 := ih fun b hb => hentries b (List.mem_cons_of_mem _ hb)
    unfold findEndpoint
    rw [ha, hu, ih2]
    simp only [bind, Except.bind, pure, Except.pure, List.find?_cons]
    cases strictEq (a.field "url") (e.field "url") <;> rfl

open JSVal in
/-- With distinct urls in the list, looking at the first entry that has the expected url is
looking for some entry with that url and an equal status. -/
theorem first_entry_status_eq_any (e : JSVal) (entries : List JSVal)
    (hdistinct : entries.Pairwise fun a b => strictEq (a.field "url") (b.field "url") = false) :
    (match entries.find? fun a => strictEq (a.field "url") (e.field "url") with
      | none => false
      | some a => strictEq (a.field "status") (e.field "status"))
      = entries.any fun a => strictEq (a.field "url") (e.field "url")
          && strictEq (a.field "status") (e.field "status") := by
  induction entries with
  | nil => rfl
  | cons x rest ih =>
    rw [List.pairwise_cons] at hdistinct
    obtain ⟨hx, hrest⟩ := hdistinct
    rw [List.find?_cons, List.any_cons]
    cases hp : strictEq (x.field "url") (e.field "url") with
    | true =>
      have hnone : (rest.any fun a => strictEq (a.field "url") (e.field "url")
          && strictEq (a.field "status") (e.field "status")) = false := by
        rw [List.any_eq_false]
        intro y hy hcon
        rw [Bool.and_eq_true] at hcon
        have := strictEq_trans_right _ _ _ hp hcon.1
        rw [hx y hy] at this
        exact Bool.noConfusion this
      rw [hnone]
      simp
    | false =>
      rw [ih hrest]
      simp

open JSVal in
theorem compareAPILoop_eq (actual : JSVal) (entries es : List JSVal)
    (hactual : actual.truthy = true) (hlist : actual.field "endpoints" = .arr entries)
    (hentries : ∀ a ∈ entries, a.truthy = true)
    (hrecords : ∀ e ∈ es, e.isNullish = false) :
    compareAPILoop actual es
      = .ok (es.all fun e =>
          match entries.find? fun a => strictEq (a.field "url") (e.field "url") with
          | none => false
          | some a => !(e.field "status").truthy
              || strictEq (a.field "status") (e.field "status")) := by
  induction es with
  | nil => rfl
  | cons e rest ih =>
    have he := hrecords e (List.mem_cons_self _ _)
    have hget := get_of_truthy actual "endpoints" hactual
    have hfind := findEndpoint_eq e he entries hentries
    have ih2 := ih fun b hb => hrecords b (List.mem_cons_of_mem _ hb)
    unfold compareAPILoop
    rw [hget, hlist]
    simp only [asArray, bind, Except.bind, pure, Except.pure, hfind, List.all_cons]
    cases hf : entries.find? fun a => strictEq (a.field "url") (e.field "url") with
    | none => rfl
    | some a =>
      have hmem : a ∈ entries := List.mem_of_find?_eq_some hf
      have hat := hentries a hmem
      simp only [get_of_not_nullish e "status" he, get_of_truthy a "status" hat, ih2, hat,
        Bool.not_true]
      cases hst : (e.field "status").truthy with
      | false => simp
      | true => cases hs : strictEq (a.field "status") (e.field "status") <;> simp [hs]

open JSVal in
theorem compareAPILoop_no_list (actual : JSVal) (e : JSVal) (rest : List JSVal)
    (hactual : actual.truthy = true) (hlist : ∀ entries, actual.field "endpoints" ≠ .arr entries) :
    ∃ err, compareAPILoop actual (e :: rest) = .error err := by
  have hget := get_of_truthy actual "endpoints" hactual
  unfold compareAPILoop
  rw [hget]
  cases hf : actual.field "endpoints" with
  | arr entries => exact absurd hf (hlist entries)
  | undefined => exact ⟨_, rfl⟩
  | null => exact ⟨_, rfl⟩
  | bool b => exact ⟨_, rfl⟩
  | num n => exact ⟨_, rfl⟩
  | str s => exact ⟨_, rfl⟩
  | obj fields => exact ⟨_, rfl⟩

open JSVal in
theorem compareAPIBehavior_of_list (expected actual : JSVal) (es : List JSVal)
    (hexp : expected.truthy = true) (hes : expected.field "endpoints" = .arr es) :
    compareAPIBehavior expected actual = compareAPILoop actual es := by
  unfold compareAPIBehavior
  rw [get_of_truthy expected "endpoints" hexp, hes]
  rfl

theorem behaviorsMatch_of_ok (expected actual : JSVal) (b : Bool)
    (h : behaviorsMatchBody expected actual = .ok b) : behaviorsMatch expected actual = b := by
  unfold behaviorsMatch
  rw [h]

theorem behaviorsMatch_of_error (expected actual : JSVal) (e : String)
    (h : behaviorsMatchBody expected actual = .error e) :
    behaviorsMatch expected actual = false := by
  unfold behaviorsMatch
  rw [h]

open JSVal in
/-- C13, as the code has it. For every `api` claim with an expected endpoint list of
`{url, status}` records and every snapshot whose API slice is present (the entries of its
endpoint list being records), `behaviorsMatch` returns true if and only if every expected pair
finds in the snapshot's endpoint list a first entry with the same url, and the status code of
that entry is equal to the expected one unless the expected status is falsy (0 or absent), in
which case the status codes are not compared. So when every expected pair has a status code
other than 0 and no two entries of the snapshot's list have the same url, `behaviorsMatch`
returns true if and only if every expected pair has an entry in the snapshot's endpoint list
with the same url and an equal status code. In every case an expected url that is missing
from the snapshot's list gives a mismatch. An expected status 200 against a reported 500 is a
mismatch, and against a reported 200 a match, the other fields of the snapshot entry being
ignored. -/
theorem behaviorsMatch_api_iff (expected actual : JSVal) (es : List JSVal)
    (hty : expected.field "type" = .str "api")
    (hes : expected.field "endpoints" = .arr es)
    (hslice : (actual.field "apiResponses").truthy = true)
    (hrecords : ∀ e ∈ es, e.isNullish = false)
    (hentries : ∀ a ∈ endpointList (actual.field "apiResponses"), a.truthy = true) :
    (behaviorsMatch expected actual = true ↔
      ∀ e ∈ es, ∃ a,
        ((endpointList (actual.field "apiResponses")).find?
          fun a => strictEq (a.field "url") (e.field "url")) = some a
        ∧ ((e.field "status").truthy = true →
            strictEq (a.field "status") (e.field "status") = true)) ∧
    ((∀ e ∈ es, (e.field "status").truthy = true) →
      ((endpointList (actual.field "apiResponses")).Pairwise
        fun a b => strictEq (a.field "url") (b.field "url") = false) →
      (behaviorsMatch expected actual = true ↔
        ∀ e ∈ es, ∃ a ∈ endpointList (actual.field "apiResponses"),
          strictEq (a.field "url") (e.field "url") = true
            ∧ strictEq (a.field "status") (e.field "status") = true)) ∧
    (∀ e ∈ es, (∀ a ∈ endpointList (actual.field "apiResponses"),
        strictEq (a.field "url") (e.field "url") = false) →
      behaviorsMatch expected actual = false) ∧
    behaviorsMatch Scenario.loginExpected (Scenario.loginReality 2000 500).toJS = false ∧
    behaviorsMatch Scenario.loginExpected (Scenario.loginReality 2000 200).toJS = true := by
  have hexp := truthy_of_field_str expected "type" "api" hty
  have hbody : behaviorsMatchBody expected actual
      = compareAPILoop (actual.field "apiResponses") es := by
    rw [behaviorsMatchBody_api expected actual hty hslice,
      compareAPIBehavior_of_list expected _ es hexp hes]
  have hiff : behaviorsMatch expected actual = true ↔
      ∀ e ∈ es, ∃ a,
        ((endpointList (actual.field "apiResponses")).find?
          fun a => strictEq (a.field "url") (e.field "url")) = some a
        ∧ ((e.field "status").truthy = true →
            strictEq (a.field "status") (e.field "status") = true) := by
    by_cases harr : ∃ entries, (actual.field "apiResponses").field "endpoints" = .arr entries
    · obtain ⟨entries, hentriesEq⟩ := harr
      have hl : endpointList (actual.field "apiResponses") = entries := by
        unfold endpointList
        rw [hentriesEq]
        rfl
      rw [hl] at hentries ⊢
      rw [compareAPILoop_eq _ entries es hslice hentriesEq hentries hrecords] at hbody
      rw [behaviorsMatch_of_ok expected actual _ hbody, List.all_eq_true]
      refine forall_congr' fun e => forall_congr' fun _ => ?_
      cases hf : entries.find? fun a => strictEq (a.field "url") (e.field "url") with
      | none => simp
      | some a =>
        cases hst : (e.field "status").truthy <;> simp
    · have hnone : ∀ entries, (actual.field "apiResponses").field "endpoints" ≠ .arr entries :=
        fun entries h => harr ⟨entries, h⟩
      have hl : endpointList (actual.field "apiResponses") = [] := by
        unfold endpointList
        cases hf : (actual.field "apiResponses").field "endpoints" with
        | arr entries => exact absurd hf (hnone entries)
        | undefined => rfl
        | null => rfl
        | bool b => rfl
        | num n => rfl
        | str s => rfl
        | obj fields => rfl
      rw [hl]
      cases es with
      | nil =>
        rw [behaviorsMatch_of_ok expected actual true hbody]
        simp
      | cons e rest =>
        obtain ⟨err, herr⟩ := compareAPILoop_no_list _ e rest hslice hnone
        rw [herr] at hbody
        rw [behaviorsMatch_of_error expected actual _ hbody]
        constructor
        · intro h
          exact Bool.noConfusion h
        · intro h
          obtain ⟨a, ha, _⟩ := h e (List.mem_cons_self _ _)
          simp at ha
  refine ⟨hiff, ?_, ?_, by decide, by decide⟩
  · intro hpairs hdistinct
    rw [hiff]
    refine forall_congr' fun e => forall_congr' fun he => ?_
    have hany := first_entry_status_eq_any e _ hdistinct
    have hst := hpairs e he
    cases hf : (endpointList (actual.field "apiResponses")).find?
        fun a => strictEq (a.field "url") (e.field "url") with
    | none =>
      rw [hf] at hany
      have hno := hany.symm
      rw [List.any_eq_false] at hno
      constructor
      · rintro ⟨a, ha, _⟩
        exact Option.noConfusion ha
      · rintro ⟨a, ha, hurl, hstatus⟩
        exact absurd (by rw [hurl, hstatus]; rfl) (hno a ha)
    | some x =>
      rw [hf] at hany
      constructor
      · rintro ⟨a, ha, hstatus⟩
        have hax : x = a := Option.some.inj ha
        subst hax
        have hurl : strictEq (x.field "url") (e.field "url") = true := by
          have := List.find?_some hf
          simpa using this
        exact ⟨x, List.mem_of_find?_eq_some hf, hurl, hstatus hst⟩
      · rintro ⟨a, ha, hurl, hstatus⟩
        refine ⟨x, rfl, fun _ => ?_⟩
        have hex : ((endpointList (actual.field "apiResponses")).any fun a =>
            strictEq (a.field "url") (e.field "url")
              && strictEq (a.field "status") (e.field "status")) = true := by
          rw [List.any_eq_true]
          exact ⟨a, ha, by rw [hurl, hstatus]; rfl⟩
        rw [← hany] at hex
        exact hex
  · intro e he hmissing
    cases hb : behaviorsMatch expected actual with
    | false => rfl
    | true =>
      obtain ⟨a, ha, _⟩ := hiff.mp hb e he
      have hurl : strictEq (a.field "url") (e.field "url") = true := by
        have := List.find?_some ha
        simpa using this
      rw [hmissing a (List.mem_of_find?_eq_some ha)] at hurl
      exact Bool.noConfusion hurl

/-! ### UI -/

theorem JSVal.elements_of_falsy (v : JSVal) (h : v.truthy = false) : v.elements = [] := by
  cases v <;> first | rfl | simp [JSVal.truthy] at h

open JSVal in
theorem someElement_eq (e : JSVal) (he : e.isNullish = false) (els : List JSVal)
    (hels : ∀ el ∈ els, el.isNullish = false)
    (hdet : ∀ el ∈ els, (el.field "detected").truthy = true →
      ∃ items, el.field "detected" = .arr items) :
    someElement e els
      = .ok (els.any fun el => strictEq (el.field "type") (e.field "type")
          || (detectedCollection el).any fun x => strictEq x (e.field "name")) := by
  induction els with
  | nil => rfl
  | cons el rest ih =>
    have hel := hels el (List.mem_cons_self _ _)
    have ih2 := ih (fun b hb => hels b (List.mem_cons_of_mem _ hb))
      (fun b hb => hdet b (List.mem_cons_of_mem _ hb))
    unfold someElement
    simp only [get_of_not_nullish el "type" hel, get_of_not_nullish e "type" he,
      get_of_not_nullish el "detected" hel, get_of_not_nullish e "name" he, ih2,
      bind, Except.bind, pure, Except.pure, List.any_cons]
    cases hty : strictEq (el.field "type") (e.field "type") with
    | true => simp
    | false =>
      cases hd : (el.field "detected").truthy with
      | true =>
        obtain ⟨items, hitems⟩ := hdet el (List.mem_cons_self _ _) hd
        simp only [detectedCollection, hitems, elements, includes, Bool.false_or]
        cases hany : items.any fun x => strictEq x (e.field "name") <;> simp [hany, truthy]
      | false =>
        simp [detectedCollection, elements_of_falsy _ hd]

open JSVal in
theorem compareUILoop_eq (actual : JSVal) (els es : List JSVal)
    (hactual : actual.truthy = true) (hlist : actual.field "elements" = .arr els)
    (hes : ∀ e ∈ es, e.isNullish = false)
    (hels : ∀ el ∈ els, el.isNullish = false)
    (hdet : ∀ el ∈ els, (el.field "detected").truthy = true →
      ∃ items, el.field "detected" = .arr items) :
    compareUILoop actual es
      = .ok (es.all fun e => els.any fun el => strictEq (el.field "type") (e.field "type")
          || (detectedCollection el).any fun x => strictEq x (e.field "name")) := by
  induction es with
  | nil => rfl
  | cons e rest ih =>
    have he := hes e (List.mem_cons_self _ _)
    have ih2 := ih fun b hb => hes b (List.mem_cons_of_mem _ hb)
    unfold compareUILoop
    rw [get_of_truthy actual "elements" hactual, hlist]
    simp only [asArray, bind, Except.bind, pure, Except.pure, someElement_eq e he els hels hdet,
      ih2, List.all_cons]
    cases els.any fun el => strictEq (el.field "type") (e.field "type")
      || (detectedCollection el).any fun x => strictEq x (e.field "name") <;> simp

open JSVal in
theorem compareUILoop_no_list (actual : JSVal) (e : JSVal) (rest : List JSVal)
    (hactual : actual.truthy = true) (hlist : ∀ els, actual.field "elements" ≠ .arr els) :
    ∃ err, compareUILoop actual (e :: rest) = .error err := by
  have hget := get_of_truthy actual "elements" hactual
  unfold compareUILoop
  rw [hget]
  cases hf : actual.field "elements" with
  | arr els => exact absurd hf (hlist els)
  | undefined => exact ⟨_, rfl⟩
  | null => exact ⟨_, rfl⟩
  | bool b => exact ⟨_, rfl⟩
  | num n => exact ⟨_, rfl⟩
  | str s => exact ⟨_, rfl⟩
  | obj fields => exact ⟨_, rfl⟩

open JSVal in
theorem compareUIBehavior_of_list (expected actual : JSVal) (es : List JSVal)
    (hexp : expected.truthy = true) (hes : expected.field "elements" = .arr es) :
    compareUIBehavior expected actual = compareUILoop actual es := by
  unfold compareUIBehavior
  rw [get_of_truthy expected "elements" hexp, hes]
  rfl

theorem JSVal.elements_eq_nil_of_not_arr (v : JSVal) (h : ∀ items, v ≠ .arr items) :
    v.elements = [] := by
  cases v with
  | arr items => exact absurd rfl (h items)
  | undefined => rfl
  | null => rfl
  | bool b => rfl
  | num n => rfl
  | str s => rfl
  | obj fields => rfl

open JSVal in
/-- C15. For every `ui` claim with an expected element list and every snapshot whose UI slice
is present (the expected elements and the snapshot's elements being records, and a `detected`
property, where an element has one, being a collection), `behaviorsMatch` returns true if and
only if for every expected element some element of the snapshot either has a type equal to the
expected element's type or has a `detected` collection that contains the expected element's
name. -/
theorem behaviorsMatch_ui_iff (expected actual : JSVal) (es : List JSVal)
    (hty : expected.field "type" = .str "ui")
    (hes : expected.field "elements" = .arr es)
    (hslice : (actual.field "uiElements").truthy = true)
    (hexpected : ∀ e ∈ es, e.isNullish = false)
    (hentries : ∀ el ∈ uiElementList (actual.field "uiElements"), el.isNullish = false)
    (hdetected : ∀ el ∈ uiElementList (actual.field "uiElements"),
      (el.field "detected").truthy = true → (el.field "detected").isArray = true) :
    behaviorsMatch expected actual = true ↔
      ∀ e ∈ es, ∃ el ∈ uiElementList (actual.field "uiElements"),
        strictEq (el.field "type") (e.field "type") = true
          ∨ ∃ x ∈ detectedCollection el, strictEq x (e.field "name") = true := by
  have hexp := truthy_of_field_str expected "type" "ui" hty
  have hbody : behaviorsMatchBody expected actual
      = compareUILoop (actual.field "uiElements") es := by
    rw [behaviorsMatchBody_ui expected actual hty hslice,
      compareUIBehavior_of_list expected _ es hexp hes]
  by_cases harr : ∃ els, (actual.field "uiElements").field "elements" = .arr els
  · obtain ⟨els, helsEq⟩ := harr
    have hl : uiElementList (actual.field "uiElements") = els := by
      unfold uiElementList
      rw [helsEq]
      rfl
    rw [hl] at hentries hdetected ⊢
    rw [compareUILoop_eq _ els es hslice helsEq hexpected hentries
      fun el hel ht => exists_of_isArray _ (hdetected el hel ht)] at hbody
    rw [behaviorsMatch_of_ok expected actual _ hbody]
    simp only [List.all_eq_true, List.any_eq_true, Bool.or_eq_true]
  · have hnone : ∀ els, (actual.field "uiElements").field "elements" ≠ .arr els :=
      fun els h => harr ⟨els, h⟩
    have hl : uiElementList (actual.field "uiElements") = [] :=
      elements_eq_nil_of_not_arr _ hnone
    rw [hl]
    cases es with
    | nil =>
      rw [behaviorsMatch_of_ok expected actual true hbody]
      simp
    | cons e rest =>
      obtain ⟨err, herr⟩ := compareUILoop_no_list _ e rest hslice hnone
      rw [herr] at hbody
      rw [behaviorsMatch_of_error expected actual _ hbody]
      constructor
      · intro h
        exact Bool.noConfusion h
      · intro h
        obtain ⟨a, ha, _⟩ := h e (List.mem_cons_self _ _)
        exact absurd ha (List.not_mem_nil a)

/-! ### Database -/

theorem JSVal.get_arr_length (items : List JSVal) :
    (JSVal.arr items).get "length" = .ok (.num items.length) := rfl

theorem JSVal.gtZero_num (n : Int) : (JSVal.num n).gtZero = decide (0 < n) := rfl

open JSVal in
theorem flatMapTables_eq (dbs : List JSVal) (hentries : ∀ db ∈ dbs, db.isNullish = false)
    (htables : ∀ db ∈ dbs, (db.field "tables").truthy = true →
      ∃ items, db.field "tables" = .arr items) :
    flatMapTables dbs = .ok (observedTables dbs) := by
  induction dbs with
  | nil => rfl
  | cons db rest ih =>
    have hdb := hentries db (List.mem_cons_self _ _)
    have ih2 := ih (fun b hb => hentries b (List.mem_cons_of_mem _ hb))
      (fun b hb => htables b (List.mem_cons_of_mem _ hb))
    unfold flatMapTables
    simp only [get_of_not_nullish db "tables" hdb, ih2, bind, Except.bind, pure, Except.pure]
    cases ht : (db.field "tables").truthy with
    | true =>
      obtain ⟨items, hitems⟩ := htables db (List.mem_cons_self _ _) ht
      simp [observedTables, hitems, elements]
    | false =>
      simp [observedTables, elements_of_falsy _ ht]

open JSVal in
theorem allTablesIncluded_eq (actualTables ts : List JSVal) :
    allTablesIncluded actualTables ts
      = ts.all fun t => actualTables.any fun x => strictEq x t := by
  induction ts with
  | nil => rfl
  | cons t rest ih =>
    unfold allTablesIncluded
    rw [ih, List.all_cons]
    cases actualTables.any fun x => strictEq x t <;> simp

open JSVal in
theorem noInconsistencies_eq (actual : JSVal) (hactual : actual.truthy = true)
    (hinc : (actual.field "inconsistencies").truthy = true →
      ∃ items, actual.field "inconsistencies" = .arr items) :
    noInconsistencies actual = .ok (inconsistencyList actual).isEmpty := by
  unfold noInconsistencies
  simp only [get_of_truthy actual "inconsistencies" hactual, bind, Except.bind, pure,
    Except.pure]
  cases ht : (actual.field "inconsistencies").truthy with
  | true =>
    obtain ⟨items, hitems⟩ := hinc ht
    cases items with
    | nil => simp [inconsistencyList, hitems, elements, get_arr_length, gtZero_num]
    | cons x xs =>
      have hpos : (0 : Int) < (xs.length : Int) + 1 := by omega
      simp [inconsistencyList, hitems, elements, get_arr_length, gtZero_num, hpos]
  | false =>
    simp [inconsistencyList, elements_of_falsy _ ht]

open JSVal in
theorem compareDatabaseBehavior_eq (expected actual : JSVal) (ts dbs : List JSVal)
    (hexp : expected.truthy = true) (hts : expected.field "tables" = .arr ts)
    (hactual : actual.truthy = true) (hdbs : actual.field "databases" = .arr dbs)
    (hentries : ∀ db ∈ dbs, db.isNullish = false)
    (htables : ∀ db ∈ dbs, (db.field "tables").truthy = true →
      ∃ items, db.field "tables" = .arr items)
    (hinc : (actual.field "inconsistencies").truthy = true →
      ∃ items, actual.field "inconsistencies" = .arr items) :
    compareDatabaseBehavior expected actual
      = .ok ((dbs.isEmpty || ts.all fun t => (observedTables dbs).any fun x => strictEq x t)
          && (inconsistencyList actual).isEmpty) := by
  unfold compareDatabaseBehavior
  simp only [get_of_truthy expected "tables" hexp, hts, get_of_truthy actual "databases" hactual,
    hdbs, bind, Except.bind, pure, Except.pure, noInconsistencies_eq actual hactual hinc,
    flatMapTables_eq dbs hentries htables, allTablesIncluded_eq]
  cases dbs with
  | nil => simp [truthy, get_arr_length, gtZero_num]
  | cons db rest =>
    have hpos : (0 : Int) < (rest.length : Int) + 1 := by omega
    simp only [truthy, get_arr_length, gtZero_num, asArray, iterate, List.length_cons,
      List.isEmpty_cons, Bool.false_or, Nat.cast_add, Nat.cast_one, hpos, decide_True, if_true,
      flatMapTables_eq (db :: rest) hentries htables, allTablesIncluded_eq, bind, Except.bind,
      pure, Except.pure]
    cases h : ts.all fun t => (observedTables (db :: rest)).any fun x => strictEq x t <;>
      simp [h]

open JSVal in
/-- C14, as the code has it. For every `database` claim with an expected table list and every
snapshot whose database slice is present (with a database list of records, each table list and
the inconsistency list being a collection where present), `behaviorsMatch` returns true if and
only if the inconsistency list is empty and either no database was observed at all or every
expected table name appears in the union of the table lists of the observed databases: the
tables are checked only when at least one database was observed. A non-empty inconsistency
list gives a mismatch whatever the tables are. -/
theorem behaviorsMatch_database_iff (expected actual : JSVal) (ts dbs : List JSVal)
    (hty : expected.field "type" = .str "database")
    (hts : expected.field "tables" = .arr ts)
    (hslice : (actual.field "databaseState").truthy = true)
    (hdbs : (actual.field "databaseState").field "databases" = .arr dbs)
    (hentries : ∀ db ∈ dbs, db.isNullish = false)
    (htables : ∀ db ∈ dbs, (db.field "tables").truthy = true →
      (db.field "tables").isArray = true)
    (hinc : ((actual.field "databaseState").field "inconsistencies").truthy = true →
      ((actual.field "databaseState").field "inconsistencies").isArray = true) :
    (behaviorsMatch expected actual = true ↔
      (dbs = [] ∨ ∀ t ∈ ts, ∃ x ∈ observedTables dbs, strictEq x t = true)
        ∧ inconsistencyList (actual.field "databaseState") = []) ∧
    (inconsistencyList (actual.field "databaseState") ≠ [] →
      behaviorsMatch expected actual = false) := by
  have hexp := truthy_of_field_str expected "type" "database" hty
  have hbody := behaviorsMatchBody_database expected actual hty hslice
  rw [compareDatabaseBehavior_eq expected _ ts dbs hexp hts hslice hdbs hentries
    (fun db hdb ht => exists_of_isArray _ (htables db hdb ht))
    (fun ht => exists_of_isArray _ (hinc ht))] at hbody
  have hiff : behaviorsMatch expected actual = true ↔
      (dbs = [] ∨ ∀ t ∈ ts, ∃ x ∈ observedTables dbs, strictEq x t = true)
        ∧ inconsistencyList (actual.field "databaseState") = [] := by
    rw [behaviorsMatch_of_ok expected actual _ hbody]
    simp only [Bool.and_eq_true, Bool.or_eq_true, List.all_eq_true, List.any_eq_true,
      List.isEmpty_iff]
  refine ⟨hiff, ?_⟩
  intro hne
  cases hb : behaviorsMatch expected actual with
  | false => rfl
  | true => exact absurd (hiff.mp hb).2 hne

/-- C14, witness: an expected table `users` against a snapshot with one SQLite database that
has the tables `users` and `orders`. -/
theorem behaviorsMatch_database_iff_witness :
    (behaviorsMatch Scenario.databaseExpected Scenario.databaseActual = true ↔
      (([JSVal.obj [("type", .str "sqlite"), ("file", .str "./app.db"),
          ("tables", .arr [.str "users", .str "orders"]), ("tableCount", .num 2)]] : List JSVal)
          = []
        ∨ ∀ t ∈ [JSVal.str "users"],
          ∃ x ∈ observedTables [JSVal.obj [("type", .str "sqlite"), ("file", .str "./app.db"),
            ("tables", .arr [.str "users", .str "orders"]), ("tableCount", .num 2)]],
            JSVal.strictEq x t = true)
        ∧ inconsistencyList (Scenario.databaseActual.field "databaseState") = []) ∧
    (inconsistencyList (Scenario.databaseActual.field "databaseState") ≠ [] →
      behaviorsMatch Scenario.databaseExpected Scenario.databaseActual = false) :=
  behaviorsMatch_database_iff Scenario.databaseExpected Scenario.databaseActual _ _ rfl rfl
    (by decide) rfl (by decide) (by decide) (by decide)

/-- C14, counterexample: an expected table `users` against a snapshot whose database slice
lists no database and no inconsistency. The union of the observed table lists is empty, so the
expected table does not appear in it, and yet `behaviorsMatch` returns true. -/
theorem database_match_without_observed_database :
    behaviorsMatch Scenario.databaseExpected (Scenario.loginReality 2000 200).toJS = true ∧
    Scenario.databaseExpected.field "tables" = .arr [.str "users"] ∧
    ((Scenario.loginReality 2000 200).toJS.field "databaseState").field "databases" = .arr [] ∧
    inconsistencyList ((Scenario.loginReality 2000 200).toJS.field "databaseState") = [] ∧
    ¬ (∀ t ∈ [JSVal.str "users"], ∃ x ∈ observedTables [], JSVal.strictEq x t = true) := by
  refine ⟨by decide, rfl, rfl, rfl, ?_⟩
  simp [observedTables]

/-- C13, witness: the expected endpoint at status 200 against a snapshot that reports it at
status 500. -/
theorem behaviorsMatch_api_iff_witness :
    behaviorsMatch Scenario.loginExpected (Scenario.loginReality 2000 500).toJS = true ↔
      ∀ e ∈ [JSVal.obj [("url", .str "http://localhost:3000/health"), ("status", .num 200)]],
        ∃ a,
          ((endpointList ((Scenario.loginReality 2000 500).toJS.field "apiResponses")).find?
            fun a => JSVal.strictEq (a.field "url") (e.field "url")) = some a
          ∧ ((e.field "status").truthy = true →
              JSVal.strictEq (a.field "status") (e.field "status") = true) :=
  (behaviorsMatch_api_iff Scenario.loginExpected (Scenario.loginReality 2000 500).toJS _ rfl rfl
    (by decide) (by decide) (by decide)).1

/-- C13, counterexample. An expected status 0, the status the API collector records for an
endpoint it cannot reach, against a snapshot that reports the endpoint at status 500: no
entry of the snapshot has that url and an equal status code, and the comparison returns true.
And an expected status 200 against a snapshot that lists the url twice, first at status 500
and then at status 200: an entry has that url and an equal status code, and the comparison
returns false. -/
theorem api_match_ignores_claimed_rule :
    behaviorsMatch Scenario.unreachableExpected (Scenario.loginReality 2000 500).toJS = true ∧
    (¬ ∀ e ∈ (Scenario.unreachableExpected.field "endpoints").elements,
      ∃ a ∈ endpointList ((Scenario.loginReality 2000 500).toJS.field "apiResponses"),
        JSVal.strictEq (a.field "url") (e.field "url") = true
          ∧ JSVal.strictEq (a.field "status") (e.field "status") = true) ∧
    behaviorsMatch Scenario.loginExpected (Scenario.repeatedUrlReality 2000).toJS = false ∧
    (∀ e ∈ (Scenario.loginExpected.field "endpoints").elements,
      ∃ a ∈ endpointList ((Scenario.repeatedUrlReality 2000).toJS.field "apiResponses"),
        JSVal.strictEq (a.field "url") (e.field "url") = true
          ∧ JSVal.strictEq (a.field "status") (e.field "status") = true) := by
  decide

/-- C15, witness: an expected framework name and an expected element type against a snapshot
that lists the HTML files and the detected frameworks. -/
theorem behaviorsMatch_ui_iff_witness :
    behaviorsMatch Scenario.uiExpected Scenario.uiActual = true ↔
      ∀ e ∈ [JSVal.obj [("name", .str "React")], JSVal.obj [("type", .str "html_files")]],
        ∃ el ∈ uiElementList (Scenario.uiActual.field "uiElements"),
          JSVal.strictEq (el.field "type") (e.field "type") = true
            ∨ ∃ x ∈ detectedCollection el, JSVal.strictEq x (e.field "name") = true :=
  behaviorsMatch_ui_iff Scenario.uiExpected Scenario.uiActual _ rfl rfl (by decide) (by decide)
    (by decide) (by decide)

/-! ### Performance -/

open JSVal in
theorem findHttpBenchmark_eq (bs : List JSVal) (hentries : ∀ b ∈ bs, b.isNullish = false) :
    findHttpBenchmark bs
      = .ok (bs.find? fun b => strictEq (b.field "name") (.str "local_http")) := by
  induction bs with
  | nil => rfl
  | cons b rest ih =>
    have hb := hentries b (List.mem_cons_self _ _)
    have ih2 := ih fun c hc => hentries c (List.mem_cons_of_mem _ hc)
    unfold findHttpBenchmark
    simp only [get_of_not_nullish b "name" hb, ih2, bind, Except.bind, pure, Except.pure,
      List.find?_cons]
    cases strictEq (b.field "name") (.str "local_http") <;> rfl

theorem JSVal.field_memory_of_falsy (v : JSVal) (h : v.truthy = false) :
    v.field "memory" = .undefined := by
  cases v with
  | arr items => simp [JSVal.truthy] at h
  | obj fields => simp [JSVal.truthy] at h
  | undefined => rfl
  | null => rfl
  | bool b => rfl
  | num n => rfl
  | str s => rfl

theorem JSVal.field_percentage_of_falsy (v : JSVal) (h : v.truthy = false) :
    v.field "percentage" = .undefined := by
  cases v with
  | arr items => simp [JSVal.truthy] at h
  | obj fields => simp [JSVal.truthy] at h
  | undefined => rfl
  | null => rfl
  | bool b => rfl
  | num n => rfl
  | str s => rfl

theorem JSVal.gtScaled_num (a : JSVal) (y : Int) (p q : Nat) :
    JSVal.gtScaled a (.num y) p q
      = match a.toNumber with
        | some x => decide ((p : Int) * y < (q : Int) * x)
        | none => false := by
  unfold JSVal.gtScaled
  cases a.toNumber <;> rfl

open JSVal in
theorem memoryWithinRange_eq (expected actual : JSVal) (mu : Int)
    (hexp : expected.truthy = true) (hmu : expected.field "memoryUsage" = .num mu)
    (hactual : actual.truthy = true) :
    memoryWithinRange expected actual
      = .ok (decide (mu = 0) || match memoryPercentage actual with
          | some p => !decide (3 * mu < 2 * p)
          | none => true) := by
  unfold memoryWithinRange memoryPercentage
  simp only [get_of_truthy expected "memoryUsage" hexp, hmu, get_of_truthy actual "system" hactual,
    bind, Except.bind, pure, Except.pure]
  by_cases hmu0 : mu = 0
  · subst hmu0
    have hmut : (JSVal.num 0).truthy = false := rfl
    simp [hmut]
  · have hmut : (JSVal.num mu).truthy = true := by simp [truthy, hmu0]
    simp only [hmut, if_true, hmu0, decide_False, Bool.false_or]
    cases hs : (actual.field "system").truthy with
    | false =>
      rw [field_memory_of_falsy _ hs]
      rfl
    | true =>
      simp only [get_of_truthy _ "memory" hs, if_true]
      cases hm : ((actual.field "system").field "memory").truthy with
      | false =>
        rw [field_percentage_of_falsy _ hm]
        rfl
      | true =>
        simp only [get_of_truthy _ "percentage" hm, if_true, gtScaled_num]
        cases (((actual.field "system").field "memory").field "percentage").toNumber with
        | none => rfl
        | some p =>
          simp only [Nat.cast_ofNat]
          by_cases hlt : 3 * mu < 2 * p <;> simp [hlt]

open JSVal in
theorem comparePerformanceBehavior_eq (expected actual : JSVal) (rt mu : Int)
    (hexp : expected.truthy = true)
    (hrt : expected.field "responseTime" = .num rt)
    (hmu : expected.field "memoryUsage" = .num mu)
    (hactual : actual.truthy = true)
    (hbench : (actual.field "benchmarks").truthy = true →
      ∃ bs, actual.field "benchmarks" = .arr bs)
    (hentries : ∀ b ∈ (actual.field "benchmarks").elements, b.isNullish = false) :
    comparePerformanceBehavior expected actual
      = .ok ((decide (rt = 0) || match localHttpDuration actual with
            | some d => !decide (2 * rt < d)
            | none => true)
          && (decide (mu = 0) || match memoryPercentage actual with
            | some p => !decide (3 * mu < 2 * p)
            | none => true)) := by
  have hmem := memoryWithinRange_eq expected actual mu hexp hmu hactual
  by_cases hrt0 : rt = 0
  · subst hrt0
    have hrtt : (JSVal.num 0).truthy = false := rfl
    unfold comparePerformanceBehavior
    simp [get_of_truthy expected "responseTime" hexp, hrt, hrtt, hmem, bind, Except.bind]
  · have hrtt : (JSVal.num rt).truthy = true := by simp [truthy, hrt0]
    unfold comparePerformanceBehavior localHttpDuration
    simp only [get_of_truthy expected "responseTime" hexp, hrt, hrtt,
      get_of_truthy actual "benchmarks" hactual, hmem, bind, Except.bind, pure, Except.pure,
      if_true, hrt0, decide_False, Bool.false_or]
    cases hb : (actual.field "benchmarks").truthy with
    | false =>
      rw [elements_of_falsy _ hb]
      simp
    | true =>
      obtain ⟨bs, hbs⟩ := hbench hb
      rw [hbs] at hentries ⊢
      simp only [elements, asArray] at hentries ⊢
      simp only [findHttpBenchmark_eq bs hentries, if_true]
      cases hf : bs.find? fun b => strictEq (b.field "name") (.str "local_http") with
      | none => simp
      | some b =>
        have hname : strictEq (b.field "name") (.str "local_http") = true := by
          have := List.find?_some hf
          simpa using this
        have hbt : b.truthy = true :=
          truthy_of_field_str b "name" "local_http" (eq_of_strictEq _ _ hname)
        simp only [hbt, if_true, get_of_truthy b "duration" hbt, gtScaled_num]
        cases (b.field "duration").toNumber with
        | none => simp
        | some d =>
          simp only [Nat.cast_ofNat, Nat.cast_one, one_mul]
          by_cases hlt : 2 * rt < d <;> simp [hlt]

open JSVal in
/-- C16, as the code has it. For every `performance` claim with an expected `responseTime` and
`memoryUsage` (two numbers) and every snapshot whose performance slice is present (its
benchmark list, where present, being a collection of records), `behaviorsMatch` returns false
if and only if `responseTime` is not 0 and the snapshot's local-HTTP benchmark duration is
strictly greater than twice `responseTime`, or `memoryUsage` is not 0 and the snapshot's
memory-usage percentage is strictly greater than 1.5 times `memoryUsage` (twice the percentage
exceeds three times `memoryUsage`): an expected figure of 0 is not checked. So when neither
figure is 0, `behaviorsMatch` returns false if and only if the duration exceeds twice
`responseTime` or the percentage exceeds 1.5 times `memoryUsage`. Values exactly at the two
limits still match: with `responseTime` 100 and `memoryUsage` 50, a duration of 200 with a
percentage of 75 matches, while 201 with 75 and 200 with 76 do not. -/
theorem behaviorsMatch_performance_iff (expected actual : JSVal) (rt mu : Int)
    (hty : expected.field "type" = .str "performance")
    (hrt : expected.field "responseTime" = .num rt)
    (hmu : expected.field "memoryUsage" = .num mu)
    (hslice : (actual.field "performance").truthy = true)
    (hbench : ((actual.field "performance").field "benchmarks").truthy = true →
      ((actual.field "performance").field "benchmarks").isArray = true)
    (hentries : ∀ b ∈ ((actual.field "performance").field "benchmarks").elements,
      b.isNullish = false) :
    (behaviorsMatch expected actual = false ↔
      (rt ≠ 0 ∧ ∃ d, localHttpDuration (actual.field "performance") = some d ∧ 2 * rt < d)
        ∨ (mu ≠ 0 ∧
            ∃ p, memoryPercentage (actual.field "performance") = some p ∧ 3 * mu < 2 * p)) ∧
    (rt ≠ 0 → mu ≠ 0 →
      (behaviorsMatch expected actual = false ↔
        (∃ d, localHttpDuration (actual.field "performance") = some d ∧ 2 * rt < d)
          ∨ ∃ p, memoryPercentage (actual.field "performance") = some p ∧ 3 * mu < 2 * p)) ∧
    (rt = 0 → mu = 0 → behaviorsMatch expected actual = true) ∧
    behaviorsMatch Scenario.performanceExpected (Scenario.performanceActual 200 75) = true ∧
    behaviorsMatch Scenario.performanceExpected (Scenario.performanceActual 201 75) = false ∧
    behaviorsMatch Scenario.performanceExpected (Scenario.performanceActual 200 76) = false := by
  have hexp := truthy_of_field_str expected "type" "performance" hty
  have hbody := behaviorsMatchBody_performance expected actual hty hslice
  rw [comparePerformanceBehavior_eq expected _ rt mu hexp hrt hmu hslice
    (fun ht => exists_of_isArray _ (hbench ht)) hentries] at hbody
  have hiff : behaviorsMatch expected actual = false ↔
      (rt ≠ 0 ∧ ∃ d, localHttpDuration (actual.field "performance") = some d ∧ 2 * rt < d)
        ∨ (mu ≠ 0 ∧
            ∃ p, memoryPercentage (actual.field "performance") = some p ∧ 3 * mu < 2 * p) := by
    rw [behaviorsMatch_of_ok expected actual _ hbody]
    cases hd : localHttpDuration (actual.field "performance") with
    | none =>
      cases hp : memoryPercentage (actual.field "performance") with
      | none => simp
      | some p => simp
    | some d =>
      cases hp : memoryPercentage (actual.field "performance") with
      | none => simp
      | some p =>
        simp only [Bool.and_eq_false_iff, Bool.or_eq_false_iff, decide_eq_false_iff_not,
          Bool.not_eq_false', decide_eq_true_eq, Option.some.injEq, exists_eq_left', ne_eq]
  refine ⟨hiff, ?_, ?_, by decide, by decide, by decide⟩
  · intro hrt0 hmu0
    rw [hiff]
    simp only [ne_eq, hrt0, hmu0, not_false_eq_true, true_and]
  · intro hrt0 hmu0
    cases hb : behaviorsMatch expected actual with
    | true => rfl
    | false =>
      rcases hiff.mp hb with h | h
      · exact absurd hrt0 h.1
      · exact absurd hmu0 h.1

/-- C16, witness: a response time of 100 and a memory usage of 50 against a snapshot with a
local-HTTP benchmark of 200 and a memory-usage percentage of 75, both exactly at the limit. -/
theorem behaviorsMatch_performance_iff_witness :
    behaviorsMatch Scenario.performanceExpected (Scenario.performanceActual 200 75) = false ↔
      ((100 : Int) ≠ 0 ∧ ∃ d,
          localHttpDuration ((Scenario.performanceActual 200 75).field "performance") = some d
            ∧ 2 * 100 < d)
        ∨ ((50 : Int) ≠ 0 ∧ ∃ p,
          memoryPercentage ((Scenario.performanceActual 200 75).field "performance") = some p
            ∧ 3 * 50 < 2 * p) :=
  (behaviorsMatch_performance_iff Scenario.performanceExpected (Scenario.performanceActual 200 75)
    100 50 rfl rfl rfl (by decide) (by decide) (by decide)).1

/-- C16, counterexample: an expected response time of 0 against a local-HTTP benchmark of 5,
and an expected memory usage of 0 against a memory-usage percentage of 75. The duration
exceeds twice the response time in the first case and the percentage exceeds 1.5 times the
memory usage in the second, and the comparison still returns true in both. -/
theorem performance_match_with_zero_expectation :
    behaviorsMatch (Scenario.performanceExpectedWith 0 50) (Scenario.performanceActual 5 75)
      = true ∧
    localHttpDuration ((Scenario.performanceActual 5 75).field "performance") = some 5 ∧
    (2 * 0 : Int) < 5 ∧
    behaviorsMatch (Scenario.performanceExpectedWith 100 0) (Scenario.performanceActual 200 75)
      = true ∧
    memoryPercentage ((Scenario.performanceActual 200 75).field "performance") = some 75 ∧
    (3 * 0 : Int) < 2 * 75 := by
  decide

/-! ### A comparison that raises -/

/-- C17. `behaviorsMatch` never raises: it returns the outcome of the comparison, and false
whenever the comparison raises an error. Such is the case of an `api` claim with a non-empty
endpoint list compared against a snapshot whose API slice has no endpoint list. A recorded
claim whose comparison with its paired snapshot raises is therefore reported by
`validateAgainstReality` as a divergence, as the claim `login` is when the only snapshot after
it has no endpoint list. -/
theorem behaviorsMatch_fail_safe :
    (∀ expected actual,
      (∃ b, behaviorsMatchBody expected actual = .ok b ∧ behaviorsMatch expected actual = b)
        ∨ ∃ e, behaviorsMatchBody expected actual = .error e
            ∧ behaviorsMatch expected actual = false) ∧
    (∀ expected actual e, behaviorsMatchBody expected actual = .error e →
      behaviorsMatch expected actual = false) ∧
    (∀ expected actual first rest,
      expected.field "type" = .str "api" →
      expected.field "endpoints" = .arr (first :: rest) →
      (actual.field "apiResponses").truthy = true →
      (actual.field "apiResponses").field "endpoints" = .undefined →
      (∃ e, compareAPIBehavior expected (actual.field "apiResponses") = .error e)
        ∧ behaviorsMatch expected actual = false) ∧
    (∀ env s c r, c ∈ s.engine.claimedBehaviors →
      findMatchingReality s.engine.actualBehaviors c = some r →
      (∃ e, behaviorsMatchBody c.expected r.toJS = .error e) →
      ∃ d ∈ (validateAgainstReality env s).1, d.claim = c ∧ d.reality = r) ∧
    ((validateAgainstReality (Scenario.calmEmergency 3000)
        (Scenario.loginClaimState [Scenario.noEndpointListReality 2000])).1.map
      fun d => (d.claim.feature, d.reality.timestamp)) = [("login", 2000)] := by
  refine ⟨?_, ?_, ?_, ?_, by decide⟩
  · intro expected actual
    cases h : behaviorsMatchBody expected actual with
    | ok b => exact Or.inl ⟨b, rfl, behaviorsMatch_of_ok expected actual b h⟩
    | error e => exact Or.inr ⟨e, rfl, behaviorsMatch_of_error expected actual e h⟩
  · intro expected actual e h
    exact behaviorsMatch_of_error expected actual e h
  · intro expected actual first rest hty hes hslice hnone
    have hexp := JSVal.truthy_of_field_str expected "type" "api" hty
    have hlist : ∀ entries, (actual.field "apiResponses").field "endpoints" ≠ .arr entries := by
      intro entries h
      rw [hnone] at h
      exact JSVal.noConfusion h
    obtain ⟨err, herr⟩ := compareAPILoop_no_list _ first rest hslice hlist
    have hcmp : compareAPIBehavior expected (actual.field "apiResponses") = .error err := by
      rw [compareAPIBehavior_of_list expected _ _ hexp hes, herr]
    refine ⟨⟨err, hcmp⟩, ?_⟩
    apply behaviorsMatch_of_error expected actual err
    rw [behaviorsMatchBody_api expected actual hty hslice, hcmp]
  · intro env s c r hc hfind herr
    obtain ⟨e, he⟩ := herr
    have hbm := behaviorsMatch_of_error _ _ e he
    obtain ⟨n, hn⟩ := List.mem_iff_getElem?.mp hc
    have hmem : (n, c) ∈ s.engine.claimedBehaviors.enum := List.mk_mem_enum_iff_getElem?.mpr hn
    refine ⟨{ claim := c, reality := r,
              severity := assessSeverity (env.assessmentClock n) c.toJS r.toJS }, ?_, rfl, rfl⟩
    rw [validateAgainstReality_fst, collectDivergences_eq_filterMap, List.mem_filterMap]
    refine ⟨(n, c), hmem, ?_⟩
    simp [divergenceOf, hfind, hbm]

/-! ## Repeated claim validation -/

theorem updateFailureMemory_engine (env : EmergencyEnv) (ds : List Divergence) (s : State) :
    (updateFailureMemory env ds s).engine = s.engine := by
  unfold updateFailureMemory
  cases s.files.failureMemory with
  | none => rfl
  | some m => cases env.memoryWrite <;> rfl

theorem triggerEmergencyProtocol_lists (env : EmergencyEnv) (s : State) :
    (triggerEmergencyProtocol env s).engine.claimedBehaviors = s.engine.claimedBehaviors ∧
    (triggerEmergencyProtocol env s).engine.actualBehaviors = s.engine.actualBehaviors := by
  unfold triggerEmergencyProtocol
  cases env.logWrite with
  | error e => exact ⟨rfl, rfl⟩
  | ok u =>
    cases env.backup <;> cases env.script <;> cases hs : s.files.emergencyScript <;>
      simp [hs]

theorem validateAgainstReality_lists (env : EmergencyEnv) (s : State) :
    (validateAgainstReality env s).2.engine.claimedBehaviors = s.engine.claimedBehaviors ∧
    (validateAgainstReality env s).2.engine.actualBehaviors = s.engine.actualBehaviors := by
  unfold validateAgainstReality
  dsimp only
  split
  · simp only [handleCatastrophicFailure]
    obtain ⟨h1, h2⟩ := triggerEmergencyProtocol_lists env
      (updateFailureMemory env
        (collectDivergences env.assessmentClock s.engine.actualBehaviors 0
          s.engine.claimedBehaviors)
        { s with console := s.console ++ ["CATASTROPHIC FAILURE DETECTED"] })
    rw [updateFailureMemory_engine] at h1 h2
    exact ⟨h1, h2⟩
  · exact ⟨rfl, rfl⟩

theorem assessSeverity_content (now now' : Int) (claim reality : JSVal) :
    (assessSeverity now claim reality).content = (assessSeverity now' claim reality).content := by
  unfold assessSeverity
  cases severityFactors claim reality <;> rfl

/-- Whatever does not look at the instants of the assessments is the same for two passes over
the same claims and snapshots. -/
theorem collectDivergences_map_congr {β : Type} (f : Divergence → β)
    (hf : ∀ (now now' : Int) (c : Claim) (r : Reality),
      f { claim := c, reality := r, severity := assessSeverity now c.toJS r.toJS }
        = f { claim := c, reality := r, severity := assessSeverity now' c.toJS r.toJS })
    (clock clock' : Nat → Int) (snaps : List Reality) (i : Nat) (claims : List Claim) :
    (collectDivergences clock snaps i claims).map f
      = (collectDivergences clock' snaps i claims).map f := by
  induction claims generalizing i with
  | nil => rfl
  | cons c rest ih =>
    have hhead : (divergenceOf (clock i) snaps c).toList.map f
        = (divergenceOf (clock' i) snaps c).toList.map f := by
      unfold divergenceOf
      cases findMatchingReality snaps c with
      | none => rfl
      | some r =>
        cases hb : behaviorsMatch c.expected r.toJS with
        | true => simp [hb]
        | false =>
          simp only [hb, Bool.false_eq_true, if_false, Option.toList, List.map_cons,
            List.map_nil]
          rw [hf (clock i) (clock' i) c r]
    rw [collectDivergences_cons, collectDivergences_cons, List.map_append, List.map_append,
      hhead, ih (i + 1)]

/-- C18, as the code has it. Calling `validateAgainstReality` twice with no claim or snapshot
recorded in between leaves the claim list and the snapshot list as they were and returns two
divergence lists that agree on everything except the instants of the assessments: the same
claims, the same paired snapshots and, for each, the same level, score and factors. Each
assessment carries the clock reading of its own call, so the two lists are equal outright only
if the clock readings agree. -/
theorem validateAgainstReality_repeatable (env env' : EmergencyEnv) (s : State) :
    ((validateAgainstReality env s).2.engine.claimedBehaviors = s.engine.claimedBehaviors ∧
      (validateAgainstReality env s).2.engine.actualBehaviors = s.engine.actualBehaviors) ∧
    ((validateAgainstReality env' (validateAgainstReality env s).2).2.engine.claimedBehaviors
        = s.engine.claimedBehaviors ∧
      (validateAgainstReality env' (validateAgainstReality env s).2).2.engine.actualBehaviors
        = s.engine.actualBehaviors) ∧
    ((validateAgainstReality env' (validateAgainstReality env s).2).1.map fun d => d.claim)
      = ((validateAgainstReality env s).1.map fun d => d.claim) ∧
    ((validateAgainstReality env' (validateAgainstReality env s).2).1.map fun d => d.reality)
      = ((validateAgainstReality env s).1.map fun d => d.reality) ∧
    ((validateAgainstReality env' (validateAgainstReality env s).2).1.map
        fun d => d.severity.content)
      = ((validateAgainstReality env s).1.map fun d => d.severity.content) ∧
    (env'.assessmentClock = env.assessmentClock →
      (validateAgainstReality env' (validateAgainstReality env s).2).1
        = (validateAgainstReality env s).1) := by
  obtain ⟨h1, h2⟩ := validateAgainstReality_lists env s
  obtain ⟨h3, h4⟩ := validateAgainstReality_lists env' (validateAgainstReality env s).2
  have hsecond : (validateAgainstReality env' (validateAgainstReality env s).2).1
      = collectDivergences env'.assessmentClock s.engine.actualBehaviors 0
          s.engine.claimedBehaviors := by
    rw [validateAgainstReality_fst, h1, h2]
  have hfirst := validateAgainstReality_fst env s
  refine ⟨⟨h1, h2⟩, ⟨h3.trans h1, h4.trans h2⟩, ?_, ?_, ?_, ?_⟩
  · rw [hsecond, hfirst]
    exact collectDivergences_map_congr (fun d => d.claim) (fun _ _ _ _ => rfl) _ _ _ _ _
  · rw [hsecond, hfirst]
    exact collectDivergences_map_congr (fun d => d.reality) (fun _ _ _ _ => rfl) _ _ _ _ _
  · rw [hsecond, hfirst]
    exact collectDivergences_map_congr (fun d => d.severity.content)
      (fun now now' c r => assessSeverity_content now now' c.toJS r.toJS) _ _ _ _ _
  · intro hclock
    rw [hsecond, hfirst, hclock]

/-- C18, counterexample: a validator holding the claim `login` and one later snapshot that
reports the endpoint at status 500. The first call, made at instant 3000, and the second call,
made at instant 4000 with nothing recorded in between, each return one divergence, but the two
assessments carry different instants, so the two lists are not equal. -/
theorem repeated_validation_lists_differ :
    ((validateAgainstReality (Scenario.calmEmergency 3000)
        (Scenario.loginClaimState [Scenario.loginReality 2000 500])).1.map
      fun d => d.severity.timestamp) = [3000] ∧
    ((validateAgainstReality (Scenario.calmEmergency 4000)
        (validateAgainstReality (Scenario.calmEmergency 3000)
          (Scenario.loginClaimState [Scenario.loginReality 2000 500])).2).1.map
      fun d => d.severity.timestamp) = [4000] ∧
    (validateAgainstReality (Scenario.calmEmergency 4000)
        (validateAgainstReality (Scenario.calmEmergency 3000)
          (Scenario.loginClaimState [Scenario.loginReality 2000 500])).2).1
      ≠ (validateAgainstReality (Scenario.calmEmergency 3000)
        (Scenario.loginClaimState [Scenario.loginReality 2000 500])).1 := by
  have h1 : ((validateAgainstReality (Scenario.calmEmergency 3000)
        (Scenario.loginClaimState [Scenario.loginReality 2000 500])).1.map
      fun d => d.severity.timestamp) = [3000] := by decide
  have h2 : ((validateAgainstReality (Scenario.calmEmergency 4000)
        (validateAgainstReality (Scenario.calmEmergency 3000)
          (Scenario.loginClaimState [Scenario.loginReality 2000 500])).2).1.map
      fun d => d.severity.timestamp) = [4000] := by decide
  refine ⟨h1, h2, ?_⟩
  intro heq
  rw [heq, h1] at h2
  exact absurd h2 (by decide)

/-! ## The earliest later snapshot -/

/-- C19. For every claim recorded at time T and every snapshot list whose timestamps are in
chronological (non-decreasing) order, the snapshot that `findMatchingReality` pairs with the
claim is in the list, has a timestamp strictly greater than T and is the earliest such
snapshot: no snapshot in the list has a timestamp strictly greater than T and strictly smaller
than the paired snapshot's. The same holds of the claim and the snapshot of every divergence
that `validateAgainstReality` reports. -/
theorem validateAgainstReality_pairs_earliest_later (env : EmergencyEnv) (s : State)
    (hsorted : s.engine.actualBehaviors.Pairwise fun a b => a.timestamp ≤ b.timestamp) :
    (∀ c r, findMatchingReality s.engine.actualBehaviors c = some r →
      r ∈ s.engine.actualBehaviors ∧ c.timestamp < r.timestamp ∧
      ∀ x ∈ s.engine.actualBehaviors,
        ¬ (c.timestamp < x.timestamp ∧ x.timestamp < r.timestamp)) ∧
    (∀ d ∈ (validateAgainstReality env s).1,
      findMatchingReality s.engine.actualBehaviors d.claim = some d.reality ∧
      d.reality ∈ s.engine.actualBehaviors ∧ d.claim.timestamp < d.reality.timestamp ∧
      ∀ x ∈ s.engine.actualBehaviors,
        ¬ (d.claim.timestamp < x.timestamp ∧ x.timestamp < d.reality.timestamp)) := by
  have hfind : ∀ c r, findMatchingReality s.engine.actualBehaviors c = some r →
      r ∈ s.engine.actualBehaviors ∧ c.timestamp < r.timestamp ∧
      ∀ x ∈ s.engine.actualBehaviors,
        ¬ (c.timestamp < x.timestamp ∧ x.timestamp < r.timestamp) := by
    intro c r h
    obtain ⟨before, after, hsplit, hlt, hbefore⟩ := findMatchingReality_some_split _ _ _ h
    rw [hsplit] at hsorted ⊢
    refine ⟨by simp, hlt, ?_⟩
    intro x hx hcon
    rw [List.pairwise_append] at hsorted
    obtain ⟨_, hra, _⟩ := hsorted
    rw [List.pairwise_cons] at hra
    rcases List.mem_append.mp hx with hb | hr
    · have := hbefore x hb
      omega
    · rcases List.mem_cons.mp hr with rfl | ha
      · omega
      · have := hra.1 x ha
        omega
  refine ⟨hfind, ?_⟩
  intro d hd
  rw [validateAgainstReality_fst, collectDivergences_eq_filterMap, List.mem_filterMap] at hd
  obtain ⟨p, _, hdc⟩ := hd
  obtain ⟨h1, h2, _, _⟩ := divergenceOf_some _ _ p.2 d hdc
  rw [← h1] at h2
  obtain ⟨hm, hlt, hmin⟩ := hfind d.claim d.reality h2
  exact ⟨h2, hm, hlt, hmin⟩

/-- C19, witness: the claim `login`, recorded at instant 1000, with snapshots taken at the
instants 500, 2000 and 3000. -/
theorem validateAgainstReality_pairs_earliest_later_witness :
    (∀ c r, findMatchingReality (Scenario.loginClaimState [Scenario.loginReality 500 200,
          Scenario.loginReality 2000 500, Scenario.loginReality 3000 200]).engine.actualBehaviors
        c = some r →
      r ∈ (Scenario.loginClaimState [Scenario.loginReality 500 200,
          Scenario.loginReality 2000 500, Scenario.loginReality 3000 200]).engine.actualBehaviors
      ∧ c.timestamp < r.timestamp ∧
      ∀ x ∈ (Scenario.loginClaimState [Scenario.loginReality 500 200,
          Scenario.loginReality 2000 500, Scenario.loginReality 3000 200]).engine.actualBehaviors,
        ¬ (c.timestamp < x.timestamp ∧ x.timestamp < r.timestamp)) ∧
    (∀ d ∈ (validateAgainstReality (Scenario.calmEmergency 4000)
        (Scenario.loginClaimState [Scenario.loginReality 500 200,
          Scenario.loginReality 2000 500, Scenario.loginReality 3000 200])).1,
      findMatchingReality (Scenario.loginClaimState [Scenario.loginReality 500 200,
          Scenario.loginReality 2000 500, Scenario.loginReality 3000 200]).engine.actualBehaviors
        d.claim = some d.reality ∧
      d.reality ∈ (Scenario.loginClaimState [Scenario.loginReality 500 200,
          Scenario.loginReality 2000 500, Scenario.loginReality 3000 200]).engine.actualBehaviors
      ∧ d.claim.timestamp < d.reality.timestamp ∧
      ∀ x ∈ (Scenario.loginClaimState [Scenario.loginReality 500 200,
          Scenario.loginReality 2000 500, Scenario.loginReality 3000 200]).engine.actualBehaviors,
        ¬ (d.claim.timestamp < x.timestamp ∧ x.timestamp < d.reality.timestamp)) :=
  validateAgainstReality_pairs_earliest_later (Scenario.calmEmergency 4000)
    (Scenario.loginClaimState [Scenario.loginReality 500 200, Scenario.loginReality 2000 500,
      Scenario.loginReality 3000 200]) (by decide)

/-! ## Errors inside a comprehensive run -/

theorem finishValidation_write_failure (env : RunEnv) (evidence : Evidence)
    (score maxScore : Nat) (s : State) (message : String)
    (hpass : (finishValidation { env with tokenWrite := .ok () } evidence score maxScore s).1.passed
      = true)
    (hwrite : env.tokenWrite = .error message) :
    (finishValidation env evidence score maxScore s).1
      = .internalError env.errorTime message := by
  unfold finishValidation at hpass ⊢
  dsimp only at hpass ⊢
  have hsame : scoredValidation { env with tokenWrite := .ok () } evidence score maxScore
      (validateAgainstReality env.emergency s).1 (validateAgainstReality env.emergency s).2.engine
      = scoredValidation env evidence score maxScore
      (validateAgainstReality env.emergency s).1
        (validateAgainstReality env.emergency s).2.engine := rfl
  rw [hsame] at hpass
  cases hp : (decidedValidation (scoredValidation env evidence score maxScore
      (validateAgainstReality env.emergency s).1
      (validateAgainstReality env.emergency s).2.engine)).passed with
  | false =>
    rw [hp] at hpass
    simp only [Bool.false_eq_true, if_false, RunResult.passed] at hpass
    rw [hp] at hpass
    exact Bool.noConfusion hpass
  | true =>
    simp [hwrite, createValidationToken]

/-- C20. `performComprehensiveValidation` always returns a structured result and never raises:
the result is either the validation object or the error record, and the error record has
`passed = false`, `score = 0` and the message of the error. An error raised by the security
source, by the UI evidence source, by the test runner (when a test suite is requested) or by
the token write ends the run with the error record carrying that error's message. In
particular a run whose token write fails never has `passed = true`, even when the gate
decision is pass, that is, when the same run with a token write that succeeds passes: the run
on a fresh validator with every security point earned passes when the token can be written and
has `passed = false` when the write is refused. -/
theorem performComprehensiveValidation_never_raises (env : RunEnv) (options : Options)
    (s : State) :
    ((∃ v, (performComprehensiveValidation env options s).1 = .completed v) ∨
      ∃ message, (performComprehensiveValidation env options s).1
        = .internalError env.errorTime message) ∧
    (∀ t message, (RunResult.internalError t message).passed = false ∧
      (RunResult.internalError t message).score = 0) ∧
    (∀ message, env.security = .error message →
      (performComprehensiveValidation env options s).1
        = .internalError env.errorTime message) ∧
    (∀ sec message, env.security = .ok sec → env.ui = .error message →
      (performComprehensiveValidation env options s).1
        = .internalError env.errorTime message) ∧
    (∀ sec ui message, env.security = .ok sec → env.ui = .ok ui → options.runTests = true →
      env.tests = .error message →
      (performComprehensiveValidation env options s).1
        = .internalError env.errorTime message) ∧
    (∀ message, env.tokenWrite = .error message →
      (performComprehensiveValidation env options s).1.passed = false) ∧
    (∀ message, env.tokenWrite = .error message →
      (performComprehensiveValidation { env with tokenWrite := .ok () } options s).1.passed
        = true →
      (performComprehensiveValidation env options s).1
        = .internalError env.errorTime message) ∧
    (performComprehensiveValidation (Scenario.runEnv 5000 Scenario.fullSecurity true)
      { runTests := false } Scenario.freshState).1.passed = true ∧
    (performComprehensiveValidation
      { Scenario.runEnv 5000 Scenario.fullSecurity true with
        tokenWrite := .error "EACCES: permission denied" }
      { runTests := false } Scenario.freshState).1.passed = false := by
  refine ⟨?_, fun _ _ => ⟨rfl, rfl⟩, ?_, ?_, ?_, ?_, ?_, by decide, by decide⟩
  · rcases performComprehensiveValidation_cases env options s with ⟨m, hm⟩ | h
    · exact Or.inr ⟨m, by rw [hm]⟩
    · obtain ⟨sec, ui, evidence, _, _, _, _, _, _, hrun⟩ := h
      obtain ⟨v, _, hcase⟩ := finishValidation_result env evidence
        (sec.score.getD 0 + testPoints options env.tests)
        (sec.maxScore.getD 0 + (if options.runTests then 20 else 0))
        (stateAtClaimValidation env s)
      rw [hrun]
      rcases hcase with ⟨_, h1⟩ | ⟨_, _, h2, _⟩ | ⟨_, m, _, h3⟩
      · exact Or.inl ⟨v, by rw [h1]⟩
      · exact Or.inl ⟨v, h2⟩
      · exact Or.inr ⟨m, by rw [h3]⟩
  · intro message hsec
    unfold performComprehensiveValidation
    dsimp only
    rw [hsec]
  · intro sec message hsec hui
    unfold performComprehensiveValidation
    dsimp only
    rw [hsec, hui]
  · intro sec ui message hsec hui hrt htests
    unfold performComprehensiveValidation
    dsimp only
    rw [hsec, hui, htests]
    simp [hrt]
  · intro message hwrite
    rcases performComprehensiveValidation_cases env options s with ⟨m, hm⟩ | h
    · rw [hm]
      rfl
    · obtain ⟨sec, ui, evidence, _, _, _, _, _, _, hrun⟩ := h
      obtain ⟨v, _, hcase⟩ := finishValidation_result env evidence
        (sec.score.getD 0 + testPoints options env.tests)
        (sec.maxScore.getD 0 + (if options.runTests then 20 else 0))
        (stateAtClaimValidation env s)
      rw [hrun]
      rcases hcase with ⟨hp, h1⟩ | ⟨_, hok, _, _⟩ | ⟨_, m, _, h3⟩
      · rw [h1]
        exact hp
      · rw [hwrite] at hok
        exact Except.noConfusion hok
      · rw [h3]
        rfl
  · intro message hwrite hpass
    unfold performComprehensiveValidation at hpass ⊢
    dsimp only at hpass ⊢
    cases hsec : env.security with
    | error e =>
      rw [hsec] at hpass
      exact Bool.noConfusion hpass
    | ok sec =>
      rw [hsec] at hpass
      cases hui : env.ui with
      | error e =>
        rw [hui] at hpass
        exact Bool.noConfusion hpass
      | ok ui =>
        rw [hui] at hpass
        dsimp only at hpass ⊢
        cases hrt : options.runTests with
        | false =>
          rw [hrt] at hpass
          simp only [Bool.false_eq_true, if_false] at hpass ⊢
          exact finishValidation_write_failure env _ _ _ _ message hpass hwrite
        | true =>
          rw [hrt] at hpass
          simp only [if_true] at hpass ⊢
          cases htests : env.tests with
          | error e =>
            rw [htests] at hpass
            exact Bool.noConfusion hpass
          | ok t =>
            rw [htests] at hpass
            exact finishValidation_write_failure env _ _ _ _ message hpass hwrite

/-! ## The emergency handler -/

theorem updateFailureMemory_console (env : EmergencyEnv) (ds : List Divergence) (s : State) :
    s.console <+: (updateFailureMemory env ds s).console := by
  unfold updateFailureMemory
  cases s.files.failureMemory with
  | none => exact List.prefix_append _ _
  | some m => cases env.memoryWrite <;> exact List.prefix_append _ _

theorem triggerEmergencyProtocol_console (env : EmergencyEnv) (s : State) :
    s.console ++ ["Triggering emergency protocol..."]
      <+: (triggerEmergencyProtocol env s).console := by
  unfold triggerEmergencyProtocol
  cases env.logWrite with
  | error e => exact List.prefix_append _ _
  | ok u =>
    cases env.backup <;> cases env.script <;> cases hs : s.files.emergencyScript <;>
      simp [hs, List.append_assoc]

theorem handleCatastrophicFailure_console (env : EmergencyEnv) (ds : List Divergence)
    (s : State) :
    s.console ++ ["CATASTROPHIC FAILURE DETECTED"]
      <+: (handleCatastrophicFailure env ds s).console := by
  unfold handleCatastrophicFailure
  dsimp only
  have h1 := updateFailureMemory_console env ds
    { s with console := s.console ++ ["CATASTROPHIC FAILURE DETECTED"] }
  have h2 := triggerEmergencyProtocol_console env (updateFailureMemory env ds
    { s with console := s.console ++ ["CATASTROPHIC FAILURE DETECTED"] })
  exact h1.trans ((List.prefix_append _ _).trans h2)

/-- C21. Method `validateAgainstReality` invokes the emergency handler, which is the
failure-memory update followed by the emergency protocol, if and only if the divergence list it
computed is non-empty: with a non-empty list the state it leaves is the one the handler
produces (and the handler's announcement is printed), with an empty list the state is left as
it was. In particular, with no claims recorded it returns the empty list, the handler is not
invoked and the engine, its active flag included, is unchanged. -/
theorem validateAgainstReality_emergency_iff (env : EmergencyEnv) (s : State) :
    ((validateAgainstReality env s).1 ≠ [] →
      (validateAgainstReality env s).2
        = handleCatastrophicFailure env (validateAgainstReality env s).1 s) ∧
    (∀ ds, handleCatastrophicFailure env ds s
        = triggerEmergencyProtocol env (updateFailureMemory env ds
            { s with console := s.console ++ ["CATASTROPHIC FAILURE DETECTED"] })) ∧
    ((validateAgainstReality env s).1 = [] → (validateAgainstReality env s).2 = s) ∧
    ("CATASTROPHIC FAILURE DETECTED"
        ∈ (validateAgainstReality env s).2.console.drop s.console.length
      ↔ (validateAgainstReality env s).1 ≠ []) ∧
    (s.engine.claimedBehaviors = [] →
      validateAgainstReality env s = ([], s) ∧
      (validateAgainstReality env s).2.engine.validationActive
        = s.engine.validationActive) := by
  have hnonempty : (validateAgainstReality env s).1 ≠ [] →
      (validateAgainstReality env s).2
        = handleCatastrophicFailure env (validateAgainstReality env s).1 s := by
    intro hne
    have hlen : (collectDivergences env.assessmentClock s.engine.actualBehaviors 0
        s.engine.claimedBehaviors).length > 0 := by
      rw [validateAgainstReality_fst] at hne
      exact List.length_pos.mpr hne
    unfold validateAgainstReality
    simp only [hlen, if_true]
  have hempty : (validateAgainstReality env s).1 = [] → (validateAgainstReality env s).2 = s := by
    intro he
    have hlen : ¬ (collectDivergences env.assessmentClock s.engine.actualBehaviors 0
        s.engine.claimedBehaviors).length > 0 := by
      rw [validateAgainstReality_fst] at he
      rw [he]
      simp
    unfold validateAgainstReality
    simp only [hlen, if_false]
  refine ⟨hnonempty, fun _ => rfl, hempty, ?_, ?_⟩
  · constructor
    · intro hmem hnil
      rw [hempty hnil] at hmem
      simp at hmem
    · intro hne
      rw [hnonempty hne]
      obtain ⟨t, ht⟩ := handleCatastrophicFailure_console env (validateAgainstReality env s).1 s
      rw [← ht, List.append_assoc, List.drop_left]
      simp
  · intro hclaims
    have hpair : validateAgainstReality env s = ([], s) := by
      unfold validateAgainstReality
      rw [hclaims]
      rfl
    exact ⟨hpair, by rw [hpair]⟩

/-! ## A failing incident log -/

theorem triggerEmergencyProtocol_log_failure (env : EmergencyEnv) (s : State) (message : String)
    (hlog : env.logWrite = .error message) :
    triggerEmergencyProtocol env s
      = { s with console := s.console ++ ["Triggering emergency protocol..."]
          ++ ["Emergency protocol itself failed:",
              "System may be in critical state - immediate manual intervention required"] } := by
  unfold triggerEmergencyProtocol
  rw [hlog]

theorem scoredValidation_congr (env env' : RunEnv) (evidence : Evidence) (score maxScore : Nat)
    (ds : List Divergence) (engine engine' : Engine) (hstart : env.startTime = env'.startTime)
    (hclaims : engine.claimedBehaviors = engine'.claimedBehaviors)
    (hsnaps : engine.actualBehaviors = engine'.actualBehaviors) :
    scoredValidation env evidence score maxScore ds engine
      = scoredValidation env' evidence score maxScore ds engine' := by
  unfold scoredValidation
  rw [hstart, hclaims, hsnaps]

/-- The result of steps 5 to 9 does not depend on what the emergency handler managed to
write. -/
theorem finishValidation_result_congr (env env' : RunEnv) (evidence : Evidence)
    (score maxScore : Nat) (s : State) (hstart : env.startTime = env'.startTime)
    (htime : env.tokenTime = env'.tokenTime) (hwrite : env.tokenWrite = env'.tokenWrite)
    (herr : env.errorTime = env'.errorTime)
    (hclock : env.emergency.assessmentClock = env'.emergency.assessmentClock) :
    (finishValidation env evidence score maxScore s).1
      = (finishValidation env' evidence score maxScore s).1 := by
  obtain ⟨h1, h2⟩ := validateAgainstReality_lists env.emergency s
  obtain ⟨h3, h4⟩ := validateAgainstReality_lists env'.emergency s
  have hds : (validateAgainstReality env.emergency s).1
      = (validateAgainstReality env'.emergency s).1 := by
    rw [validateAgainstReality_fst, validateAgainstReality_fst, hclock]
  have hv : scoredValidation env evidence score maxScore
        (validateAgainstReality env.emergency s).1 (validateAgainstReality env.emergency s).2.engine
      = scoredValidation env' evidence score maxScore
        (validateAgainstReality env'.emergency s).1
        (validateAgainstReality env'.emergency s).2.engine := by
    rw [hds]
    exact scoredValidation_congr env env' evidence score maxScore _ _ _ hstart
      (h1.trans h3.symm) (h2.trans h4.symm)
  unfold finishValidation
  dsimp only
  rw [hv, htime, hwrite, herr]
  split
  · cases env'.tokenWrite <;> rfl
  · rfl

/-- C22, as the code has it. If writing the incident log fails, the emergency protocol reports
it on the console (`Emergency protocol itself failed`, `System may be in critical state -
immediate manual intervention required`) and ends there, without a backup, without the
emergency script or the fallback, and leaving the engine and the files as they were. The call
that triggered the protocol completes normally: `validateAgainstReality` returns the same
divergence list as with a log that can be written, and a comprehensive run in which this
happens returns the same result as the run with a log that can be written. -/
theorem emergency_log_failure_is_reported (env : RunEnv) (message : String)
    (hlog : env.emergency.logWrite = .error message) :
    (∀ s, triggerEmergencyProtocol env.emergency s
      = { s with console := s.console ++ ["Triggering emergency protocol..."]
          ++ ["Emergency protocol itself failed:",
              "System may be in critical state - immediate manual intervention required"] }) ∧
    (∀ s, (triggerEmergencyProtocol env.emergency s).engine = s.engine ∧
      (triggerEmergencyProtocol env.emergency s).files = s.files) ∧
    (∀ s, (validateAgainstReality env.emergency s).1
      = (validateAgainstReality { env.emergency with logWrite := .ok () } s).1) ∧
    (∀ options s, (performComprehensiveValidation env options s).1
      = (performComprehensiveValidation
          { env with emergency := { env.emergency with logWrite := .ok () } } options s).1) := by
  refine ⟨fun s => triggerEmergencyProtocol_log_failure _ s message hlog, ?_, ?_, ?_⟩
  · intro s
    rw [triggerEmergencyProtocol_log_failure _ s message hlog]
    exact ⟨rfl, rfl⟩
  · intro s
    rw [validateAgainstReality_fst, validateAgainstReality_fst]
  · intro options s
    unfold performComprehensiveValidation
    dsimp only
    cases env.security with
    | error e => rfl
    | ok sec =>
      dsimp only
      cases env.ui with
      | error e => rfl
      | ok ui =>
        dsimp only
        cases options.runTests with
        | false =>
          simp only [Bool.false_eq_true, if_false]
          exact finishValidation_result_congr _ _ _ _ _ _ rfl rfl rfl rfl rfl
        | true =>
          simp only [if_true]
          cases env.tests with
          | error e => rfl
          | ok t => exact finishValidation_result_congr _ _ _ _ _ _ rfl rfl rfl rfl rfl

/-- C22, witness: the run around a healthy system whose incident log cannot be written. -/
theorem emergency_log_failure_is_reported_witness :
    (∀ s, triggerEmergencyProtocol (Scenario.failedLogEnv 5000 Scenario.fullSecurity).emergency s
      = { s with console := s.console ++ ["Triggering emergency protocol..."]
          ++ ["Emergency protocol itself failed:",
              "System may be in critical state - immediate manual intervention required"] }) ∧
    (∀ s, (triggerEmergencyProtocol
        (Scenario.failedLogEnv 5000 Scenario.fullSecurity).emergency s).engine = s.engine ∧
      (triggerEmergencyProtocol
        (Scenario.failedLogEnv 5000 Scenario.fullSecurity).emergency s).files = s.files) ∧
    (∀ s, (validateAgainstReality (Scenario.failedLogEnv 5000 Scenario.fullSecurity).emergency s).1
      = (validateAgainstReality
          { (Scenario.failedLogEnv 5000 Scenario.fullSecurity).emergency with
            logWrite := .ok () } s).1) ∧
    (∀ options s,
      (performComprehensiveValidation (Scenario.failedLogEnv 5000 Scenario.fullSecurity)
        options s).1
      = (performComprehensiveValidation
          { Scenario.failedLogEnv 5000 Scenario.fullSecurity with
            emergency := { (Scenario.failedLogEnv 5000 Scenario.fullSecurity).emergency with
              logWrite := .ok () } } options s).1) :=
  emergency_log_failure_is_reported (Scenario.failedLogEnv 5000 Scenario.fullSecurity)
    "EACCES: permission denied" rfl

/-- C22, counterexample: a validator holding one `ui` claim that the captured snapshot does not
match, every security point earned, and an incident log that cannot be written. The emergency
protocol fires and reports that it failed, no incident log is left, and the run still
completes with `passed = true`, writes the token and yields the exit status 0. -/
theorem passing_run_with_failed_emergency_log :
    (validateAgainstReality (Scenario.failedLogEnv 5000 Scenario.fullSecurity).emergency
      (stateAtClaimValidation (Scenario.failedLogEnv 5000 Scenario.fullSecurity)
        Scenario.uiClaimState)).1.length = 1 ∧
    "Emergency protocol itself failed:"
      ∈ (performComprehensiveValidation (Scenario.failedLogEnv 5000 Scenario.fullSecurity)
        { runTests := false } Scenario.uiClaimState).2.console ∧
    (performComprehensiveValidation (Scenario.failedLogEnv 5000 Scenario.fullSecurity)
      { runTests := false } Scenario.uiClaimState).2.files.emergencyLog.isSome = false ∧
    (performComprehensiveValidation (Scenario.failedLogEnv 5000 Scenario.fullSecurity)
      { runTests := false } Scenario.uiClaimState).1.passed = true ∧
    (performComprehensiveValidation (Scenario.failedLogEnv 5000 Scenario.fullSecurity)
      { runTests := false } Scenario.uiClaimState).2.files.token.isSome = true ∧
    exitCode (performComprehensiveValidation (Scenario.failedLogEnv 5000 Scenario.fullSecurity)
      { runTests := false } Scenario.uiClaimState).1 = 0 := by
  decide

/-! ## Recording claims and capturing snapshots -/

/-- C23. If an evidence source raises during `captureReality` on an active engine, the capture
still completes: it appends and returns one snapshot in which every source that returned has
its data and the failing source has the degraded record of its `catch` block, which names the
error: `{status: 'error', endpoints: [], error}` for API health, an `errors` list with one
`validation_error` entry for the UI state, an `inconsistencies` list with one
`validation_error` entry for the database state, and `{system, application, benchmarks,
error}` for performance. -/
theorem captureReality_degrades_failing_source (env : CaptureEnv) (e : Engine)
    (hactive : e.validationActive = true) :
    ∃ reality,
      captureReality env e
        = (some reality, { e with actualBehaviors := e.actualBehaviors ++ [reality] }) ∧
      reality.timestamp = env.now ∧
      (∀ v, env.apiProbe = .ok v → reality.apiResponses = v) ∧
      (∀ v, env.uiProbe = .ok v → reality.uiElements = v) ∧
      (∀ v, env.databaseProbe = .ok v → reality.databaseState = v) ∧
      (∀ v, env.performanceProbe = .ok v → reality.performance = v) ∧
      (∀ message, env.apiProbe = .error message →
        reality.apiResponses
          = .obj [("status", .str "error"), ("endpoints", .arr []), ("error", .str message),
              ("timestamp", .str (toISOString env.now))]) ∧
      (∀ message, env.uiProbe = .error message →
        reality.uiElements
          = .obj [("elements", .arr []),
              ("errors", .arr [.obj [("type", .str "validation_error"),
                ("message", .str message)]]),
              ("screenshots", .arr []), ("timestamp", .str (toISOString env.now))]) ∧
      (∀ message, env.databaseProbe = .error message →
        reality.databaseState
          = .obj [("databases", .arr []), ("tables", .arr []),
              ("inconsistencies", .arr [.obj [("type", .str "validation_error"),
                ("error", .str message)]]),
              ("connections", .arr []), ("timestamp", .str (toISOString env.now))]) ∧
      (∀ message, env.performanceProbe = .error message →
        reality.performance
          = .obj [("system", .obj []), ("application", .obj []), ("benchmarks", .arr []),
              ("error", .str message), ("timestamp", .str (toISOString env.now))]) := by
  refine ⟨{ timestamp := env.now, apiResponses := checkAPIHealth env,
            uiElements := verifyUIState env, databaseState := queryDatabase env,
            performance := measurePerformance env }, ?_, rfl, ?_, ?_, ?_, ?_, ?_, ?_, ?_, ?_⟩
  · unfold captureReality
    simp [hactive]
  · intro v h
    simp [checkAPIHealth, h]
  · intro v h
    simp [verifyUIState, h]
  · intro v h
    simp [queryDatabase, h]
  · intro v h
    simp [measurePerformance, h]
  · intro m h
    simp [checkAPIHealth, h]
  · intro m h
    simp [verifyUIState, h]
  · intro m h
    simp [queryDatabase, h]
  · intro m h
    simp [measurePerformance, h]

/-- C23, witness: a capture on a freshly activated validator in which the database source
raises and the other three sources report a healthy system. -/
theorem captureReality_degrades_failing_source_witness :
    ∃ reality,
      captureReality Scenario.databaseFailureCapture (startValidation Engine.new)
        = (some reality, { startValidation Engine.new with
            actualBehaviors := (startValidation Engine.new).actualBehaviors ++ [reality] }) ∧
      reality.timestamp = Scenario.databaseFailureCapture.now ∧
      (∀ v, Scenario.databaseFailureCapture.apiProbe = .ok v → reality.apiResponses = v) ∧
      (∀ v, Scenario.databaseFailureCapture.uiProbe = .ok v → reality.uiElements = v) ∧
      (∀ v, Scenario.databaseFailureCapture.databaseProbe = .ok v →
        reality.databaseState = v) ∧
      (∀ v, Scenario.databaseFailureCapture.performanceProbe = .ok v →
        reality.performance = v) ∧
      (∀ message, Scenario.databaseFailureCapture.apiProbe = .error message →
        reality.apiResponses
          = .obj [("status", .str "error"), ("endpoints", .arr []), ("error", .str message),
              ("timestamp", .str (toISOString Scenario.databaseFailureCapture.now))]) ∧
      (∀ message, Scenario.databaseFailureCapture.uiProbe = .error message →
        reality.uiElements
          = .obj [("elements", .arr []),
              ("errors", .arr [.obj [("type", .str "validation_error"),
                ("message", .str message)]]),
              ("screenshots", .arr []),
              ("timestamp", .str (toISOString Scenario.databaseFailureCapture.now))]) ∧
      (∀ message, Scenario.databaseFailureCapture.databaseProbe = .error message →
        reality.databaseState
          = .obj [("databases", .arr []), ("tables", .arr []),
              ("inconsistencies", .arr [.obj [("type", .str "validation_error"),
                ("error", .str message)]]),
              ("connections", .arr []),
              ("timestamp", .str (toISOString Scenario.databaseFailureCapture.now))]) ∧
      (∀ message, Scenario.databaseFailureCapture.performanceProbe = .error message →
        reality.performance
          = .obj [("system", .obj []), ("application", .obj []), ("benchmarks", .arr []),
              ("error", .str message),
              ("timestamp", .str (toISOString Scenario.databaseFailureCapture.now))]) :=
  captureReality_degrades_failing_source Scenario.databaseFailureCapture
    (startValidation Engine.new) rfl

/-- C24. Method `captureReality` appends a snapshot if and only if the engine is active. On an
inactive engine (a fresh one, or one marked inactive) it returns nothing and leaves the engine,
with its snapshot list and claim list, unchanged. On an active engine (as after
`startValidation`) it appends exactly one snapshot `{timestamp, apiResponses, uiElements,
databaseState, performance}` at the end of the snapshot list, returns that same snapshot, and
leaves the claim list and the active flag unchanged. -/
theorem captureReality_appends_iff_active (env : CaptureEnv) (e : Engine) :
    (e.validationActive = false → captureReality env e = (none, e)) ∧
    (e.validationActive = true →
      captureReality env e
        = (some { timestamp := env.now, apiResponses := checkAPIHealth env,
                  uiElements := verifyUIState env, databaseState := queryDatabase env,
                  performance := measurePerformance env },
           { e with actualBehaviors := e.actualBehaviors ++
              [{ timestamp := env.now, apiResponses := checkAPIHealth env,
                 uiElements := verifyUIState env, databaseState := queryDatabase env,
                 performance := measurePerformance env }] })) ∧
    ((captureReality env e).2.actualBehaviors.length = e.actualBehaviors.length + 1
      ↔ e.validationActive = true) ∧
    ((captureReality env e).2.actualBehaviors ≠ e.actualBehaviors ↔ e.validationActive = true) ∧
    ((captureReality env e).1.isSome = e.validationActive) ∧
    (∀ reality, (captureReality env e).1 = some reality →
      (captureReality env e).2.actualBehaviors = e.actualBehaviors ++ [reality]) ∧
    (captureReality env e).2.claimedBehaviors = e.claimedBehaviors ∧
    (captureReality env e).2.validationActive = e.validationActive ∧
    Engine.new.validationActive = false ∧
    (startValidation e).validationActive = true ∧
    (startValidation e).actualBehaviors = e.actualBehaviors := by
  have hoff : e.validationActive = false → captureReality env e = (none, e) := by
    intro h
    unfold captureReality
    simp [h]
  have hon : e.validationActive = true →
      captureReality env e
        = (some { timestamp := env.now, apiResponses := checkAPIHealth env,
                  uiElements := verifyUIState env, databaseState := queryDatabase env,
                  performance := measurePerformance env },
           { e with actualBehaviors := e.actualBehaviors ++
              [{ timestamp := env.now, apiResponses := checkAPIHealth env,
                 uiElements := verifyUIState env, databaseState := queryDatabase env,
                 performance := measurePerformance env }] }) := by
    intro h
    unfold captureReality
    simp [h]
  refine ⟨hoff, hon, ?_, ?_, ?_, ?_, ?_, ?_, rfl, rfl, rfl⟩
  · cases h : e.validationActive with
    | false => rw [hoff h]; simp
    | true => rw [hon h]; simp
  · cases h : e.validationActive with
    | false => rw [hoff h]; simp
    | true => rw [hon h]; simp
  · cases h : e.validationActive with
    | false => rw [hoff h]; rfl
    | true => rw [hon h]; rfl
  · intro reality hr
    cases h : e.validationActive with
    | false =>
      rw [hoff h] at hr
      exact Option.noConfusion hr
    | true =>
      rw [hon h] at hr ⊢
      cases hr
      rfl
  · cases h : e.validationActive with
    | false => rw [hoff h]
    | true => rw [hon h]
  · cases h : e.validationActive with
    | false =>
      rw [hoff h]
      exact h
    | true =>
      rw [hon h]
      exact h

/-- C25. Method `recordClaim(feature, expected)` never fails, whatever the expected value
(`null` and values of an unknown category included): it appends exactly one claim
`{feature, expected, timestamp: now}` at the end of the claim list and leaves all earlier
claims, the snapshot list and the active flag unchanged. -/
theorem recordClaim_appends_one_claim (now : Int) (feature : String) (expected : JSVal)
    (e : Engine) :
    (recordClaim now feature expected e).claimedBehaviors
      = e.claimedBehaviors ++ [{ feature := feature, expected := expected, timestamp := now }] ∧
    (recordClaim now feature expected e).claimedBehaviors.length
      = e.claimedBehaviors.length + 1 ∧
    (recordClaim now feature expected e).claimedBehaviors.take e.claimedBehaviors.length
      = e.claimedBehaviors ∧
    ((recordClaim now feature expected e).claimedBehaviors.getLast?.map
      fun c => (c.feature, c.timestamp)) = some (feature, now) ∧
    (∀ c, (recordClaim now feature expected e).claimedBehaviors.getLast? = some c →
      c.expected = expected) ∧
    (recordClaim now feature expected e).actualBehaviors = e.actualBehaviors ∧
    (recordClaim now feature expected e).validationActive = e.validationActive ∧
    (recordClaim now feature .null e).claimedBehaviors
      = e.claimedBehaviors ++ [{ feature := feature, expected := .null, timestamp := now }] ∧
    (recordClaim now feature (.obj [("type", .str "unheard_of")]) e).claimedBehaviors
      = e.claimedBehaviors ++
        [{ feature := feature, expected := .obj [("type", .str "unheard_of")],
           timestamp := now }] := by
  refine ⟨rfl, ?_, ?_, ?_, ?_, rfl, rfl, rfl, rfl⟩
  · simp [recordClaim]
  · simp [recordClaim]
  · simp [recordClaim]
  · intro c hc
    simp [recordClaim] at hc
    rw [← hc]

/-! ## What the unit tests expect of the comparison and of the severity -/

open JSVal in
theorem compareAPIBehavior_no_endpoints (expected actual : JSVal)
    (hexp : expected.truthy = true) (hnone : (expected.field "endpoints").truthy = false) :
    compareAPIBehavior expected actual = .ok true := by
  unfold compareAPIBehavior
  rw [get_of_truthy expected "endpoints" hexp]
  simp [bind, Except.bind, pure, Except.pure, hnone]

/-- C26, what the code does. An `api` claim that declares no endpoint list matches every
snapshot whose API slice is present, whatever status the slice reports: `compareAPIBehavior`
looks at the expected endpoints only. So the claim `{type: 'api', status: 200}` matches the
later snapshot whose API slice is `{status: 'critical'}`, and `validateAgainstReality`, which
pairs the two, returns no divergence. -/
theorem status_only_api_claim_matches :
    (∀ expected actual, expected.field "type" = .str "api" →
      (expected.field "endpoints").truthy = false →
      (actual.field "apiResponses").truthy = true →
      behaviorsMatch expected actual = true) ∧
    (findMatchingReality Scenario.statusOnlyClaimState.engine.actualBehaviors
        { feature := "test", expected := Scenario.statusOnlyExpected, timestamp := 1000 }).isSome
      = true ∧
    behaviorsMatch Scenario.statusOnlyExpected (Scenario.criticalApiReality 2000).toJS = true ∧
    (validateAgainstReality (Scenario.calmEmergency 3000)
      Scenario.statusOnlyClaimState).1.length = 0 := by
  refine ⟨?_, by decide, by decide, by decide⟩
  intro expected actual hty hnone hslice
  have hexp := JSVal.truthy_of_field_str expected "type" "api" hty
  apply behaviorsMatch_of_ok
  rw [behaviorsMatchBody_api expected actual hty hslice]
  exact compareAPIBehavior_no_endpoints expected _ hexp hnone

theorem JSVal.truthy_of_field_arr (v : JSVal) (key : String) (items : List JSVal)
    (h : v.field key = .arr items) : v.truthy = true := by
  apply JSVal.truthy_of_field_truthy v key
  rw [h]
  rfl

open JSVal in
/-- C27, what the code does. For a `ui` claim and a snapshot whose only issue is a non-empty UI
error list, with overall performance status `good` and neither an API nor a database slice,
`assessSeverity` adds 20 points for the UI errors and 10 for the claim category: the score is
30 and the level is MEDIUM, not LOW. So it is for the claim `{expected: {type: 'ui'}}` and the
snapshot `{uiElements: {errors: [{type: 'minor'}]}, performance: {overallStatus: 'good'}}`. -/
theorem ui_errors_on_ui_claim_are_medium :
    (∀ now claim reality first rest,
      (claim.field "expected").field "type" = .str "ui" →
      (reality.field "apiResponses").truthy = false →
      (reality.field "databaseState").truthy = false →
      (reality.field "performance").field "overallStatus" = .str "good" →
      (reality.field "uiElements").field "errors" = .arr (first :: rest) →
      assessSeverity now claim reality
        = { level := .MEDIUM, score := 30,
            factors := ["UI errors detected", "UI functionality claim failure"],
            timestamp := now }) ∧
    (assessSeverity 7000 Scenario.minorUiClaim Scenario.minorUiReality).level = .MEDIUM ∧
    (assessSeverity 7000 Scenario.minorUiClaim Scenario.minorUiReality).score = 30 ∧
    (assessSeverity 7000 Scenario.minorUiClaim Scenario.minorUiReality).factors
      = ["UI errors detected", "UI functionality claim failure"] ∧
    (assessSeverity 7000 Scenario.minorUiClaim Scenario.minorUiReality).level ≠ .LOW := by
  refine ⟨?_, by decide, by decide, by decide, by decide⟩
  intro now claim reality first rest hty hapi hdb hperf hui
  have hexpected := truthy_of_field_str _ "type" "ui" hty
  have hclaim := truthy_of_field_truthy claim "expected" hexpected
  have hperft := truthy_of_field_str _ "overallStatus" "good" hperf
  have huit := truthy_of_field_arr _ "errors" _ hui
  have hreality := truthy_of_field_truthy reality "uiElements" huit
  have h1 : apiFactor reality = .ok [] := by
    unfold apiFactor
    rw [get_of_truthy reality "apiResponses" hreality]
    simp [bind, Except.bind, pure, Except.pure, hapi]
  have h2 : databaseFactor reality = .ok [] := by
    unfold databaseFactor
    rw [get_of_truthy reality "databaseState" hreality]
    simp [bind, Except.bind, pure, Except.pure, hdb]
  have h3 : performanceFactor reality = .ok [] := by
    unfold performanceFactor
    rw [get_of_truthy reality "performance" hreality]
    simp only [bind, Except.bind, hperft, if_true, get_of_truthy _ "overallStatus" hperft, hperf]
    simp [strictEq, pure, Except.pure]
  have h4 : uiFactor reality = .ok [(20, "UI errors detected")] := by
    unfold uiFactor
    rw [get_of_truthy reality "uiElements" hreality]
    simp only [bind, Except.bind, huit, if_true, get_of_truthy _ "errors" huit, hui,
      get_arr_length, gtZero_num]
    have hpos : (0 : Int) < ((first :: rest).length : Int) := by
      simp only [List.length_cons, Nat.cast_add, Nat.cast_one]
      omega
    simp [hpos, pure, Except.pure]
  have h5 : claimTypeFactor claim = .ok [(10, "UI functionality claim failure")] := by
    unfold claimTypeFactor
    rw [get_of_truthy claim "expected" hclaim]
    simp only [bind, Except.bind, hexpected, if_true, get_of_truthy _ "type" hexpected, hty]
    simp [strictEq, truthy, pure, Except.pure]
  have hfactors : severityFactors claim reality
      = .ok [(20, "UI errors detected"), (10, "UI functionality claim failure")] := by
    unfold severityFactors
    rw [h1, h2, h3, h4, h5]
    rfl
  unfold assessSeverity
  rw [hfactors]
  rfl

/-! ## The overall status of the security evidence -/

theorem JSVal.strictEq_str_iff (v : JSVal) (s : String) :
    JSVal.strictEq v (.str s) = true ↔ v = .str s := by
  constructor
  · exact JSVal.eq_of_strictEq v _
  · intro h
    rw [h]
    simp [JSVal.strictEq]

/-- C28. Method `determineOverallStatus(score, vulnerabilities)` returns `critical` if and only
if some vulnerability has severity `critical`, whatever the score; otherwise it returns `poor`
if more than two vulnerabilities have severity `high` or the score is below 50, else `fair`
below 70, else `good` below 85, else `excellent`. Thus a critical vulnerability with score 90
gives `critical`, no vulnerability with score 40 gives `poor`, and with score 95
`excellent`. -/
theorem determineOverallStatus_table (score : Int) (vulnerabilities : List Vulnerability) :
    (determineOverallStatus score vulnerabilities = "critical"
      ↔ ∃ v ∈ vulnerabilities, v.severity = .str "critical") ∧
    ((¬ ∃ v ∈ vulnerabilities, v.severity = .str "critical") →
      determineOverallStatus score vulnerabilities
        = if 2 < (vulnerabilities.filter fun v =>
              JSVal.strictEq v.severity (.str "high")).length ∨ score < 50 then "poor"
          else if score < 70 then "fair"
          else if score < 85 then "good"
          else "excellent") ∧
    determineOverallStatus 90 [{ severity := .str "critical" }] = "critical" ∧
    determineOverallStatus 40 [] = "poor" ∧
    determineOverallStatus 95 [] = "excellent" := by
  have hcrit : (vulnerabilities.filter fun v =>
      JSVal.strictEq v.severity (.str "critical")).length > 0
      ↔ ∃ v ∈ vulnerabilities, v.severity = .str "critical" := by
    rw [gt_iff_lt, List.length_pos, ne_eq, List.filter_eq_nil_iff]
    simp only [not_forall, Classical.not_imp, not_not, JSVal.strictEq_str_iff, exists_prop]
  refine ⟨?_, ?_, by decide, by decide, by decide⟩
  · unfold determineOverallStatus
    dsimp only
    rw [← hcrit]
    constructor
    · intro h
      by_contra hcon
      simp only [hcon, if_false] at h
      split at h
      · exact absurd h (by decide)
      · split at h
        · exact absurd h (by decide)
        · split at h
          · exact absurd h (by decide)
          · split at h
            · exact absurd h (by decide)
            · exact absurd h (by decide)
    · intro h
      simp only [h, if_true]
  · intro hno
    rw [← hcrit] at hno
    unfold determineOverallStatus
    dsimp only
    simp only [hno, if_false]
    by_cases hhigh : (vulnerabilities.filter fun v =>
        JSVal.strictEq v.severity (.str "high")).length > 2
    · have h2 : 2 < (vulnerabilities.filter fun v =>
          JSVal.strictEq v.severity (.str "high")).length := hhigh
      simp only [hhigh, if_true, h2, true_or]
    · have h2 : ¬ 2 < (vulnerabilities.filter fun v =>
          JSVal.strictEq v.severity (.str "high")).length := hhigh
      simp only [hhigh, if_false, h2, false_or]

/-! ## A failed security source -/

theorem overallScoreOf_fifteen : overallScoreOf 15 15 = 100 := by decide

/-- C29. The gate is fail-open on a failed security source. In a comprehensive run in which
the security source returns its error record (overall status `error`, score 0, no `maxScore`),
no test suite is requested, `validateAgainstReality` finds no divergence, and neither the UI
evidence source nor the token write raises, the result has score 15, maxScore 15, overallScore
100 and `passed = true`, and the token is written. -/
theorem failed_security_source_passes (env : RunEnv) (options : Options) (s : State)
    (ui : UIValidation)
    (hsec : env.security = .ok securityErrorRecord) (hrt : options.runTests = false)
    (hui : env.ui = .ok ui) (hwrite : env.tokenWrite = .ok ())
    (hnone : (validateAgainstReality env.emergency (stateAtClaimValidation env s)).1 = []) :
    ∃ v, (performComprehensiveValidation env options s).1 = .completed v ∧
      v.score = 15 ∧ v.maxScore = 15 ∧ v.overallScore = 100 ∧ v.passed = true ∧
      (performComprehensiveValidation env options s).1.passed = true ∧
      (performComprehensiveValidation env options s).2.files.token
        = some { timestamp := env.tokenTime, evidence := tokenEvidence v,
                 validator := "TruthForge Core" } := by
  have hrun : performComprehensiveValidation env options s
      = finishValidation env
          { systemState := (captureReality env.capture (startValidation s.engine)).1,
            security := some securityErrorRecord, ui := some ui, tests := none, claims := none }
          0 0 (stateAtClaimValidation env s) := by
    unfold performComprehensiveValidation stateAtClaimValidation
    dsimp only
    rw [hsec]
    dsimp only
    rw [hui]
    simp [hrt, securityErrorRecord]
  obtain ⟨v, hv, hcase⟩ := finishValidation_result env
    { systemState := (captureReality env.capture (startValidation s.engine)).1,
      security := some securityErrorRecord, ui := some ui, tests := none, claims := none }
    0 0 (stateAtClaimValidation env s)
  rw [hnone] at hv
  have hscore : v.score = 15 := by
    rw [hv]
    rfl
  have hmax : v.maxScore = 15 := by
    rw [hv]
    rfl
  have hoverall : v.overallScore = 100 := by
    rw [hv]
    exact overallScoreOf_fifteen
  have hpassed : v.passed = true := by
    rw [hv, decidedValidation_passed, determineValidationPass_eq_true_iff]
    refine ⟨?_, ?_, ?_, ?_⟩
    · show 60 ≤ overallScoreOf 15 15
      rw [overallScoreOf_fifteen]
      decide
    · rfl
    · rfl
    · rfl
  rcases hcase with ⟨hfalse, _⟩ | ⟨_, _, hres, htoken⟩ | ⟨_, message, herr, _⟩
  · rw [hpassed] at hfalse
    exact Bool.noConfusion hfalse
  · refine ⟨v, ?_, hscore, hmax, hoverall, hpassed, ?_, ?_⟩
    · rw [hrun, hres]
    · rw [hrun, hres]
      exact hpassed
    · rw [hrun, htoken]
  · rw [hwrite] at herr
    exact Except.noConfusion herr

/-- C29, witness: the run on a fresh validator around a healthy system whose security source
returns its error record. -/
theorem failed_security_source_passes_witness :
    ∃ v, (performComprehensiveValidation (Scenario.runEnv 5000 securityErrorRecord true)
        { runTests := false } Scenario.freshState).1 = .completed v ∧
      v.score = 15 ∧ v.maxScore = 15 ∧ v.overallScore = 100 ∧ v.passed = true ∧
      (performComprehensiveValidation (Scenario.runEnv 5000 securityErrorRecord true)
        { runTests := false } Scenario.freshState).1.passed = true ∧
      (performComprehensiveValidation (Scenario.runEnv 5000 securityErrorRecord true)
        { runTests := false } Scenario.freshState).2.files.token
        = some { timestamp := (Scenario.runEnv 5000 securityErrorRecord true).tokenTime,
                 evidence := tokenEvidence v, validator := "TruthForge Core" } :=
  failed_security_source_passes (Scenario.runEnv 5000 securityErrorRecord true)
    { runTests := false } Scenario.freshState { screenshots := [], validationResults := [] }
    rfl rfl rfl rfl rfl

/-! ## The fallback comparison -/

namespace JSON

theorem differs_append (p cs t : List Char) (h : differs p cs = true) :
    differs p (cs ++ t) = true := by
  induction p generalizing cs with
  | nil => simp [differs] at h
  | cons x xs ih =>
    cases cs with
    | nil => simp [differs] at h
    | cons c rest =>
      simp only [differs, List.cons_append, Bool.or_eq_true] at h ⊢
      rcases h with h | h
      · exact Or.inl h
      · exact Or.inr (ih rest h)

theorem isPrefixOf_eq_false_of_differs (p cs : List Char) (h : differs p cs = true) :
    p.isPrefixOf cs = false := by
  induction p generalizing cs with
  | nil => simp [differs] at h
  | cons x xs ih =>
    cases cs with
    | nil => simp [differs] at h
    | cons c rest =>
      simp only [differs, Bool.or_eq_true, bne_iff_ne, ne_eq] at h
      simp only [List.isPrefixOf, Bool.and_eq_false_imp, beq_iff_eq]
      intro hx
      rcases h with h | h
      · exact absurd hx.symm h
      · exact ih rest h

theorem linesClear_append (a b : List Char) (ha : linesClear a = true)
    (hb : linesClear b = true) : linesClear (a ++ b) = true := by
  induction a with
  | nil => exact hb
  | cons c cs ih =>
    simp only [linesClear, Bool.and_eq_true, Bool.or_eq_true] at ha
    simp only [List.cons_append, linesClear, Bool.and_eq_true, Bool.or_eq_true]
    refine ⟨?_, ih ha.2⟩
    rcases ha.1 with h | h
    · exact Or.inl h
    · exact Or.inr (differs_append _ _ _ h)

theorem hasKeyLine_eq_false_of_linesClear (a : List Char) (h : linesClear a = true) :
    hasKeyLine a = false := by
  induction a with
  | nil => rfl
  | cons c cs ih =>
    simp only [linesClear, Bool.and_eq_true, Bool.or_eq_true, bne_iff_ne, ne_eq] at h
    simp only [hasKeyLine, Bool.or_eq_false_iff, Bool.and_eq_false_imp, beq_iff_eq]
    refine ⟨?_, ih h.2⟩
    intro hc
    rcases h.1 with h1 | h1
    · exact absurd hc h1
    · exact isPrefixOf_eq_false_of_differs _ _ h1

theorem linesClear_of_no_newline (a : List Char) (h : ∀ c ∈ a, c ≠ '\n') :
    linesClear a = true := by
  induction a with
  | nil => rfl
  | cons c cs ih =>
    simp only [linesClear, Bool.and_eq_true, Bool.or_eq_true, bne_iff_ne, ne_eq]
    exact ⟨Or.inl (h c (List.mem_cons_self _ _)),
      ih fun x hx => h x (List.mem_cons_of_mem _ hx)⟩

theorem hasKeyLine_of_occurrence (u z : List Char) :
    hasKeyLine (u ++ '\n' :: keyLineStart ++ z) = true := by
  induction u with
  | nil =>
    simp only [List.nil_append, List.cons_append, hasKeyLine, Bool.or_eq_true,
      Bool.and_eq_true, beq_self_eq_true, true_and]
    left
    simp [keyLineStart, List.isPrefixOf]
  | cons c cs ih =>
    simp only [List.cons_append, hasKeyLine, Bool.or_eq_true]
    right
    simpa using ih

/-! ### The timestamp normalisation and line breaks -/

theorem matchesAt_length (p : List PatChar) (cs : List Char) (h : matchesAt p cs = true) :
    p.length ≤ cs.length := by
  induction p generalizing cs with
  | nil => simp
  | cons x xs ih =>
    cases cs with
    | nil => simp [matchesAt] at h
    | cons c rest =>
      cases x with
      | digit =>
        simp only [matchesAt, Bool.and_eq_true] at h
        simpa using ih rest h.2
      | lit y =>
        simp only [matchesAt, Bool.and_eq_true] at h
        simpa using ih rest h.2

theorem matchesAt_append_newline (p : List PatChar) (hp : patternAvoidsNewline p = true)
    (a b : List Char) : matchesAt p (a ++ '\n' :: b) = matchesAt p a := by
  induction p generalizing a with
  | nil => simp [matchesAt]
  | cons x xs ih =>
    cases x with
    | digit =>
      simp only [patternAvoidsNewline] at hp
      cases a with
      | nil => simp [matchesAt]
      | cons c rest => simp only [List.cons_append, matchesAt, List.append_eq, ih hp]
    | lit y =>
      simp only [patternAvoidsNewline, Bool.and_eq_true, bne_iff_ne, ne_eq] at hp
      cases a with
      | nil =>
        have : ('\n' == y) = false := by
          simp only [beq_eq_false_iff_ne, ne_eq]
          exact fun h => hp.1 h.symm
        simp [matchesAt, this]
      | cons c rest => simp only [List.cons_append, matchesAt, List.append_eq, ih hp.2]

theorem timestampPattern_avoids_newline : patternAvoidsNewline timestampPattern = true := by
  decide

theorem timestampPattern_length : timestampPattern.length = 26 := by decide

theorem replacement_eq :
    (dq :: "TIMESTAMP".toList ++ [dq]) = [dq, 'T', 'I', 'M', 'E', 'S', 'T', 'A', 'M', 'P', dq] := by
  decide

theorem replaceAux_append_newline (a b : List Char) (skip : Nat) (h : skip ≤ a.length) :
    replaceAux skip (a ++ '\n' :: b) = replaceAux skip a ++ '\n' :: replaceAux 0 b := by
  induction a generalizing skip with
  | nil =>
    have hs : skip = 0 := by simpa using h
    subst hs
    have hm : matchesAt timestampPattern ('\n' :: b) = false := by
      have := matchesAt_append_newline timestampPattern timestampPattern_avoids_newline [] b
      simpa [matchesAt, timestampPattern] using this
    simp [replaceAux, hm]
  | cons c cs ih =>
    cases skip with
    | succ k =>
      simp only [List.cons_append, replaceAux]
      exact ih k (by simpa using h)
    | zero =>
      have hm := matchesAt_append_newline timestampPattern timestampPattern_avoids_newline
        (c :: cs) b
      simp only [List.cons_append] at hm
      simp only [List.cons_append, replaceAux, List.append_eq, hm]
      cases hmatch : matchesAt timestampPattern (c :: cs) with
      | false =>
        simp only [Bool.false_eq_true, if_false, List.cons_append, List.cons.injEq, true_and]
        exact ih 0 (Nat.zero_le _)
      | true =>
        have hlen := matchesAt_length _ _ hmatch
        rw [timestampPattern_length] at hlen
        simp only [if_true, List.append_assoc, List.cons_append]
        rw [ih 25 (by simpa using hlen)]

theorem replaceAux_keyLineStart (y : List Char) :
    replaceAux 0 (keyLineStart ++ y) = keyLineStart ++ replaceAux 0 y := by
  simp [keyLineStart, replaceAux, matchesAt, timestampPattern, dq]

theorem hasKeyLine_append_no_newline (a b : List Char) (h : ∀ c ∈ a, c ≠ '\n') :
    hasKeyLine (a ++ b) = hasKeyLine b := by
  induction a with
  | nil => rfl
  | cons c cs ih =>
    have hc : (c == '\n') = false := by
      simp only [beq_eq_false_iff_ne, ne_eq]
      exact h c (List.mem_cons_self _ _)
    simp only [List.cons_append, hasKeyLine, hc, Bool.false_and, Bool.false_or]
    exact ih fun x hx => h x (List.mem_cons_of_mem _ hx)

theorem replacement_no_newline : ∀ c ∈ (dq :: "TIMESTAMP".toList ++ [dq]), c ≠ '\n' := by
  decide

theorem replaceAux_head_copied (cs out : List Char) (x : Char) (hx : x ≠ dq)
    (h : replaceAux 0 cs = x :: out) : ∃ rest, cs = x :: rest ∧ replaceAux 0 rest = out := by
  cases cs with
  | nil => simp [replaceAux] at h
  | cons c rest =>
    simp only [replaceAux] at h
    split at h
    · simp only [List.cons_append, List.cons.injEq] at h
      exact absurd h.1.symm hx
    · simp only [List.cons.injEq] at h
      exact ⟨rest, by rw [h.1], h.2⟩

theorem replaceAux_quote_copied (cs out : List Char) (y : Char) (hy : y ≠ 'T')
    (h : replaceAux 0 cs = dq :: y :: out) :
    ∃ rest, cs = dq :: rest ∧ replaceAux 0 rest = y :: out := by
  cases cs with
  | nil => simp [replaceAux] at h
  | cons c rest =>
    simp only [replaceAux] at h
    split at h
    · rw [replacement_eq] at h
      simp only [List.cons_append, List.cons.injEq] at h
      exact absurd h.2.1.symm hy
    · simp only [List.cons.injEq] at h
      exact ⟨rest, by rw [h.1], h.2⟩

theorem keyLineStart_prefix_of_normalized (cs : List Char)
    (h : keyLineStart.isPrefixOf (replaceAux 0 cs) = true) :
    keyLineStart.isPrefixOf cs = true := by
  rw [List.isPrefixOf_iff_prefix] at h ⊢
  obtain ⟨t, ht⟩ := h
  have h0 : replaceAux 0 cs = ' ' :: ' ' :: dq :: 't' :: 'y' :: t := by
    rw [← ht]
    rfl
  obtain ⟨c1, e1, h1⟩ := replaceAux_head_copied cs _ ' ' (by decide) h0
  obtain ⟨c2, e2, h2⟩ := replaceAux_head_copied c1 _ ' ' (by decide) h1
  obtain ⟨c3, e3, h3⟩ := replaceAux_quote_copied c2 _ 't' (by decide) h2
  obtain ⟨c4, e4, h4⟩ := replaceAux_head_copied c3 _ 't' (by decide) h3
  obtain ⟨c5, e5, _⟩ := replaceAux_head_copied c4 _ 'y' (by decide) h4
  refine ⟨c5, ?_⟩
  rw [e1, e2, e3, e4, e5]
  rfl

/-- The normalisation does not create a line that starts with `keyLineStart`. -/
theorem hasKeyLine_normalized (cs : List Char) (skip : Nat) (h : hasKeyLine cs = false) :
    hasKeyLine (replaceAux skip cs) = false := by
  induction cs generalizing skip with
  | nil => simp [replaceAux, hasKeyLine]
  | cons c rest ih =>
    simp only [hasKeyLine, Bool.or_eq_false_iff] at h
    cases skip with
    | succ k =>
      simp only [replaceAux]
      exact ih k h.2
    | zero =>
      simp only [replaceAux]
      split
      · rw [hasKeyLine_append_no_newline _ _ replacement_no_newline]
        exact ih 25 h.2
      · simp only [hasKeyLine, Bool.or_eq_false_iff]
        refine ⟨?_, ih 0 h.2⟩
        cases hp : keyLineStart.isPrefixOf (replaceAux 0 rest) with
        | false => simp
        | true =>
          rw [keyLineStart_prefix_of_normalized rest hp] at h
          simpa using h.1

/-! ### Line breaks inside a serialisation -/

theorem digitChar_ne_newline (n : Nat) : Nat.digitChar n ≠ '\n' := by
  have hsmall : ∀ k < 16, Nat.digitChar k ≠ '\n' := by decide
  by_cases hn : n < 16
  · exact hsmall n hn
  · unfold Nat.digitChar
    rw [if_neg (by omega), if_neg (by omega), if_neg (by omega), if_neg (by omega),
      if_neg (by omega), if_neg (by omega), if_neg (by omega), if_neg (by omega),
      if_neg (by omega), if_neg (by omega), if_neg (by omega), if_neg (by omega),
      if_neg (by omega), if_neg (by omega), if_neg (by omega), if_neg (by omega)]
    decide

theorem toDigitsCore_no_newline (base fuel n : Nat) (ds : List Char)
    (h : ∀ c ∈ ds, c ≠ '\n') : ∀ c ∈ Nat.toDigitsCore base fuel n ds, c ≠ '\n' := by
  induction fuel generalizing n ds with
  | zero =>
    rw [Nat.toDigitsCore]
    exact h
  | succ fuel ih =>
    rw [Nat.toDigitsCore]
    have hcons : ∀ c ∈ Nat.digitChar (n % base) :: ds, c ≠ '\n' := by
      intro c hc
      rcases List.mem_cons.mp hc with rfl | hc
      · exact digitChar_ne_newline _
      · exact h c hc
    split
    · exact hcons
    · exact ih _ _ hcons

theorem natRepr_no_newline (n : Nat) : ∀ c ∈ (Nat.repr n).toList, c ≠ '\n' := by
  unfold Nat.repr Nat.toDigits
  exact toDigitsCore_no_newline 10 (n + 1) n [] (by simp)

theorem intToString_no_newline (n : Int) : ∀ c ∈ (toString n).toList, c ≠ '\n' := by
  cases n with
  | ofNat m => exact natRepr_no_newline m
  | negSucc m =>
    intro c hc
    have hc2 : c ∈ "-".toList ++ (Nat.repr (m + 1)).toList := hc
    rcases List.mem_append.mp hc2 with h | h
    · have : c = '-' := by simpa using h
      rw [this]
      decide
    · exact natRepr_no_newline _ c h

theorem hexDigit_ne_newline : ∀ n < 32, hexDigit n ≠ '\n' := by decide

theorem quoteChar_no_newline (c : Char) : ∀ x ∈ quoteChar c, x ≠ '\n' := by
  have h16 := hexDigit_ne_newline
  unfold quoteChar
  split
  · decide
  · split
    · decide
    · split
      · decide
      · split
        · decide
        · split
          · decide
          · split
            · decide
            · split
              · decide
              · split
                · rename_i hlt
                  intro x hx
                  simp only [List.mem_cons, List.mem_singleton, List.not_mem_nil, or_false] at hx
                  rcases hx with rfl | rfl | rfl | rfl | rfl | rfl
                  · decide
                  · decide
                  · decide
                  · decide
                  · exact h16 _ (by omega)
                  · exact h16 _ (by omega)
                · rename_i h10 _ _ _
                  intro x hx
                  simp only [List.mem_singleton] at hx
                  rw [hx]
                  intro hc
                  apply h10
                  rw [hc]
                  rfl

theorem quoteChars_no_newline (cs : List Char) : ∀ x ∈ quoteChars cs, x ≠ '\n' := by
  induction cs with
  | nil => simp [quoteChars]
  | cons c rest ih =>
    intro x hx
    simp only [quoteChars, List.mem_append] at hx
    rcases hx with h | h
    · exact quoteChar_no_newline c x h
    · exact ih x h

theorem quote_no_newline (s : String) : ∀ x ∈ (quote s).toList, x ≠ '\n' := by
  intro x hx
  have hx2 : x ∈ dq :: quoteChars s.toList ++ [dq] := hx
  simp only [List.cons_append, List.mem_cons, List.mem_append, List.mem_singleton,
    List.not_mem_nil, or_false] at hx2
  rcases hx2 with rfl | h | rfl
  · decide
  · exact quoteChars_no_newline _ x h
  · decide

theorem pad_toList (n : Nat) : (pad n).toList = List.replicate n ' ' := rfl

theorem pad_no_newline (n : Nat) : ∀ x ∈ (pad n).toList, x ≠ '\n' := by
  intro x hx
  rw [pad_toList] at hx
  rw [(List.mem_replicate.mp hx).2]
  decide

theorem toList_append (a b : String) : (a ++ b).toList = a.toList ++ b.toList := rfl

theorem intercalate_go_linesClear (sep : String) (parts : List String) (acc : String)
    (pre : List Char) (hacc : linesClear (pre ++ acc.toList) = true)
    (hparts : ∀ p ∈ parts, linesClear (sep.toList ++ p.toList) = true) :
    linesClear (pre ++ (String.intercalate.go acc sep parts).toList) = true := by
  induction parts generalizing acc with
  | nil => exact hacc
  | cons a rest ih =>
    rw [String.intercalate.go]
    apply ih
    · rw [toList_append, toList_append, List.append_assoc, ← List.append_assoc]
      exact linesClear_append _ _ hacc (hparts a (List.mem_cons_self _ _))
    · exact fun p hp => hparts p (List.mem_cons_of_mem _ hp)

theorem wrap_nil (o c : String) (n : Nat) : wrap o c n [] = o ++ c := rfl

theorem wrap_cons_toList (o c : String) (n : Nat) (p : String) (ps : List String) :
    (wrap o c n (p :: ps)).toList
      = o.toList ++ ('\n' :: List.replicate (n + 2) ' '
          ++ (String.intercalate.go p (",\n" ++ pad (n + 2)) ps).toList)
          ++ ('\n' :: List.replicate n ' ' ++ c.toList) := by
  simp only [wrap, String.intercalate, toList_append, pad_toList, List.append_assoc]
  rfl

theorem differs_deep_indent (m : Nat) (t : List Char) :
    differs keyLineStart (List.replicate (m + 3) ' ' ++ t) = true := by
  simp [List.replicate, differs, keyLineStart, dq]

theorem differs_closing (n : Nat) (hn : 2 ≤ n) (c : List Char)
    (hc : differs [dq] c = true) : differs keyLineStart (List.replicate n ' ' ++ c) = true := by
  obtain ⟨k, rfl⟩ : ∃ k, n = k + 2 := ⟨n - 2, by omega⟩
  cases k with
  | zero =>
    cases c with
    | nil => simp [differs] at hc
    | cons x xs =>
      simp only [differs, Bool.or_false, bne_iff_ne, ne_eq] at hc
      simp [List.replicate, differs, keyLineStart, hc]
  | succ j => exact differs_deep_indent j c

theorem linesClear_cons (c : Char) (cs : List Char) :
    linesClear (c :: cs) = ((c != '\n' || differs keyLineStart cs) && linesClear cs) := rfl

theorem linesClear_replicate (n : Nat) : linesClear (List.replicate n ' ') = true :=
  linesClear_of_no_newline _ fun x hx => by
    rw [(List.mem_replicate.mp hx).2]
    decide

theorem linesClear_break_indent (m : Nat) :
    linesClear ('\n' :: List.replicate (m + 3) ' ') = true := by
  have h := differs_deep_indent m []
  rw [List.append_nil] at h
  rw [linesClear_cons, h, Bool.or_true, Bool.true_and]
  exact linesClear_replicate _

/-- The brackets and braces of a nested array or object keep the lines clear. -/
theorem wrap_linesClear (o c : String) (n : Nat) (parts : List String) (hn : 2 ≤ n)
    (ho : ∀ x ∈ o.toList, x ≠ '\n') (hc : ∀ x ∈ c.toList, x ≠ '\n')
    (hc2 : differs [dq] c.toList = true)
    (hparts : ∀ p ∈ parts, linesClear p.toList = true) :
    linesClear (wrap o c n parts).toList = true := by
  cases parts with
  | nil =>
    rw [wrap_nil, toList_append]
    exact linesClear_append _ _ (linesClear_of_no_newline _ ho) (linesClear_of_no_newline _ hc)
  | cons p ps =>
    obtain ⟨k, rfl⟩ : ∃ k, n = k + 2 := ⟨n - 2, by omega⟩
    rw [wrap_cons_toList]
    have hbreak : linesClear ('\n' :: List.replicate (k + 2 + 2) ' ') = true :=
      linesClear_break_indent (k + 1)
    have hsep : linesClear (",\n" ++ pad (k + 2 + 2)).toList = true := by
      have : (",\n" ++ pad (k + 2 + 2)).toList = [','] ++ '\n' :: List.replicate (k + 2 + 2) ' ' :=
        rfl
      rw [this]
      exact linesClear_append _ _ (by decide) hbreak
    have hinner : linesClear ('\n' :: List.replicate (k + 2 + 2) ' '
        ++ (String.intercalate.go p (",\n" ++ pad (k + 2 + 2)) ps).toList) = true := by
      apply intercalate_go_linesClear
      · exact linesClear_append _ _ hbreak (hparts p (List.mem_cons_self _ _))
      · intro a ha
        exact linesClear_append _ _ hsep (hparts a (List.mem_cons_of_mem _ ha))
    have hclose : linesClear ('\n' :: List.replicate (k + 2) ' ' ++ c.toList) = true := by
      have hd := differs_closing (k + 2) (by omega) c.toList hc2
      rw [List.cons_append, linesClear_cons, hd, Bool.or_true, Bool.true_and]
      exact linesClear_append _ _ (linesClear_replicate _) (linesClear_of_no_newline _ hc)
    exact linesClear_append _ _
      (linesClear_append _ _ (linesClear_of_no_newline _ ho) hinner) hclose

mutual
/-- Inside a value serialised at an indentation of two or more, no line starts with
`keyLineStart`. -/
theorem stringifyAt_linesClear : ∀ (v : JSVal) (n : Nat), 2 ≤ n →
    linesClear (stringifyAt n v).toList = true
  | .undefined, _, _ => by rw [stringifyAt]; decide
  | .null, _, _ => by rw [stringifyAt]; decide
  | .bool b, _, _ => by rw [stringifyAt]; cases b <;> decide
  | .num k, _, _ => by
    rw [stringifyAt]
    exact linesClear_of_no_newline _ (intToString_no_newline k)
  | .str s, _, _ => by
    rw [stringifyAt]
    exact linesClear_of_no_newline _ (quote_no_newline s)
  | .arr items, n, hn => by
    rw [stringifyAt]
    exact wrap_linesClear "[" "]" n _ hn (by decide) (by decide) (by decide)
      (stringifyItems_linesClear items (n + 2) (by omega))
  | .obj fields, n, hn => by
    rw [stringifyAt]
    exact wrap_linesClear "\x7b" "\x7d" n _ hn (by decide) (by decide) (by decide)
      (stringifyFields_linesClear fields (n + 2) (by omega))
theorem stringifyItems_linesClear : ∀ (items : List JSVal) (n : Nat), 2 ≤ n →
    ∀ p ∈ stringifyItems n items, linesClear p.toList = true
  | [], _, _ => by
    intro p hp
    simp [stringifyItems] at hp
  | x :: xs, n, hn => by
    intro p hp
    rw [stringifyItems, List.mem_cons] at hp
    rcases hp with rfl | hp
    · exact stringifyAt_linesClear x n hn
    · exact stringifyItems_linesClear xs n hn p hp
theorem stringifyFields_linesClear : ∀ (fields : List (String × JSVal)) (n : Nat), 2 ≤ n →
    ∀ p ∈ stringifyFields n fields, linesClear p.toList = true
  | [], _, _ => by
    intro p hp
    simp [stringifyFields] at hp
  | (k, v) :: rest, n, hn => by
    intro p hp
    by_cases hv : v = .undefined
    · subst hv
      rw [stringifyFields] at hp
      exact stringifyFields_linesClear rest n hn p hp
    · rw [stringifyFields, List.mem_cons] at hp
      · rcases hp with rfl | hp
        · rw [toList_append, toList_append]
          exact linesClear_append _ _
            (linesClear_append _ _ (linesClear_of_no_newline _ (quote_no_newline k))
              (by decide))
            (stringifyAt_linesClear v n hn)
        · exact stringifyFields_linesClear rest n hn p hp
      · exact hv
end

/-! ### The serialisation of a snapshot -/

theorem entry_topClear (k : String) (v : JSVal)
    (hk : differs keyLineStart (' ' :: ' ' :: (quote k).toList) = true) :
    linesClear ('\n' :: ' ' :: ' ' :: (quote k ++ ": " ++ stringifyAt 2 v).toList) = true := by
  have hd : differs keyLineStart
      (' ' :: ' ' :: (quote k ++ ": " ++ stringifyAt 2 v).toList) = true := by
    rw [toList_append, toList_append, List.append_assoc]
    exact differs_append _ _ _ hk
  rw [linesClear_cons, hd, Bool.or_true, Bool.true_and]
  have hrest : linesClear (quote k ++ ": " ++ stringifyAt 2 v).toList = true := by
    rw [toList_append, toList_append]
    exact linesClear_append _ _
      (linesClear_append _ _ (linesClear_of_no_newline _ (quote_no_newline k)) (by decide))
      (stringifyAt_linesClear v 2 (le_refl 2))
  exact linesClear_append [' ', ' '] _ (by decide) hrest

theorem stringifyFields_topClear : ∀ (fields : List (String × JSVal)),
    (∀ kv ∈ fields, differs keyLineStart (' ' :: ' ' :: (quote kv.1).toList) = true) →
    ∀ p ∈ stringifyFields 2 fields, linesClear ('\n' :: ' ' :: ' ' :: p.toList) = true
  | [], _ => by
    intro p hp
    simp [stringifyFields] at hp
  | (k, v) :: rest, hk => by
    intro p hp
    have hrest := stringifyFields_topClear rest fun kv h => hk kv (List.mem_cons_of_mem _ h)
    by_cases hv : v = .undefined
    · subst hv
      rw [stringifyFields] at hp
      exact hrest p hp
    · rw [stringifyFields, List.mem_cons] at hp
      · rcases hp with rfl | hp
        · exact entry_topClear k v (hk (k, v) (List.mem_cons_self _ _))
        · exact hrest p hp
      · exact hv

theorem wrap_top_linesClear (parts : List String)
    (hparts : ∀ p ∈ parts, linesClear ('\n' :: ' ' :: ' ' :: p.toList) = true) :
    linesClear (wrap "\x7b" "\x7d" 0 parts).toList = true := by
  cases parts with
  | nil => decide
  | cons p ps =>
    rw [wrap_cons_toList]
    have hinner : linesClear ('\n' :: List.replicate (0 + 2) ' '
        ++ (String.intercalate.go p (",\n" ++ pad (0 + 2)) ps).toList) = true := by
      apply intercalate_go_linesClear
      · exact hparts p (List.mem_cons_self _ _)
      · intro a ha
        exact linesClear_append [','] _ (by decide) (hparts a (List.mem_cons_of_mem _ ha))
    exact linesClear_append _ _ (linesClear_append _ _ (by decide) hinner) (by decide)

end JSON

/-- No line of a serialised snapshot starts with two spaces and a quoted key beginning with
`ty`: its own entries are `timestamp`, `apiResponses`, `uiElements`, `databaseState` and
`performance`, and what they hold is indented further. -/
theorem Reality.toJS_lines (r : Reality) :
    JSON.hasKeyLine (JSON.stringifyAt 0 r.toJS).toList = false := by
  apply JSON.hasKeyLine_eq_false_of_linesClear
  rw [Reality.toJS, JSON.stringifyAt]
  apply JSON.wrap_top_linesClear
  apply JSON.stringifyFields_topClear
  intro kv hkv
  simp only [List.mem_cons, List.mem_singleton, List.not_mem_nil, or_false] at hkv
  rcases hkv with rfl | rfl | rfl | rfl | rfl <;> dsimp only <;> decide

namespace JSON

/-! ### The serialisation of an object with a `type` entry -/

theorem occurrence_of_hasKeyLine (l : List Char) (h : hasKeyLine l = true) :
    ∃ u z, l = u ++ '\n' :: keyLineStart ++ z := by
  induction l with
  | nil => simp [hasKeyLine] at h
  | cons c cs ih =>
    simp only [hasKeyLine, Bool.or_eq_true, Bool.and_eq_true, beq_iff_eq] at h
    rcases h with ⟨hc, hp⟩ | h
    · obtain ⟨z, hz⟩ := List.isPrefixOf_iff_prefix.mp hp
      exact ⟨[], z, by simp [hc, ← hz]⟩
    · obtain ⟨u, z, huz⟩ := ih h
      exact ⟨c :: u, z, by simp [huz]⟩

theorem hasKeyLine_append_left (a b : List Char) (h : hasKeyLine b = true) :
    hasKeyLine (a ++ b) = true := by
  induction a with
  | nil => exact h
  | cons c cs ih => simp [hasKeyLine, ih]

theorem hasKeyLine_append_right (a b : List Char) (h : hasKeyLine a = true) :
    hasKeyLine (a ++ b) = true := by
  obtain ⟨u, z, rfl⟩ := occurrence_of_hasKeyLine a h
  have := hasKeyLine_of_occurrence u (z ++ b)
  simpa [List.append_assoc] using this

/-- The normalisation keeps a line that starts with `keyLineStart`. -/
theorem hasKeyLine_normalized_of_hasKeyLine (l : List Char) (h : hasKeyLine l = true) :
    hasKeyLine (replaceAux 0 l) = true := by
  obtain ⟨u, z, rfl⟩ := occurrence_of_hasKeyLine l h
  have h1 : u ++ '\n' :: keyLineStart ++ z = u ++ '\n' :: (keyLineStart ++ z) := by simp
  rw [h1, replaceAux_append_newline u _ 0 (Nat.zero_le _), replaceAux_keyLineStart]
  have := hasKeyLine_of_occurrence (replaceAux 0 u) (replaceAux 0 z)
  simpa [List.append_assoc] using this

theorem intercalate_go_hasKeyLine (sep : String) (parts : List String) (acc : String)
    (pre : List Char)
    (h : hasKeyLine (pre ++ acc.toList) = true
      ∨ ∃ p ∈ parts, hasKeyLine (sep.toList ++ p.toList) = true) :
    hasKeyLine (pre ++ (String.intercalate.go acc sep parts).toList) = true := by
  induction parts generalizing acc with
  | nil =>
    rcases h with h | ⟨p, hp, _⟩
    · exact h
    · simp at hp
  | cons a rest ih =>
    rw [String.intercalate.go]
    apply ih
    rw [toList_append, toList_append, List.append_assoc, ← List.append_assoc]
    rcases h with h | ⟨p, hp, hk⟩
    · exact Or.inl (hasKeyLine_append_right _ _ h)
    · rcases List.mem_cons.mp hp with rfl | hp
      · exact Or.inl (hasKeyLine_append_left _ _ hk)
      · exact Or.inr ⟨p, hp, hk⟩

theorem stringifyFields_type_entry (n : Nat) : ∀ (fields : List (String × JSVal)) (v : JSVal),
    fields.lookup "type" = some v → v ≠ .undefined →
    ∃ p ∈ stringifyFields n fields, ∃ w, p.toList = dq :: 't' :: 'y' :: w
  | [], _, h, _ => by simp at h
  | (k, x) :: rest, v, h, hv => by
    by_cases hk : "type" = k
    · subst hk
      have hx : x = v := by simpa [List.lookup] using h
      subst hx
      rw [stringifyFields]
      · refine ⟨_, List.mem_cons_self _ _, ?_⟩
        rw [toList_append, toList_append]
        exact ⟨_, rfl⟩
      · exact hv
    · have hrest : rest.lookup "type" = some v := by
        have hb : ("type" == k) = false := by simpa using hk
        simpa [List.lookup, hb] using h
      obtain ⟨p, hp, hw⟩ := stringifyFields_type_entry n rest v hrest hv
      refine ⟨p, ?_, hw⟩
      by_cases hx : x = .undefined
      · subst hx
        rw [stringifyFields]
        exact hp
      · rw [stringifyFields]
        · exact List.mem_cons_of_mem _ hp
        · exact hx

theorem wrap_top_hasKeyLine (parts : List String)
    (h : ∃ p ∈ parts, ∃ w, p.toList = dq :: 't' :: 'y' :: w) :
    hasKeyLine (wrap "\x7b" "\x7d" 0 parts).toList = true := by
  obtain ⟨p, hp, w, hw⟩ := h
  cases parts with
  | nil => simp at hp
  | cons first ps =>
    rw [wrap_cons_toList]
    apply hasKeyLine_append_right
    apply hasKeyLine_append_left
    have hsep : (",\n" ++ pad (0 + 2)).toList = [',', '\n', ' ', ' '] := rfl
    have hline : ∀ t : List Char,
        hasKeyLine ('\n' :: ' ' :: ' ' :: dq :: 't' :: 'y' :: t) = true := by
      intro t
      simp [hasKeyLine, keyLineStart, List.isPrefixOf]
    refine intercalate_go_hasKeyLine _ ps first ('\n' :: List.replicate (0 + 2) ' ') ?_
    rcases List.mem_cons.mp hp with rfl | hp
    · left
      rw [hw]
      exact hline w
    · right
      refine ⟨p, hp, ?_⟩
      rw [hsep, hw]
      exact hasKeyLine_append_left [','] _ (hline w)

end JSON

/-! ### Claims of category `security` or `data_integrity` -/

theorem JSVal.obj_of_field_str (v : JSVal) (key s : String) (h : v.field key = .str s) :
    ∃ fields, v = .obj fields ∧ fields.lookup key = some (.str s) := by
  cases v with
  | undefined => simp [JSVal.field, JSVal.get] at h
  | null => simp [JSVal.field, JSVal.get] at h
  | bool b => simp [JSVal.field, JSVal.get] at h
  | num n => simp [JSVal.field, JSVal.get] at h
  | str t =>
    simp only [JSVal.field, JSVal.get] at h
    split at h <;> exact JSVal.noConfusion h
  | arr items =>
    simp only [JSVal.field, JSVal.get] at h
    split at h <;> exact JSVal.noConfusion h
  | obj fields =>
    refine ⟨fields, rfl, ?_⟩
    simp only [JSVal.field, JSVal.get] at h
    cases hl : fields.lookup key with
    | none =>
      rw [hl] at h
      exact JSVal.noConfusion h
    | some x =>
      rw [hl] at h
      exact congrArg some h

/-- The whole-object comparison of an object that has a `type` entry with a snapshot is
false: the serialisation of the object has a line for that entry, that of the snapshot has
none. -/
theorem fallbackMatch_type_entry (expected : JSVal) (t : String) (r : Reality)
    (hty : expected.field "type" = .str t) : fallbackMatch expected r.toJS = .ok false := by
  obtain ⟨fields, rfl, hl⟩ := JSVal.obj_of_field_str expected "type" t hty
  have hexp : JSON.hasKeyLine (JSON.stringifyAt 0 (.obj fields)).toList = true := by
    rw [JSON.stringifyAt]
    exact JSON.wrap_top_hasKeyLine _
      (JSON.stringifyFields_type_entry (0 + 2) fields (.str t) hl (fun h => JSVal.noConfusion h))
  have hsnap := Reality.toJS_lines r
  have hne : JSON.normalizeTimestamps (JSON.stringifyAt 0 (.obj fields))
      ≠ JSON.normalizeTimestamps (JSON.stringifyAt 0 r.toJS) := by
    intro h
    have h1 := JSON.hasKeyLine_normalized_of_hasKeyLine _ hexp
    have h2 := JSON.hasKeyLine_normalized _ 0 hsnap
    have h3 : JSON.replaceAux 0 (JSON.stringifyAt 0 (.obj fields)).toList
        = JSON.replaceAux 0 (JSON.stringifyAt 0 r.toJS).toList :=
      congrArg String.toList h
    rw [h3, h2] at h1
    exact Bool.noConfusion h1
  have hb : (JSON.normalizeTimestamps (JSON.stringifyAt 0 (.obj fields))
      == JSON.normalizeTimestamps (JSON.stringifyAt 0 r.toJS)) = false := by
    simpa using hne
  show (match JSON.stringify (.obj fields), JSON.stringify r.toJS with
    | some expectedStr, some actualStr =>
      Except.ok (JSON.normalizeTimestamps expectedStr == JSON.normalizeTimestamps actualStr)
    | _, _ => Except.error "Cannot read properties of undefined (reading replace)") = .ok false
  rw [Reality.toJS] at hb ⊢
  simp only [JSON.stringify]
  rw [hb]

/-- A claim whose category is none of `api`, `ui`, `database` and `performance` is compared
as a whole object. -/
theorem behaviorsMatchBody_fallback (expected actual : JSVal) (t : String)
    (hty : expected.field "type" = .str t) (ha : actual.truthy = true)
    (h1 : t ≠ "api") (h2 : t ≠ "ui") (h3 : t ≠ "database") (h4 : t ≠ "performance") :
    behaviorsMatchBody expected actual = fallbackMatch expected actual := by
  have he := JSVal.truthy_of_field_str expected "type" t hty
  unfold behaviorsMatchBody
  rw [sliceFor_miss expected actual t "api" "apiResponses" hty h1,
    sliceFor_miss expected actual t "ui" "uiElements" hty h2,
    sliceFor_miss expected actual t "database" "databaseState" hty h3,
    sliceFor_miss expected actual t "performance" "performance" hty h4]
  simp [he, ha, bind, Except.bind, pure, Except.pure]

/-- C30. A claim of category `security` or `data_integrity` is never confirmed: for every
expected value whose `type` is one of the two and every snapshot, `behaviorsMatch` goes
through the whole-object comparison, which is false, and returns false; so every recorded
claim with such an expectation that is paired with a snapshot is among the divergences
`validateAgainstReality` returns. -/
theorem security_claim_never_confirmed (expected : JSVal)
    (hty : expected.field "type" = .str "security"
      ∨ expected.field "type" = .str "data_integrity") :
    (∀ r : Reality,
      behaviorsMatchBody expected r.toJS = fallbackMatch expected r.toJS
        ∧ fallbackMatch expected r.toJS = .ok false
        ∧ behaviorsMatch expected r.toJS = false) ∧
    ∀ (env : EmergencyEnv) (s : State) (c : Claim) (r : Reality),
      c ∈ s.engine.claimedBehaviors → c.expected = expected →
      findMatchingReality s.engine.actualBehaviors c = some r →
      ∃ d ∈ (validateAgainstReality env s).1, d.claim = c ∧ d.reality = r := by
  have hall : ∀ r : Reality,
      behaviorsMatchBody expected r.toJS = fallbackMatch expected r.toJS
        ∧ fallbackMatch expected r.toJS = .ok false
        ∧ behaviorsMatch expected r.toJS = false := by
    intro r
    have hbody : behaviorsMatchBody expected r.toJS = fallbackMatch expected r.toJS := by
      rcases hty with h | h
      · exact behaviorsMatchBody_fallback expected r.toJS _ h rfl
          (by decide) (by decide) (by decide) (by decide)
      · exact behaviorsMatchBody_fallback expected r.toJS _ h rfl
          (by decide) (by decide) (by decide) (by decide)
    have hfalse : fallbackMatch expected r.toJS = .ok false := by
      rcases hty with h | h
      · exact fallbackMatch_type_entry expected _ r h
      · exact fallbackMatch_type_entry expected _ r h
    exact ⟨hbody, hfalse, behaviorsMatch_of_ok expected r.toJS false (hbody.trans hfalse)⟩
  refine ⟨hall, ?_⟩
  intro env s c r hc hexp hfind
  have hbm : behaviorsMatch c.expected r.toJS = false := by
    rw [hexp]
    exact (hall r).2.2
  obtain ⟨n, hn⟩ := List.mem_iff_getElem?.mp hc
  have hmem : (n, c) ∈ s.engine.claimedBehaviors.enum := List.mk_mem_enum_iff_getElem?.mpr hn
  refine ⟨{ claim := c, reality := r,
            severity := assessSeverity (env.assessmentClock n) c.toJS r.toJS }, ?_, rfl, rfl⟩
  rw [validateAgainstReality_fst, collectDivergences_eq_filterMap, List.mem_filterMap]
  refine ⟨(n, c), hmem, ?_⟩
  simp [divergenceOf, hfind, hbm]

/-- The claim `audit` of category `security`, recorded at instant 1000 and paired with the
snapshot taken at instant 2000, is reported as a divergence. -/
theorem security_claim_never_confirmed_witness :
    (Scenario.securityExpected.field "type" = .str "security"
      ∨ Scenario.securityExpected.field "type" = .str "data_integrity") ∧
    behaviorsMatch Scenario.securityExpected (Scenario.loginReality 2000 200).toJS = false ∧
    ∃ d ∈ (validateAgainstReality (Scenario.calmEmergency 3000)
        Scenario.securityClaimState).1,
      d.claim.feature = "audit" ∧ d.reality.timestamp = 2000 :=
  ⟨Or.inl rfl,
    ((security_claim_never_confirmed Scenario.securityExpected (Or.inl rfl)).1
      (Scenario.loginReality 2000 200)).2.2,
    by
      obtain ⟨d, hd, h1, h2⟩ :=
        (security_claim_never_confirmed Scenario.securityExpected (Or.inl rfl)).2
          (Scenario.calmEmergency 3000) Scenario.securityClaimState
          { feature := "audit", expected := Scenario.securityExpected, timestamp := 1000 }
          (Scenario.loginReality 2000 200) (List.mem_singleton.mpr rfl) rfl rfl
      exact ⟨d, hd, by rw [h1], by rw [h2]; rfl⟩⟩

end TruthForge
